import Mathlib

/-! # nuedb-core: command validation, parsing and dispatch

A shallow embedding of `server.js` and `handlers/syntaxHandler.js`.

* A JavaScript string is a list of Unicode code points (`List Char`); lone
  surrogates are outside the model, and positions and lengths count code
  points, which is what JavaScript counts on text of the Basic Multilingual
  Plane.
* A regular expression is a term of `Re`; `Re.run` lists the final states of
  all successful ways to match at a position, in the priority order of the
  ECMAScript backtracking matcher, so the head of the list is the match that
  `RegExp.prototype.exec` reports (the program uses no look-around and no
  back-reference).
* A number is the exact value of its decimal literal; rounding to an IEEE
  double is not modelled.
* The storage engine is not called: `executeCommand` returns the call it would
  make (`Effect.call`), the error it throws, or `Effect.typeError` for a
  low-level failure on an `undefined` or `null` operand.
* The helper `cleanColumns` of `handlers/utils/string.js` is a parameter of
  the dispatcher.
-/

namespace NueDB

/-- A JavaScript string, as its code points. -/
abbrev Str := List Char

/-! ## String primitives -/

/-- The single quote character. -/
def sq : Char := Char.ofNat 39

/-- The double quote character. -/
def dq : Char := Char.ofNat 34

/-- WhiteSpace and LineTerminator code points: what `\s` matches and what
`trim` removes. -/
def isWhiteSpace (c : Char) : Bool :=
  c.toNat == 9 || c.toNat == 10 || c.toNat == 11 || c.toNat == 12 || c.toNat == 13 ||
  c.toNat == 32 || c.toNat == 160 || c.toNat == 5760 ||
  (8192 ≤ c.toNat && c.toNat ≤ 8202) || c.toNat == 8232 || c.toNat == 8233 ||
  c.toNat == 8239 || c.toNat == 8287 || c.toNat == 12288 || c.toNat == 65279

/-- LineTerminator code points: what `.` does not match. -/
def isLineTerminator (c : Char) : Bool :=
  c.toNat == 10 || c.toNat == 13 || c.toNat == 8232 || c.toNat == 8233

/-- ASCII decimal digit. -/
def isDigit (c : Char) : Bool := 48 ≤ c.toNat && c.toNat ≤ 57

/-- ASCII upper-case letter. -/
def isUpperAscii (c : Char) : Bool := 65 ≤ c.toNat && c.toNat ≤ 90

/-- ASCII lower-case letter. -/
def isLowerAscii (c : Char) : Bool := 97 ≤ c.toNat && c.toNat ≤ 122

/-- The 63 basic word characters of `\w`. -/
def isWordAscii (c : Char) : Bool :=
  isDigit c || isUpperAscii c || isLowerAscii c || c.toNat == 95

/-- `String.prototype.trimStart`. -/
def trimStart (s : Str) : Str := s.dropWhile isWhiteSpace

/-- `String.prototype.trimEnd`. -/
def trimEnd (s : Str) : Str := (s.reverse.dropWhile isWhiteSpace).reverse

/-- `String.prototype.trim`. -/
def trim (s : Str) : Str := trimEnd (trimStart s)

/-- `s.split(sep)` for a one-character separator: cut at every occurrence,
keeping empty pieces. -/
def splitChar (sep : Char) : Str → List Str
  | [] => [[]]
  | c :: cs =>
    if c = sep then [] :: splitChar sep cs
    else match splitChar sep cs with
      | [] => [[c]]
      | p :: ps => (c :: p) :: ps

/-- Index of the first element equal to `x`. -/
def firstIndex {α : Type} [DecidableEq α] (x : α) : List α → Option Nat
  | [] => none
  | y :: ys => if y = x then some 0 else (firstIndex x ys).map (fun i => i + 1)

/-- `s.indexOf(c)` for a one-character needle: the first index, or -1. -/
def indexOfChar (c : Char) (s : Str) : Int :=
  match firstIndex c s with
  | some i => (i : Int)
  | none => -1

/-- `s.lastIndexOf(c)` for a one-character needle: the last index, or -1. -/
def lastIndexOfChar (c : Char) (s : Str) : Int :=
  match firstIndex c s.reverse with
  | some i => (s.length : Int) - 1 - i
  | none => -1

/-- `s.substring(a, b)`: both ends clamped to `[0, length]`, swapped when
`a > b`. -/
def substring (s : Str) (a b : Int) : Str :=
  let a1 := min (max a 0).toNat s.length
  let b1 := min (max b 0).toNat s.length
  (s.drop (min a1 b1)).take (max a1 b1 - min a1 b1)

/-- `s.substring(a)`. -/
def substringFrom (s : Str) (a : Int) : Str := s.drop (max a 0).toNat

/-- `s.startsWith(c)` for a one-character string. -/
def startsWithChar (c : Char) (s : Str) : Bool := s.head? == some c

/-- `s.endsWith(c)` for a one-character string. -/
def endsWithChar (c : Char) (s : Str) : Bool := s.getLast? == some c

/-- First index at which `needle` occurs in `s` (`s.indexOf(needle)`), scanning
from offset `i`. -/
def indexOfFrom (needle : Str) : Str → Nat → Option Nat
  | [], i => if needle.isEmpty then some i else none
  | c :: cs, i => if needle.isPrefixOf (c :: cs) then some i else indexOfFrom needle cs (i + 1)

/-- `s.indexOf(needle)`, -1 when absent. -/
def indexOfStr (needle s : Str) : Int :=
  match indexOfFrom needle s 0 with
  | some i => (i : Int)
  | none => -1

/-- Upper-case form of one code point.  Exact on ASCII and on the non-ASCII
code points whose upper-case form is made of ASCII letters (dotless i, long s,
sharp s and the Latin ligatures U+FB00 to U+FB06); any other code point is
left as it is, and its real upper-case form is not ASCII either. -/
def upperChar (c : Char) : Str :=
  if isLowerAscii c then [Char.ofNat (c.toNat - 32)]
  else if c.toNat = 305 then ['I']
  else if c.toNat = 383 then ['S']
  else if c.toNat = 223 then ['S', 'S']
  else if c.toNat = 64256 then ['F', 'F']
  else if c.toNat = 64257 then ['F', 'I']
  else if c.toNat = 64258 then ['F', 'L']
  else if c.toNat = 64259 then ['F', 'F', 'I']
  else if c.toNat = 64260 then ['F', 'F', 'L']
  else if c.toNat = 64261 then ['S', 'T']
  else if c.toNat = 64262 then ['S', 'T']
  else [c]

/-- `String.prototype.toUpperCase`, as far as a comparison with an ASCII
keyword can tell (see `upperChar`). -/
def toUpperCase (s : Str) : Str := s.flatMap upperChar

/-! ## Numbers -/

/-- A JavaScript number that `parseFloat` can return: the signed decimal
value `mant * 10 ^ exp`, with `mant` not divisible by 10 (or both zero), so
that equal numbers are equal terms; the sign is kept apart so that `-0` is a
value of its own; or an infinity. -/
inductive JSNumber where
  | finite (neg : Bool) (mant : Nat) (exp : Int)
  | infinity (neg : Bool)
deriving DecidableEq

/-- The rational value of a finite number. -/
def JSNumber.toRat : JSNumber → Option ℚ
  | JSNumber.finite neg mant exp =>
    some ((if neg then -1 else 1) * (mant : ℚ) * (10 : ℚ) ^ exp)
  | JSNumber.infinity _ => none

/-- Value of a run of decimal digits. -/
def digitsValue (ds : Str) : Nat := ds.foldl (fun n c => 10 * n + (c.toNat - 48)) 0

/-- The number written by the digits `ds` times `10 ^ e`, in the normal form
of `JSNumber.finite`: trailing zeros of `ds` go to the exponent. -/
def decimalNumber (neg : Bool) (ds : Str) (e : Int) : JSNumber :=
  let sig := (ds.reverse.dropWhile (fun c => c == '0')).reverse
  if digitsValue sig = 0 then JSNumber.finite neg 0 0
  else JSNumber.finite neg (digitsValue sig) (e + ((ds.length - sig.length : Nat) : Int))

/-- An optional sign: whether it is a minus, and the text after it. -/
def takeSign : Str → Bool × Str
  | c :: cs => if c = '-' then (true, cs) else if c = '+' then (false, cs) else (false, c :: cs)
  | [] => (false, [])

/-- The exponent part `e[+-]digits` at the head of `s`, when there is one:
its value and the text after it. -/
def exponentPart : Str → Int × Str
  | c :: cs =>
    if c = 'e' ∨ c = 'E' then
      let (neg, r) := takeSign cs
      let ds := r.takeWhile isDigit
      if ds.isEmpty then (0, c :: cs)
      else (if neg then - (digitsValue ds : Int) else (digitsValue ds : Int), r.dropWhile isDigit)
    else (0, c :: cs)
  | [] => (0, [])

/-- The longest prefix of `s` (after leading white space) that is a signed
decimal literal (`Infinity`, or digits with an optional fraction and
exponent): its value and the text left after it; `none` when there is no such
prefix. -/
def scanFloat (s : Str) : Option (JSNumber × Str) :=
  let (neg, r) := takeSign (trimStart s)
  if "Infinity".toList.isPrefixOf r then some (JSNumber.infinity neg, r.drop 8)
  else
    let ip := r.takeWhile isDigit
    let r1 := r.dropWhile isDigit
    match r1 with
    | '.' :: r2 =>
      let fp := r2.takeWhile isDigit
      if ip.isEmpty ∧ fp.isEmpty then none
      else
        let ex := exponentPart (r2.dropWhile isDigit)
        some (decimalNumber neg (ip ++ fp) (ex.1 - (fp.length : Int)), ex.2)
    | _ =>
      if ip.isEmpty then none
      else
        let ex := exponentPart r1
        some (decimalNumber neg ip ex.1, ex.2)

/-- `parseFloat(s)`: the value of the longest numeric prefix; `none` stands
for NaN. -/
def parseFloat (s : Str) : Option JSNumber := (scanFloat s).map (fun p => p.1)

/-- Value of a hexadecimal digit, when `c` is one. -/
def hexDigit (c : Char) : Option Nat :=
  if isDigit c then some (c.toNat - 48)
  else if 97 ≤ c.toNat ∧ c.toNat ≤ 102 then some (c.toNat - 87)
  else if 65 ≤ c.toNat ∧ c.toNat ≤ 70 then some (c.toNat - 55)
  else none

/-- `parseInt(s)` without a radix: skip leading white space, read a sign, an
optional `0x` prefix and the longest run of digits; `none` stands for NaN. -/
def parseInt (s : Str) : Option Int :=
  let (neg, r) := takeSign (trimStart s)
  let sign : Int := if neg then -1 else 1
  match r with
  | '0' :: x :: r2 =>
    if x = 'x' ∨ x = 'X' then
      let ds := r2.takeWhile (fun c => (hexDigit c).isSome)
      if ds.isEmpty then none
      else some (sign * (ds.foldl (fun n c => 16 * n + (hexDigit c).getD 0) 0 : Nat))
    else some (sign * (digitsValue (r.takeWhile isDigit) : Nat))
  | _ =>
    let ds := r.takeWhile isDigit
    if ds.isEmpty then none else some (sign * (digitsValue ds : Nat))

/-! ## Regular expressions -/

/-- Matcher state: the text before the current position (nearest character
first), the text from the current position on, and the captures. -/
structure MState where
  pre : Str
  rest : Str
  caps : Nat → Option Str

/-- Regular expression syntax.  `chr p` matches one code point satisfying `p`;
`rep min max greedy r` is a quantifier; `grp i r` is capture group `i`; `bol`
and `eol` are `^` and `$` (no multiline flag); `wordB w` is `\b` for the word
characters `w`. -/
inductive Re where
  | eps
  | chr (p : Char → Bool)
  | seq (a b : Re)
  | alt (a b : Re)
  | rep (min : Nat) (max : Option Nat) (greedy : Bool) (r : Re)
  | grp (i : Nat) (r : Re)
  | bol
  | eol
  | wordB (w : Char → Bool)

namespace Re

/-- Indices of the capture groups inside a regular expression. -/
def groups : Re → List Nat
  | eps => []
  | chr _ => []
  | seq a b => groups a ++ groups b
  | alt a b => groups a ++ groups b
  | rep _ _ _ r => groups r
  | grp i r => i :: groups r
  | bol => []
  | eol => []
  | wordB _ => []

/-- The state with the captures of the groups `gs` cleared. -/
def clearCaps (gs : List Nat) (x : MState) : MState :=
  { x with caps := fun j => if j ∈ gs then none else x.caps j }

/-- The state `y`, reached from `x`, with capture `i` set to the text consumed in between. -/
def setCap (i : Nat) (x y : MState) : MState :=
  { y with caps := fun j =>
      if j = i then some (x.rest.take (x.rest.length - y.rest.length)) else y.caps j }

/-- RepeatMatcher: `step` matches the quantified atom once.  An iteration that
consumes nothing once the minimum is reached is rejected; the atom's captures
`gs` are cleared before each iteration.  `fuel` bounds the number of
iterations (the remaining text length plus `min` is always enough). -/
def repAux (step : MState → List MState) (gs : List Nat) (greedy : Bool) :
    Nat → Nat → Option Nat → MState → List MState
  | 0, _, _, x => [x]
  | fuel + 1, min, max, x =>
    if max = some 0 then [x]
    else
      let iter := (step (clearCaps gs x)).flatMap (fun y =>
        if min = 0 ∧ y.rest.length = x.rest.length then []
        else repAux step gs greedy fuel (min - 1) (max.map (fun m => m - 1)) y)
      if min ≠ 0 then iter
      else if greedy then iter ++ [x]
      else x :: iter

/-- Whether the character next to a position, if any, is a word character. -/
def isWordAt (w : Char → Bool) : Option Char → Bool
  | none => false
  | some c => w c

/-- All successful matches of `r` starting in state `x`, best first. -/
def run : Re → MState → List MState
  | eps, x => [x]
  | chr p, x =>
    match x.rest with
    | [] => []
    | c :: cs => if p c then [{ x with pre := c :: x.pre, rest := cs }] else []
  | seq a b, x => (run a x).flatMap (run b)
  | alt a b, x => run a x ++ run b x
  | rep min max greedy r, x =>
    repAux (run r) (groups r) greedy (x.rest.length + min + 1) min max x
  | grp i r, x => (run r x).map (setCap i x)
  | bol, x => if x.pre.isEmpty then [x] else []
  | eol, x => if x.rest.isEmpty then [x] else []
  | wordB w, x => if isWordAt w x.pre.head? != isWordAt w x.rest.head? then [x] else []

end Re

/-- One match: where it starts, the matched text, the text after it and the
captures. -/
structure Match where
  index : Nat
  text : Str
  after : Str
  caps : Nat → Option Str

/-- Try to match `r` at the position that has `pre` (reversed) before it and
`rest` after it. -/
def matchAt (r : Re) (pre rest : Str) : Option Match :=
  match Re.run r ⟨pre, rest, fun _ => none⟩ with
  | [] => none
  | y :: _ => some ⟨pre.length, rest.take (rest.length - y.rest.length), y.rest, y.caps⟩

/-- Leftmost match of `r` at or after the given position. -/
def searchFrom (r : Re) : Str → Str → Option Match
  | pre, [] => matchAt r pre []
  | pre, c :: cs =>
    match matchAt r pre (c :: cs) with
    | some m => some m
    | none => searchFrom r (c :: pre) cs

/-- `r.exec(s)` / `s.match(r)` for a regular expression without the global
flag: the leftmost match. -/
def reExec (r : Re) (s : Str) : Option Match := searchFrom r [] s

/-- `r.test(s)`. -/
def reTest (r : Re) (s : Str) : Bool := (reExec r s).isSome

/-- `s.search(r)`: index of the leftmost match, or -1. -/
def reSearch (r : Re) (s : Str) : Int :=
  match reExec r s with
  | some m => (m.index : Int)
  | none => -1

/-- Successive matches of a global regular expression from a position on;
after an empty match the scan moves one character on. -/
def matchAllFrom (r : Re) : Nat → Str → Str → List Match
  | 0, _, _ => []
  | fuel + 1, pre, rest =>
    match searchFrom r pre rest with
    | none => []
    | some m =>
      if m.text.isEmpty then
        match m.after with
        | [] => [m]
        | c :: cs => m :: matchAllFrom r fuel (c :: (rest.take (m.index - pre.length)).reverse ++ pre) cs
      else
        m :: matchAllFrom r fuel
          ((rest.take (m.index - pre.length + m.text.length)).reverse ++ pre) m.after

/-- `s.matchAll(r)` / `s.match(r)` for a regular expression with the global
flag. -/
def reMatchAll (r : Re) (s : Str) : List Match := matchAllFrom r (s.length + 1) [] s

/-- `s.replace(r, repl)` for a regular expression without the global flag and
a replacement without `$` patterns: only the leftmost match is replaced. -/
def reReplaceFirst (r : Re) (repl s : Str) : Str :=
  match reExec r s with
  | none => s
  | some m => s.take m.index ++ repl ++ m.after

/-- The loop of `RegExp.prototype[Symbol.split]` for a regular expression
without capture groups: `p` is the start of the current piece (text `cur`,
reversed, collected so far), the scan is at `pre` / `rest`. -/
def splitLoop (r : Re) : Nat → Str → Str → Str → Bool → List Str
  | 0, cur, _, rest, _ => [cur.reverse ++ rest]
  | _ + 1, cur, _, [], _ => [cur.reverse]
  | fuel + 1, cur, pre, c :: cs, atPieceStart =>
    match matchAt r pre (c :: cs) with
    | none => splitLoop r fuel (c :: cur) (c :: pre) cs false
    | some m =>
      if m.text.isEmpty ∧ atPieceStart then
        splitLoop r fuel (c :: cur) (c :: pre) cs false
      else if m.text.isEmpty then
        cur.reverse :: splitLoop r fuel [c] (c :: pre) cs false
      else
        cur.reverse :: splitLoop r fuel [] (m.text.reverse ++ pre) m.after true

/-- `s.split(r)` for a regular expression without capture groups. -/
def reSplit (r : Re) (s : Str) : List Str :=
  match s with
  | [] => if (matchAt r [] []).isSome then [] else [[]]
  | _ => splitLoop r (s.length + 1) [] [] s true

/-! ## The regular expressions of the program -/

namespace Rx

/-- Canonical form of a code point for a comparison under the flags `ui`
(simple case folding), exact for a comparison with an ASCII character: only
the ASCII letters, the long s (U+017F) and the Kelvin sign (U+212A) fold to an
ASCII letter. -/
def canonU (c : Char) : Char :=
  if c.toNat = 383 then 's'
  else if c.toNat = 8490 then 'k'
  else if isUpperAscii c then Char.ofNat (c.toNat + 32)
  else c

/-- Canonical form under the flag `i` without `u`: only the ASCII letters are
folded onto each other. -/
def canonI (c : Char) : Char :=
  if isUpperAscii c then Char.ofNat (c.toNat + 32) else c

/-- Word characters of `\w` and `\b` under the flags `ui`. -/
def wordU (c : Char) : Bool := isWordAscii (canonU c)

/-- A character matched as it is written. -/
def lit (c : Char) : Re := Re.chr (fun d => d == c)

/-- A pattern character under the flags `ui`. -/
def ci (c : Char) : Re := Re.chr (fun d => canonU d == canonU c)

/-- A pattern character under the flag `i`. -/
def ciI (c : Char) : Re := Re.chr (fun d => canonI d == canonI c)

/-- Concatenation of a list of parts. -/
def cat : List Re → Re
  | [] => Re.eps
  | [r] => r
  | r :: rs => Re.seq r (cat rs)

/-- Alternation of a list of alternatives, first alternative first. -/
def alts : List Re → Re
  | [] => Re.chr (fun _ => false)
  | [r] => r
  | r :: rs => Re.alt r (alts rs)

/-- Literal text under the flags `ui`. -/
def kw (s : String) : Re := cat (s.toList.map ci)

/-- Literal text under the flag `i`. -/
def kwI (s : String) : Re := cat (s.toList.map ciI)

/-- Quantifier `r*`. -/
def star (r : Re) : Re := Re.rep 0 none true r

/-- Quantifier `r+`. -/
def plus (r : Re) : Re := Re.rep 1 none true r

/-- Quantifier `r?`. -/
def opt (r : Re) : Re := Re.rep 0 (some 1) true r

/-- Quantifier `r+?`. -/
def lazyPlus (r : Re) : Re := Re.rep 1 none false r

/-- Class `\s`. -/
def ws : Re := Re.chr isWhiteSpace

/-- Class `\w` under `ui`. -/
def wd : Re := Re.chr wordU

/-- Class `\d`. -/
def dg : Re := Re.chr isDigit

/-- The dot: any code point but a line terminator. -/
def dot : Re := Re.chr (fun c => !isLineTerminator c)

/-- Word boundary `\b` under `ui`. -/
def wb : Re := Re.wordB wordU

/-- Class of both quote characters. -/
def quote : Re := Re.chr (fun c => c == sq || c == dq)

/-- Class `[^']`. -/
def notSq : Re := Re.chr (fun c => c != sq)

/-- Class `[^"]`. -/
def notDq : Re := Re.chr (fun c => c != dq)

/-- Class `[^'",]`. -/
def plain : Re := Re.chr (fun c => c != sq && c != dq && c != ',')

/-- Class `[\w\s,]`. -/
def wsc : Re := Re.chr (fun c => wordU c || isWhiteSpace c || c == ',')

/-- Pattern `\d*\.?\d*`. -/
def decimal : Re := cat [star dg, opt (lit '.'), star dg]

/-- Pattern `(?:\w+\.\w+|\w+)`. -/
def dotted : Re := alts [cat [plus wd, lit '.', plus wd], plus wd]

/-- Pattern `\(\s*['"]?[\w\s,]+['"]?(?:\s*,\s*['"]?[\w\s,]+['"]?|\d*\.?\d*)*\s*\)`. -/
def parenList : Re :=
  cat [lit '(', star ws, opt quote, plus wsc, opt quote,
    star (alts [cat [star ws, lit ',', star ws, opt quote, plus wsc, opt quote], decimal]),
    star ws, lit ')']

/-- Pattern `/^\s*SAVE\s*$/ui`. -/
def saveRegex : Re := cat [Re.bol, star ws, kw "SAVE", star ws, Re.eol]

/-- Pattern `\w+\s*(?:as\s+PRIMARY_KEY\s*)?`. -/
def createColumn : Re :=
  cat [plus wd, star ws, opt (cat [kw "as", plus ws, kw "PRIMARY_KEY", star ws])]

/-- Pattern
`/^\s*CREATE\s+(DATABASE|TABLE)\s+(\w+)\s*(?:\((\w+\s*(?:as\s+PRIMARY_KEY\s*)?(?:,\s*\w+\s*(?:as\s+PRIMARY_KEY\s*)?)*\s*)\))?$/ui`. -/
def createRegex : Re :=
  cat [Re.bol, star ws, kw "CREATE", plus ws, Re.grp 1 (alts [kw "DATABASE", kw "TABLE"]), plus ws,
    Re.grp 2 (plus wd), star ws,
    opt (cat [lit '(',
      Re.grp 3 (cat [createColumn, star (cat [lit ',', star ws, createColumn]), star ws]),
      lit ')']),
    Re.eol]

/-- Class `[^()]`. -/
def notParen : Re := Re.chr (fun c => c != '(' && c != ')')

/-- The validator's pattern
`/INSERT\s+INTO\s+\w+\s*(?:\(([^()]+)\))?\s*(?:VALUES\s*\(([^()]+)\))?\s*/ui`. -/
def insertCheck : Re :=
  cat [kw "INSERT", plus ws, kw "INTO", plus ws, plus wd, star ws,
    opt (cat [lit '(', Re.grp 1 (plus notParen), lit ')']), star ws,
    opt (cat [kw "VALUES", star ws, lit '(', Re.grp 2 (plus notParen), lit ')']), star ws]

/-- Pattern `\s*.+?\s*(?:,\s*.+?\s*)*`. -/
def lazyList : Re :=
  cat [star ws, lazyPlus dot, star ws, star (cat [lit ',', star ws, lazyPlus dot, star ws])]

/-- The dispatcher's pattern
`/INSERT\s+INTO\s+\w+\s*(?:\((\s*.+?\s*(?:,\s*.+?\s*)*)\))?\s*(?:VALUES\s*\((\s*.+?\s*(?:,\s*.+?\s*)*)\))?\s*/ui`. -/
def insertRegex : Re :=
  cat [kw "INSERT", plus ws, kw "INTO", plus ws, plus wd, star ws,
    opt (cat [lit '(', Re.grp 1 lazyList, lit ')']), star ws,
    opt (cat [kw "VALUES", star ws, lit '(', Re.grp 2 lazyList, lit ')']), star ws]

/-- Pattern `/(?:'([^']+)'|"([^"]+)")|([^,]+)/g` of `cleanValues`. -/
def valueToken : Re :=
  alts [alts [cat [lit sq, Re.grp 1 (plus notSq), lit sq], cat [lit dq, Re.grp 2 (plus notDq), lit dq]],
    Re.grp 3 (plus (Re.chr (fun c => c != ',')))]

/-- Pattern `/\bVALUES\b/ui`. -/
def valuesWord : Re := cat [wb, kw "VALUES", wb]

/-- Pattern `/\bIN\b/ui`. -/
def inWord : Re := cat [wb, kw "IN", wb]

/-- Pattern `/\bWHERE\b/ui`. -/
def whereWord : Re := cat [wb, kw "WHERE", wb]

/-- Pattern `/\bLIMIT\b/ui`. -/
def limitWord : Re := cat [wb, kw "LIMIT", wb]

/-- Pattern `/\bOFFSET\b/ui`. -/
def offsetWord : Re := cat [wb, kw "OFFSET", wb]

/-- Pattern `/\bDISTINCT\b/i`. -/
def distinctWord : Re := cat [Re.wordB isWordAscii, kwI "DISTINCT", Re.wordB isWordAscii]

/-- Pattern `(=|!=|>|<|>=|<=)`, in the order written. -/
def compareOp : Re := alts [lit '=', cat [lit '!', lit '='], lit '>', lit '<',
  cat [lit '>', lit '='], cat [lit '<', lit '=']]

/-- Pattern `/WHERE\s+(.+?)\s*(=|!=|>|<|>=|<=)\s*('[^']*'|\b[^' ]+\b)/ui`. -/
def whereRegex : Re :=
  cat [kw "WHERE", plus ws, Re.grp 1 (lazyPlus dot), star ws, Re.grp 2 compareOp, star ws,
    Re.grp 3 (alts [cat [lit sq, star notSq, lit sq],
      cat [wb, plus (Re.chr (fun c => c != sq && c != ' ')), wb]])]

/-- Pattern `/OFFSET\s+(\d+)/ui`. -/
def offsetRegex : Re := cat [kw "OFFSET", plus ws, Re.grp 1 (plus dg)]

/-- Pattern `/LIMIT\s+(\d+)/ui`. -/
def limitRegex : Re := cat [kw "LIMIT", plus ws, Re.grp 1 (plus dg)]

/-- Pattern `(?:INNER\s+JOIN\s+\w+\s+(?:ON\s+(?:\w+\.\w+|\w+)\s*=\s*(?:\w+\.\w+|\w+)\s*)*)*`. -/
def joins : Re :=
  star (cat [kw "INNER", plus ws, kw "JOIN", plus ws, plus wd, plus ws,
    star (cat [kw "ON", plus ws, dotted, star ws, lit '=', star ws, dotted, star ws])])

/-- Pattern `(?:=|!=|>|<|>=|<=|\s+LIKE\s+|\s+NOT\s+LIKE\s+|IN|\s+NOT\s+IN\s+)` of the FIND
validator. -/
def findOp : Re :=
  alts [lit '=', cat [lit '!', lit '='], lit '>', lit '<', cat [lit '>', lit '='],
    cat [lit '<', lit '='], cat [plus ws, kw "LIKE", plus ws],
    cat [plus ws, kw "NOT", plus ws, kw "LIKE", plus ws], kw "IN",
    cat [plus ws, kw "NOT", plus ws, kw "IN", plus ws]]

/-- Pattern `(?:\s*['"]?[%]?[\w]+[%]?['"]?|\d*\.?\d*)` of the FIND validator. -/
def findScalar : Re :=
  alts [cat [star ws, opt quote, opt (lit '%'), plus wd, opt (lit '%'), opt quote], decimal]

/-- The FIND validator's pattern: `^\s*FIND\s+((?:DISTINCT\s+)?)((?:\*|[\w.\s,]+)?)\s+IN\s+(\w+)\s*`,
the joins (group 4), `(?:\s*WHERE\s+(field)\s*(operator)\s*(value)?)?`, `\s*`,
`(?:ORDER\s+BY\s+(field)\s*)?`, `((?:ASC|DESC|))?`, `\s*(?:LIMIT\s+(\d+))?\s*(?:OFFSET\s+(\d+))?$`,
flags `ui`. -/
def findRegex : Re :=
  cat [Re.bol, star ws, kw "FIND", plus ws,
    Re.grp 1 (opt (cat [kw "DISTINCT", plus ws])),
    Re.grp 2 (opt (alts [lit '*',
      plus (Re.chr (fun c => wordU c || c == '.' || isWhiteSpace c || c == ','))])),
    plus ws, kw "IN", plus ws, Re.grp 3 (plus wd), star ws,
    Re.grp 4 joins,
    opt (cat [star ws, kw "WHERE", plus ws, Re.grp 5 dotted, star ws, Re.grp 6 findOp, star ws,
      Re.grp 7 (opt (alts [parenList, findScalar]))]),
    star ws,
    opt (cat [kw "ORDER", plus ws, kw "BY", plus ws, Re.grp 8 dotted, star ws]),
    opt (Re.grp 9 (alts [kw "ASC", kw "DESC", Re.eps])),
    star ws,
    opt (cat [kw "LIMIT", plus ws, Re.grp 10 (plus dg)]),
    star ws,
    opt (cat [kw "OFFSET", plus ws, Re.grp 11 (plus dg)]),
    Re.eol]

/-- Pattern `(?:=|!=|>=|<=|>|<|LIKE|NOT LIKE|IN|NOT IN)` of the DELETE and UPDATE validators. -/
def checkOp : Re :=
  alts [lit '=', cat [lit '!', lit '='], cat [lit '>', lit '='], cat [lit '<', lit '='],
    lit '>', lit '<', kw "LIKE", kw "NOT LIKE", kw "IN", kw "NOT IN"]

/-- Pattern
`(?:\(\s*['"]?[\w\s,]+['"]?(?:\s*,\s*['"]?[\w\s,]+['"]?|\d*\.?\d*)*\s*\)|(?:\s*['"]?[%]?[\w\s,]+[%]?['"]?|\d*\.?\d*))`
of the DELETE and UPDATE validators. -/
def checkValue : Re :=
  alts [parenList,
    alts [cat [star ws, opt quote, opt (lit '%'), plus wsc, opt (lit '%'), opt quote], decimal]]

/-- The DELETE validator's pattern
`/^DELETE\s*FROM\s*(\w+)\s*WHERE\s*(\w+)\s*(operator)\s*(value)$/ui`. -/
def deleteCheck : Re :=
  cat [Re.bol, kw "DELETE", star ws, kw "FROM", star ws, Re.grp 1 (plus wd), star ws, kw "WHERE",
    star ws, Re.grp 2 (plus wd), star ws, Re.grp 3 checkOp, star ws, Re.grp 4 checkValue, Re.eol]

/-- Pattern `(?:"[^"]*"|'[^']*'|[^'",]*)`. -/
def setValue : Re :=
  alts [cat [lit dq, star notDq, lit dq], cat [lit sq, star notSq, lit sq], star plain]

/-- Pattern `\w+\s*=\s*(?:"[^"]*"|'[^']*'|[^'",]*)` under the flags `ui`: one assignment. -/
def assignment : Re := cat [plus wd, star ws, lit '=', star ws, setValue]

/-- Pattern `/\w+\s*=\s*(?:"[^"]*"|'[^']*'|[^'",]*)/g`, without the flags `ui`: the global
pattern that cuts the SET clause into assignments; its `\w` is the ASCII class. -/
def setPair : Re := cat [plus (Re.chr isWordAscii), star ws, lit '=', star ws, setValue]

/-- The UPDATE validator's pattern
`/^UPDATE\s+(\w+)\s+SET\s+(assignment(?:\s*,\s*assignment|\d*\.?\d*)*)\s*WHERE\s*(\w+)\s*(operator)\s*(value)/ui`. -/
def updateCheck : Re :=
  cat [Re.bol, kw "UPDATE", plus ws, Re.grp 1 (plus wd), plus ws, kw "SET", plus ws,
    Re.grp 2 (cat [assignment, star (alts [cat [star ws, lit ',', star ws, assignment], decimal])]),
    star ws, kw "WHERE", star ws, Re.grp 3 (plus wd), star ws, Re.grp 4 checkOp, star ws,
    Re.grp 5 checkValue]

/-- The dispatcher's pattern
`/^DELETE FROM (\w+)(?: WHERE (\w+)\s*(=|!=|>|<|>=|<=)\s*(['"]?[\w\s]+['"]?))?$/ui`. -/
def deleteRegex : Re :=
  cat [Re.bol, kw "DELETE FROM ", Re.grp 1 (plus wd),
    opt (cat [kw " WHERE ", Re.grp 2 (plus wd), star ws, Re.grp 3 compareOp, star ws,
      Re.grp 4 (cat [opt quote, plus (Re.chr (fun c => wordU c || isWhiteSpace c)), opt quote])]),
    Re.eol]

/-- The dispatcher's pattern
`/^UPDATE\s+(\w+)\s+SET\s+(assignment(?:\s*,\s*assignment)*)\s*WHERE\s+(\w+)\s*(=|!=|>|<|>=|<=)\s*(?:"([^"]*)"|'([^']*)'|([^'",]+))/ui`. -/
def updateRegex : Re :=
  cat [Re.bol, kw "UPDATE", plus ws, Re.grp 1 (plus wd), plus ws, kw "SET", plus ws,
    Re.grp 2 (cat [assignment, star (cat [star ws, lit ',', star ws, assignment])]),
    star ws, kw "WHERE", plus ws, Re.grp 3 (plus wd), star ws, Re.grp 4 compareOp, star ws,
    alts [cat [lit dq, Re.grp 5 (star notDq), lit dq], cat [lit sq, Re.grp 6 (star notSq), lit sq],
      Re.grp 7 (plus plain)]]

end Rx

/-! ## The validator (`handlers/syntaxHandler.js`) -/

/-- Message of the error thrown by `execError`. -/
def execError (detail : Str) : Str :=
  "You have an error on your command syntax: ".toList ++ detail

/-- Decimal text of a natural number (`Number.prototype.toString`). -/
def natToStr (n : Nat) : Str := (Nat.repr n).toList

/-- The argument check shared by the DROP and DESCRIBE rules. -/
def verifyElement (verb : String) (commandParts : List Str) : Except Str Unit :=
  if commandParts.length < 2 then
    Except.error (execError ("Not enough arguments for the ".toList ++ verb.toList ++ " command.".toList))
  else if commandParts.length > 3 then
    Except.error (execError ("2 arguments expected (database or table name) but got: ".toList ++
      natToStr (commandParts.length - 1)))
  else
    let element := commandParts.getD 1 []
    if toUpperCase element = "DATABASE".toList ∨ toUpperCase element = "TABLE".toList then
      Except.ok ()
    else
      Except.error (execError ("Element: ".toList ++ element ++ " does not support the ".toList ++
        verb.toList ++ " command.".toList))

/-- Function `verifySyntax`: `Except.ok` when the command is accepted,
`Except.error` with the message of the error thrown otherwise. -/
def verifySyntax (command : Str) : Except Str Unit :=
  let commandParts := splitChar ' ' command
  let action := commandParts.headD []
  let upper := toUpperCase action
  if upper = "INIT".toList then
    let databaseName : Str := (commandParts.get? 1).getD "undefined".toList
    if (parseInt databaseName).isSome then
      Except.error (execError ("Invalid database name -> ".toList ++ databaseName))
    else if commandParts.length > 2 then
      Except.error (execError ("1 argument expected (database name) but got: ".toList ++
        natToStr (commandParts.length - 1)))
    else Except.ok ()
  else if upper = "SAVE".toList then
    if reTest Rx.saveRegex command then Except.ok ()
    else Except.error (execError "Invalid format for finding command".toList)
  else if upper = "DROP".toList then verifyElement "DROP" commandParts
  else if upper = "CREATE".toList then
    if reTest Rx.createRegex command then Except.ok ()
    else Except.error (execError "Invalid format for create command".toList)
  else if upper = "INSERT".toList then
    if reTest Rx.insertCheck command then Except.ok ()
    else Except.error (execError "Invalid format for insert command".toList)
  else if upper = "DESCRIBE".toList then verifyElement "DESCRIBE" commandParts
  else if upper = "FIND".toList then
    if reTest Rx.findRegex command then Except.ok ()
    else Except.error (execError "Invalid format for finding command".toList)
  else if upper = "DELETE".toList then
    if reTest Rx.deleteCheck command then Except.ok ()
    else Except.error (execError "Invalid format for delete command".toList)
  else if upper = "UPDATE".toList then
    if reTest Rx.updateCheck command then Except.ok ()
    else Except.error (execError "Invalid format for update command".toList)
  else
    Except.error (execError ("Invalid command action: ".toList ++ [dq] ++ action ++ [dq]))

/-! ## Value coercion and the dispatcher (`server.js`) -/

/-- A typed value: what `clean` returns. -/
inductive Typed where
  | null
  | num (n : JSNumber)
  | str (s : Str)
deriving DecidableEq

/-- Function `clean`, on a string argument (every call site passes one). -/
def clean (value : Str) : Typed :=
  if toUpperCase value = "NULL".toList then Typed.null
  else if (startsWithChar sq value && endsWithChar sq value) ||
      (startsWithChar dq value && endsWithChar dq value) then
    Typed.str (substring value 1 ((value.length : Int) - 1))
  else
    match parseFloat value with
    | some n => Typed.num n
    | none => Typed.str value

/-- A call to the storage engine, with the arguments passed.  `none` stands
for `undefined`. -/
inductive Call where
  | init (dbName : Str)
  | createTable (tableName : Option Str) (primaryKey : Str) (columns : List Str)
  | insert (tableName : Option Str) (columns : Option (List Typed)) (values : List Typed)
  | find (tableName : Str) (distinct : Bool) (columns : Option (List Str)) (condition : Str)
      (operator : Str) (conditionValue : Option Typed) (offset : Option Nat) (limit : Option Nat)
  | showOneTable (tableName : Str) (distinct : Bool) (columns : Option (List Str))
      (offset : Option Nat) (limit : Option Nat)
  | showOneTableByName (tableName : Str)
  | describeOneTable (tableName : Str)
  | describeDatabase (hasSession : Bool) (name : Str)
  | dropDb (name : Str)
  | dropTable (tableName : Str)
  | delete (tableName : Str) (condition : Str) (operator : Str) (conditionValue : Option Typed)
  | update (tableName : Str) (set : List Str) (setValues : List Typed) (condition : Str)
      (operator : Str) (conditionValue : Option Typed)
deriving DecidableEq

/-- What one run of `executeCommand` does: `call c` makes the single
collaborator call `c` and returns its result; `useDatabase n` replaces the
session by a new handle for `n`, calls its `init` and returns the text
`Using database: n`; `error m` throws an `Error` with message `m` before any
call; `typeError` is a low-level failure (a property read on `undefined` or
`null`) before any call. -/
inductive Effect where
  | call (c : Call)
  | useDatabase (dbName : Str)
  | error (message : Str)
  | typeError
deriving DecidableEq

/-- The collaborator calls an effect makes. -/
def Effect.calls : Effect → List Call
  | Effect.call c => [c]
  | Effect.useDatabase n => [Call.init n]
  | Effect.error _ => []
  | Effect.typeError => []

/-- Session error text of the CREATE, INSERT, DESCRIBE TABLE and DROP TABLE
branches (spelled `intialized` in the source). -/
def sessionErrorA : Str :=
  "No database intialized. Use ".toList ++ [dq] ++ "INIT <database_name>".toList ++ [dq] ++
    " to initialize a database.".toList

/-- Session error text of the FIND, DELETE and UPDATE branches. -/
def sessionErrorB : Str :=
  "No database initialized. Use ".toList ++ [dq] ++ "INIT <database_name>".toList ++ [dq] ++
    " to initialize a database.".toList

/-- `xs.indexOf(x)` on an array of strings: the first index, or -1. -/
def arrayIndexOf (x : Str) (xs : List Str) : Int :=
  match firstIndex x xs with
  | some i => (i : Int)
  | none => -1

/-- `xs.splice(i, 1)`: remove one element at index `i`; a negative `i` counts
from the end. -/
def splice1 (xs : List Str) (i : Int) : List Str :=
  if i < 0 then xs.eraseIdx ((xs.length : Int) + i).toNat else xs.eraseIdx i.toNat

/-- One step of the `forEach` over the column entries: the state is the
primary key found so far and the forwarded column list. -/
def primaryKeyStep (st : Str × List Str) (element : Str) : Str × List Str :=
  if (splitChar ' ' (trim element)).get? 2 = some "PRIMARY_KEY".toList then
    ((splitChar ' ' (trim element)).headD [], splice1 st.2 (arrayIndexOf element st.2))
  else st

/-- The primary key and the forwarded columns computed by the CREATE branch
from the entries that `cleanColumns` returned. -/
def extractPrimaryKey (entries : List Str) : Str × List Str :=
  entries.foldl primaryKeyStep ("id".toList, entries)

/-- The CREATE branch after the session check.  `cleanColumns` is the helper
of `handlers/utils/string.js`, which is a parameter here. -/
def createEffect (cleanColumns : Str → List Str) (command : Str) (tableName : Option Str) :
    Effect :=
  let columnsStartIndex := indexOfChar '(' command
  let columnsEndIndex := lastIndexOfChar ')' command
  let pk := extractPrimaryKey (cleanColumns (substring command (columnsStartIndex + 1) columnsEndIndex))
  Effect.call (Call.createTable tableName pk.1 pk.2)

/-- The local function `cleanValues` of the INSERT branch. -/
def cleanValues (values : Str) : List Typed :=
  (reMatchAll Rx.valueToken values).map (fun m => clean (trim m.text))

/-- The INSERT branch after the session check. -/
def insertEffect (command : Str) (tableName : Option Str) : Effect :=
  match reExec Rx.insertRegex command with
  | none => Effect.typeError
  | some m =>
    match m.caps 2 with
    | none =>
      if reSearch Rx.valuesWord command ≠ -1 then
        Effect.error "INSERT command requires a VALUES clause with parameters.".toList
      else
        match m.caps 1 with
        | none => Effect.typeError
        | some insertColumns => Effect.call (Call.insert tableName none (cleanValues insertColumns))
    | some insertValues =>
      match m.caps 1 with
      | none => Effect.typeError
      | some insertColumns =>
        Effect.call (Call.insert tableName
          (some ((splitChar ',' insertColumns).map (fun v => clean (trim v))))
          (cleanValues insertValues))

/-- The number captured by `OFFSET\s+(\d+)` or `LIMIT\s+(\d+)`, when the
keyword is present as a word and the pattern matches. -/
def clauseNumber (wordRe clauseRe : Re) (command : Str) : Option Nat :=
  if reSearch wordRe command ≠ -1 then
    match reExec clauseRe command with
    | some m => (m.caps 1).map digitsValue
    | none => none
  else none

/-- The FIND branch after the session check. -/
def findEffect (command : Str) : Effect :=
  let parts := reSplit Rx.inWord command
  if parts.length ≠ 2 then Effect.error "Invalid format for finding command".toList
  else
    let findTableName := (splitChar ' ' (trim (parts.getD 1 []))).headD []
    let findCommand0 := trim (parts.getD 0 [])
    let distinct := (reExec Rx.distinctWord findCommand0).isSome
    let findCommand := if distinct then trim (reReplaceFirst Rx.distinctWord [] findCommand0)
      else findCommand0
    let columnsMatch := trim (substringFrom findCommand (indexOfStr "FIND".toList findCommand + 5))
    let findColumns : Option (List Str) :=
      if columnsMatch.isEmpty then some []
      else if columnsMatch = ['*'] then none
      else some ((splitChar ',' columnsMatch).map trim)
    let conditionMatch : Option Match :=
      if reSearch Rx.whereWord command ≠ -1 then reExec Rx.whereRegex command else none
    let condition : Option Str := conditionMatch.bind (fun m => m.caps 1)
    let findOperator : Str := (conditionMatch.bind (fun m => m.caps 2)).getD []
    let conditionValue : Option Str := conditionMatch.bind (fun m => m.caps 3)
    let offset := clauseNumber Rx.offsetWord Rx.offsetRegex command
    let limit := clauseNumber Rx.limitWord Rx.limitRegex command
    let cleanConditionValue : Option Typed :=
      match conditionValue with
      | some v => if v.isEmpty then none else some (clean v)
      | none => none
    match condition with
    | some (c :: cs) =>
      Effect.call (Call.find findTableName distinct findColumns (c :: cs) findOperator
        cleanConditionValue offset limit)
    | _ => Effect.call (Call.showOneTable findTableName distinct findColumns offset limit)

/-- The DELETE branch, session check included. -/
def deleteEffect (hasSession : Bool) (command : Str) : Effect :=
  if !hasSession then Effect.error sessionErrorB
  else
    match reExec Rx.deleteRegex command with
    | none => Effect.typeError
    | some m =>
      let deleteTableName := (m.caps 1).getD []
      let operator : Str :=
        match m.caps 3 with
        | some (c :: cs) => c :: cs
        | _ => ['=']
      let deleteConditionValue : Option Typed :=
        match m.caps 4 with
        | some (c :: cs) => some (clean (c :: cs))
        | _ => none
      match m.caps 2 with
      | some (c :: cs) =>
        Effect.call (Call.delete deleteTableName (c :: cs) operator deleteConditionValue)
      | _ => Effect.call (Call.showOneTableByName deleteTableName)

/-- The DROP branch; when the element is neither DATABASE nor TABLE the
`switch` falls through to the DELETE branch. -/
def dropEffect (hasSession : Bool) (command : Str) (commandParts : List Str) : Effect :=
  match commandParts.get? 1 with
  | none => Effect.typeError
  | some dropElement =>
    if toUpperCase dropElement = "DATABASE".toList then
      match commandParts.get? 2 with
      | none => Effect.typeError
      | some name => Effect.call (Call.dropDb (trim name))
    else if toUpperCase dropElement = "TABLE".toList then
      if !hasSession then Effect.error sessionErrorA
      else
        match commandParts.get? 2 with
        | none => Effect.typeError
        | some name => Effect.call (Call.dropTable (trim name))
    else deleteEffect hasSession command

/-- The DESCRIBE branch; when the element is neither TABLE nor DATABASE the
`switch` falls through to the DROP branch. -/
def describeEffect (hasSession : Bool) (command : Str) (commandParts : List Str) : Effect :=
  match commandParts.get? 1 with
  | none => Effect.typeError
  | some describeElement =>
    if toUpperCase describeElement = "TABLE".toList then
      if !hasSession then Effect.error sessionErrorA
      else
        match commandParts.get? 2 with
        | none => Effect.typeError
        | some name => Effect.call (Call.describeOneTable (trim name))
    else if toUpperCase describeElement = "DATABASE".toList then
      match commandParts.get? 2 with
      | none => Effect.typeError
      | some name => Effect.call (Call.describeDatabase hasSession (trim name))
    else dropEffect hasSession command commandParts

/-- The replacement `replace(/\\(["'])/g, "$1")`: a backslash before a quote
character is dropped. -/
def unescapeQuotes : Str → Str
  | [] => []
  | [c] => [c]
  | c :: d :: cs =>
    if c.toNat = 92 ∧ (d = dq ∨ d = sq) then d :: unescapeQuotes cs
    else c :: unescapeQuotes (d :: cs)

/-- The additional cleaning of a SET value: a string that starts with a quote
character and ends with one loses its first and last character
(`slice(1, -1)`) and is unescaped. -/
def cleanSetValue : Typed → Typed
  | Typed.str s =>
    if (startsWithChar sq s || startsWithChar dq s) && (endsWithChar sq s || endsWithChar dq s) then
      Typed.str (unescapeQuotes ((s.drop 1).take (s.length - 2)))
    else Typed.str s
  | v => v

/-- The UPDATE branch after the session check. -/
def updateEffect (command : Str) : Effect :=
  match reExec Rx.updateRegex command with
  | none => Effect.error "Invalid UPDATE command format.".toList
  | some m =>
    let updateTableName := (m.caps 1).getD []
    let setClause := (m.caps 2).getD []
    let updateCondition := (m.caps 3).getD []
    let updateOperator := (m.caps 4).getD []
    let updateConditionValue : Option Typed :=
      match m.caps 5 with
      | some (c :: cs) => some (clean (c :: cs))
      | _ =>
        match m.caps 6 with
        | some (c :: cs) => some (clean (c :: cs))
        | _ =>
          match m.caps 7 with
          | some (c :: cs) => some (clean (c :: cs))
          | _ => none
    let setKeyValuePairs := (reMatchAll Rx.setPair setClause).map (fun p => p.text)
    let setArray := setKeyValuePairs.map (fun entry => trim ((splitChar '=' entry).headD []))
    let setValuesArray := setKeyValuePairs.map
      (fun entry => clean (trim ((splitChar '=' entry).getLastD [])))
    Effect.call (Call.update updateTableName setArray (setValuesArray.map cleanSetValue)
      updateCondition updateOperator updateConditionValue)

/-- The `switch` of `executeCommand`, entered once `verifySyntax` has returned. -/
def dispatch (cleanColumns : Str → List Str) (hasSession : Bool) (command : Str) : Effect :=
  let commandParts := splitChar ' ' command
  let action := toUpperCase (commandParts.headD [])
  let tableName := commandParts.get? 2
  if action = "INIT".toList then
    match commandParts.get? 1 with
    | none => Effect.typeError
    | some name => Effect.useDatabase ((splitChar ';' name).headD [])
  else if action = "CREATE".toList then
    if !hasSession then Effect.error sessionErrorA
    else createEffect cleanColumns command tableName
  else if action = "INSERT".toList then
    if !hasSession then Effect.error sessionErrorA
    else insertEffect command tableName
  else if action = "FIND".toList then
    if !hasSession then Effect.error sessionErrorB
    else findEffect command
  else if action = "DESCRIBE".toList then describeEffect hasSession command commandParts
  else if action = "DROP".toList then dropEffect hasSession command commandParts
  else if action = "DELETE".toList then deleteEffect hasSession command
  else if action = "UPDATE".toList then
    if !hasSession then Effect.error sessionErrorB
    else updateEffect command
  else Effect.error "Invalid command action".toList

/-- Function `executeCommand`.  `hasSession` says whether `currentDB` is a
`DB` handle; `cleanColumns` is the helper of `handlers/utils/string.js`. -/
def executeCommand (cleanColumns : Str → List Str) (hasSession : Bool) (command : Str) : Effect :=
  match verifySyntax command with
  | Except.error message => Effect.error message
  | Except.ok _ => dispatch cleanColumns hasSession command

/-! ## Response framing (`server.js`) -/

/-- The terminator token written after every custom-envelope response. -/
def endOfResponse : Str := "END_OF_RESPONSE".toList

/-- The loop of `sendLargeResponse` from index `i` on, when `CHUNK_SIZE` is a
number (the default 16384; a size configured in the environment is a string,
for which see `sendLoopText`): the payload chunks written, in order.  `fuel`
bounds the number of iterations; `none` means the loop did not finish within
it. -/
def sendLoop (chunkSize : Nat) (response : Str) : Nat → Nat → Option (List Str)
  | 0, _ => none
  | fuel + 1, i =>
    if i < response.length then
      (sendLoop chunkSize response fuel (i + chunkSize)).map
        (fun rest => (response.drop i).take chunkSize :: rest)
    else some []

/-- Function `sendLargeResponse` when `CHUNK_SIZE` is a number: the sequence
of `socket.write` arguments. -/
def sendLargeResponse (chunkSize : Nat) (response : Str) (fuel : Nat) : Option (List Str) :=
  (sendLoop chunkSize response fuel 0).map (fun chunks => chunks ++ [endOfResponse])

/-- The value of the module variable `CHUNK_SIZE`: a number, or the string
read from the environment. -/
inductive ChunkSize where
  | number (n : Nat)
  | text (s : Str)
deriving DecidableEq

/-- The assignment `CHUNK_SIZE = process.env.CHUNK_SIZE || 16384`:
`envValue` is the value of the environment variable (`none` for `undefined`);
an absent or empty value gives the number 16384, any other value is kept as
the string it is. -/
def chunkSizeOf (envValue : Option Str) : ChunkSize :=
  match envValue with
  | none => ChunkSize.number 16384
  | some [] => ChunkSize.number 16384
  | some (c :: cs) => ChunkSize.text (c :: cs)

/-- Value of a run of digits in the given radix; `none` when the run is empty
or has another character. -/
def radixDigits (radix : Nat) (ds : Str) : Option Nat :=
  if ds.isEmpty then none
  else if ds.all (fun c =>
      match hexDigit c with
      | some d => decide (d < radix)
      | none => false) then
    some (ds.foldl (fun n c => radix * n + (hexDigit c).getD 0) 0)
  else none

/-- Value of a hexadecimal, octal or binary integer literal (`0x`, `0o`, `0b`
in either letter case, then digits), when `s` is one. -/
def nonDecimalLiteral : Str → Option Nat
  | '0' :: x :: ds =>
    if x = 'x' ∨ x = 'X' then radixDigits 16 ds
    else if x = 'o' ∨ x = 'O' then radixDigits 8 ds
    else if x = 'b' ∨ x = 'B' then radixDigits 2 ds
    else none
  | _ => none

/-- `ToNumber` on a string: white space around the text is dropped, the empty
text is 0, and the rest has to be one numeric literal as a whole (a
hexadecimal, octal or binary integer, or a signed decimal literal); `none`
stands for NaN. -/
def toNumber (s : Str) : Option JSNumber :=
  let t := trim s
  if t.isEmpty then some (JSNumber.finite false 0 0)
  else
    match nonDecimalLiteral t with
    | some n => some (decimalNumber false (natToStr n) 0)
    | none =>
      match scanFloat t with
      | some (n, []) => some n
      | _ => none

/-- The comparison `v < len` of a converted value with a length; false for
NaN. -/
def numberLessThan (v : Option JSNumber) (len : Nat) : Bool :=
  match v with
  | none => false
  | some (JSNumber.infinity neg) => neg
  | some (JSNumber.finite neg mant exp) =>
    if neg then decide (mant ≠ 0) || decide (0 < len)
    else if 0 ≤ exp then decide (mant * 10 ^ exp.toNat < len)
    else decide (mant < len * 10 ^ (-exp).toNat)

/-- The position that an argument of `String.prototype.slice` stands for in a
text of length `len`: `ToIntegerOrInfinity` (NaN is 0, a fraction is cut off),
a negative index counts from the end, and the result is clamped to
`[0, len]`. -/
def slicePosition (len : Nat) (v : Option JSNumber) : Nat :=
  match v with
  | none => 0
  | some (JSNumber.infinity neg) => if neg then 0 else len
  | some (JSNumber.finite neg mant exp) =>
    let t := if 0 ≤ exp then mant * 10 ^ exp.toNat else mant / 10 ^ (-exp).toNat
    if neg ∧ t ≠ 0 then len - t else min t len

/-- `s.slice(start, stop)` on converted arguments: the text from the start
position up to the stop position, empty when the stop is not after the
start. -/
def sliceText (s : Str) (start stop : Option JSNumber) : Str :=
  (s.drop (slicePosition s.length start)).take
    (slicePosition s.length stop - slicePosition s.length start)

/-- The loop of `sendLargeResponse` when `CHUNK_SIZE` is the string
`chunkSize`: `i += CHUNK_SIZE` and `i + CHUNK_SIZE` are then string
concatenations, and `i < response.length` and `slice` convert the text to a
number.  The variable `i` is kept as its text: the number 0 of the first
iteration compares as 0 and concatenates as the text `0`.  `fuel` bounds the
number of iterations; `none` means the loop did not finish within it. -/
def sendLoopText (chunkSize : Str) (response : Str) : Nat → Str → Option (List Str)
  | 0, _ => none
  | fuel + 1, i =>
    if numberLessThan (toNumber i) response.length then
      (sendLoopText chunkSize response fuel (i ++ chunkSize)).map
        (fun rest => sliceText response (toNumber i) (toNumber (i ++ chunkSize)) :: rest)
    else some []

/-- Function `sendLargeResponse` for either kind of `CHUNK_SIZE`: the
sequence of `socket.write` arguments. -/
def sendLargeResponseWith (chunkSize : ChunkSize) (response : Str) (fuel : Nat) :
    Option (List Str) :=
  match chunkSize with
  | ChunkSize.number n => sendLargeResponse n response fuel
  | ChunkSize.text s =>
    (sendLoopText s response fuel ['0']).map (fun chunks => chunks ++ [endOfResponse])

/-- The backslash character. -/
def bsl : Char := Char.ofNat 92

/-- A hexadecimal digit in lower case. -/
def hexChar (n : Nat) : Char := if n < 10 then Char.ofNat (48 + n) else Char.ofNat (87 + n)

/-- The JSON escape of one code point inside a string. -/
def jsonEscape (c : Char) : Str :=
  if c = dq then [bsl, dq]
  else if c = bsl then [bsl, bsl]
  else if c.toNat = 8 then [bsl, 'b']
  else if c.toNat = 9 then [bsl, 't']
  else if c.toNat = 10 then [bsl, 'n']
  else if c.toNat = 12 then [bsl, 'f']
  else if c.toNat = 13 then [bsl, 'r']
  else if c.toNat < 32 then [bsl, 'u', '0', '0', hexChar (c.toNat / 16), hexChar (c.toNat % 16)]
  else [c]

/-- `JSON.stringify(s)` for a string `s`. -/
def jsonString (s : Str) : Str := [dq] ++ s.flatMap jsonEscape ++ [dq]

/-- A value that `executeCommand` resolves to, by what the framing code
reads of it: `nullish` is `undefined` or `null` (reading `length` throws);
otherwise the value has a `length` property (`none` when it has none that is a
number) and a JSON text. -/
inductive Returned where
  | nullish
  | value (length : Option Nat) (json : Str)
deriving DecidableEq

/-- A string result, such as the text that INIT returns. -/
def textResult (s : Str) : Returned := Returned.value (some s.length) (jsonString s)

/-- Awaiting `executeCommand(command)`: the value it resolves to, or the
message of the error it rejects with.  `engine` gives the outcome of each
collaborator call; `typeErrorMessage` is the engine-defined text of a
`TypeError`. -/
def awaitCommand (engine : Call → Except Str Returned) (typeErrorMessage : Str)
    (cleanColumns : Str → List Str) (hasSession : Bool) (command : Str) : Except Str Returned :=
  match executeCommand cleanColumns hasSession command with
  | Effect.call c => engine c
  | Effect.useDatabase n =>
    match engine (Call.init n) with
    | Except.error m => Except.error m
    | Except.ok _ => Except.ok (textResult ("Using database: ".toList ++ n))
  | Effect.error m => Except.error m
  | Effect.typeError => Except.error typeErrorMessage

/-- `JSON.stringify({ error: message })`. -/
def errorJson (message : Str) : Str :=
  [Char.ofNat 123] ++ jsonString "error".toList ++ [':'] ++ jsonString message ++ [Char.ofNat 125]

/-- The writes of `handleTCP` once `executeCommand` has settled. -/
def writeOutcome (typeErrorMessage : Str) (chunkSize : Nat) (fuel : Nat) :
    Except Str Returned → Option (List Str)
  | Except.ok (Returned.value length json) =>
    if (match length with
        | some n => decide (n ≤ chunkSize)
        | none => false) then some [json, endOfResponse]
    else sendLargeResponse chunkSize json fuel
  | Except.ok Returned.nullish => sendLargeResponse chunkSize (errorJson typeErrorMessage) fuel
  | Except.error m => sendLargeResponse chunkSize (errorJson m) fuel

/-- `s.replace(/AJX\r\n\r\n/g, '')` for the literal `marker`: every occurrence
found in a scan from the left is removed; `skip` counts the characters of an
occurrence still to be dropped. -/
def removeMarker (marker : Str) : Nat → Str → Str
  | _, [] => []
  | skip + 1, _ :: cs => removeMarker marker skip cs
  | 0, c :: cs =>
    if marker.isPrefixOf (c :: cs) then removeMarker marker (marker.length - 1) cs
    else c :: removeMarker marker 0 cs

/-- The marker `AJX\r\n\r\n` of the custom envelope. -/
def ajxMarker : Str := ['A', 'J', 'X', Char.ofNat 13, Char.ofNat 10, Char.ofNat 13, Char.ofNat 10]

/-- The command text that `handleTCP` passes to `executeCommand`. -/
def tcpCommand (data : Str) : Str := removeMarker ajxMarker 0 (trim data)

/-- Function `handleTCP`: the sequence of `socket.write` arguments for one
inbound buffer. -/
def handleTCP (engine : Call → Except Str Returned) (typeErrorMessage : Str)
    (cleanColumns : Str → List Str) (chunkSize : Nat) (hasSession : Bool) (data : Str)
    (fuel : Nat) : Option (List Str) :=
  writeOutcome typeErrorMessage chunkSize fuel
    (awaitCommand engine typeErrorMessage cleanColumns hasSession (tcpCommand data))

/-- Function `handleHTTP`: the sequence of `socket.write` arguments for one
inbound buffer, or `Except.error m` when the function rejects with message `m`
before any write (it has no `try`).  `getHttpRequest` gives the body of the
parsed request (`none` for `undefined`, on which `verifySyntax` fails with a
low-level error) and `createHttpResponse` the text of the response for a
payload and a status code; both are helpers of `handlers/http/httpHandler.js`
and are parameters here. -/
def handleHTTP (getHttpRequest : Str → Option Str) (createHttpResponse : Returned → Nat → Str)
    (engine : Call → Except Str Returned) (typeErrorMessage : Str)
    (cleanColumns : Str → List Str) (hasSession : Bool) (data : Str) : Except Str (List Str) :=
  match getHttpRequest data with
  | none => Except.error typeErrorMessage
  | some body =>
    match awaitCommand engine typeErrorMessage cleanColumns hasSession body with
    | Except.error m => Except.error m
    | Except.ok result => Except.ok [createHttpResponse result 200]

/-! ## Notions used to state the properties -/

/-- Whether `verifySyntax` returns without throwing. -/
def accepted (command : Str) : Bool :=
  match verifySyntax command with
  | Except.ok _ => true
  | Except.error _ => false

/-- The action of a command: its first space-separated token, upper-cased. -/
def actionOf (command : Str) : Str := toUpperCase ((splitChar ' ' command).headD [])

/-- The sub-element of a DESCRIBE or DROP command: its second token,
upper-cased. -/
def elementOf (command : Str) : Option Str := ((splitChar ' ' command).get? 1).map toUpperCase

/-- The actions that the dispatcher only runs with an active session. -/
def needsSession (command : Str) : Bool :=
  decide (actionOf command ∈ ["CREATE".toList, "INSERT".toList, "FIND".toList, "DELETE".toList,
    "UPDATE".toList]) ||
  (decide (actionOf command ∈ ["DESCRIBE".toList, "DROP".toList]) &&
    decide (elementOf command = some "TABLE".toList))

/-- The actions INIT, DROP DATABASE and DESCRIBE DATABASE. -/
def sessionFree (command : Str) : Bool :=
  decide (actionOf command = "INIT".toList) ||
  (decide (actionOf command ∈ ["DESCRIBE".toList, "DROP".toList]) &&
    decide (elementOf command = some "DATABASE".toList))

/-- The session error text of each action. -/
def sessionErrorOf (action : Str) : Str :=
  if action ∈ ["FIND".toList, "DELETE".toList, "UPDATE".toList] then sessionErrorB
  else sessionErrorA

/-- Lower-case form of an ASCII letter; any other character is unchanged. -/
def asciiLower (c : Char) : Char := if isUpperAscii c then Char.ofNat (c.toNat + 32) else c

/-- Equality of two texts ignoring the case of ASCII letters. -/
def eqIgnoreCase (s t : Str) : Bool := s.map asciiLower == t.map asciiLower

/-- The text between the quotes when `s` is wrapped in one matching pair of
quote characters. -/
def unwrapQuotes : Str → Option Str
  | [] => none
  | q :: rest =>
    if (q = sq ∨ q = dq) ∧ rest.getLast? = some q then some rest.dropLast else none

/-- The number that the whole of `s` denotes, when the numeric literal leaves
no text over. -/
def wholeNumber (s : Str) : Option JSNumber :=
  match scanFloat s with
  | some (n, []) => some n
  | _ => none

/-- Value Coercion as the specification words it: NULL in any letter case,
else a quoted text unwrapped, else a number when the whole token is one, else
the token itself. -/
def cleanSpec (s : Str) : Typed :=
  if eqIgnoreCase s "NULL".toList then Typed.null
  else match unwrapQuotes s with
    | some body => Typed.str body
    | none =>
      match wholeNumber s with
      | some n => Typed.num n
      | none => Typed.str s

/-- Value Coercion with the number step as the code has it: the longest
numeric prefix of the token decides, whatever follows it. -/
def cleanPrefix (s : Str) : Typed :=
  if eqIgnoreCase s "NULL".toList then Typed.null
  else match unwrapQuotes s with
    | some body => Typed.str body
    | none =>
      match scanFloat s with
      | some (n, _) => Typed.num n
      | none => Typed.str s

/-- Whether a column entry is marked: its third space-separated token, after
trimming, is `PRIMARY_KEY`. -/
def isMarked (entry : Str) : Bool :=
  decide ((splitChar ' ' (trim entry)).get? 2 = some "PRIMARY_KEY".toList)

/-- The first space-separated token of a trimmed column entry. -/
def firstToken (entry : Str) : Str := (splitChar ' ' (trim entry)).headD []

/-- An integer number in the normal form of `JSNumber.finite`. -/
def JSNumber.isInteger : JSNumber → Bool
  | JSNumber.finite _ mant exp =>
    (decide (mant = 0) && decide (exp = 0)) || (decide (mant % 10 ≠ 0) && decide (0 ≤ exp))
  | JSNumber.infinity _ => false

/-- The JSON text of an integer number (`JSON.stringify`): its decimal digits,
after a minus sign when it is negative; the text of `-0` is `0`. -/
def jsonInteger : JSNumber → Str
  | JSNumber.finite neg mant exp =>
    (if neg && decide (mant ≠ 0) then ['-'] else []) ++ natToStr (mant * 10 ^ exp.toNat)
  | JSNumber.infinity _ => "null".toList

/-! ## Notions used in the proofs -/

/-- State `y` is reached from `x` by consuming text. -/
def Ext (x y : MState) : Prop :=
  ∃ consumed : Str, x.rest = consumed ++ y.rest ∧ y.pre = consumed.reverse ++ x.pre

/-- The list of results is not empty and its first state satisfies `P`. -/
def Hd (l : List MState) (P : MState → Prop) : Prop := ∃ y l2, l = y :: l2 ∧ P y

/-- A state with the given remaining text and captures. -/
def At (s : Str) (k : Nat → Option Str) (y : MState) : Prop := y.rest = s ∧ y.caps = k

/-- Every state of the list has more than `R` characters left. -/
def Before (R : Nat) (l : List MState) : Prop := ∀ w ∈ l, R < w.rest.length

/-- The first state of the list with at most `R` characters left exists and has exactly `R`
left. -/
def Reach (R : Nat) (l : List MState) : Prop :=
  ∃ l1 y l2, l = l1 ++ y :: l2 ∧ Before R l1 ∧ y.rest.length = R

/-- Pattern `,\s*.+?\s*`: one more item of a list. -/
def iterRe : Re := Rx.cat [Rx.lit ',', Rx.star Rx.ws, Rx.lazyPlus Rx.dot, Rx.star Rx.ws]

/-- Pattern `.*?`. -/
def lazyStarDot : Re := Re.rep 0 none false Rx.dot

/-- A character of a simple token: no white space, comma or parenthesis. -/
def tokenChar (c : Char) : Bool := !isWhiteSpace c && c != ',' && c != '(' && c != ')'

/-- A simple token: not empty, made of token characters. -/
def isToken (t : Str) : Prop := t ≠ [] ∧ ∀ c ∈ t, tokenChar c = true

/-- The text of the further items of a list: each is written after a comma and a number of
spaces. -/
def sepItems (more : List (Nat × Str)) : Str :=
  more.flatMap (fun p => ',' :: (List.replicate p.1 ' ' ++ p.2))

/-- Continuation of an item inside the loop `(?:,\s*.+?\s*)*`: trailing white space, then the
further iterations (`n` is the length left when the iteration started). -/
def loopCont (n : Nat) (z : MState) : List MState :=
  (Re.run (Rx.star Rx.ws) z).flatMap (fun y =>
    if y.rest.length = n then [] else Re.run (Rx.star iterRe) y)

/-- The text of a list: the first item, then the further items, each after a comma and a
number of spaces. -/
def listText (first : Str) (more : List (Nat × Str)) : Str := first ++ sepItems more

/-- The command `INSERT INTO t (columns) VALUES (values)`. -/
def insertText (t : Str) (c : Str) (cs : List (Nat × Str)) (v : Str) (vs : List (Nat × Str)) :
    Str :=
  "INSERT INTO ".toList ++ (t ++ (" ".toList ++ ('(' :: (listText c cs ++
    (')' :: (" VALUES ".toList ++ ('(' :: (listText v vs ++ [')']))))))))

/-- A state with the given remaining text. -/
def Rest (s : Str) (y : MState) : Prop := y.rest = s

/-- A value token without quote characters. -/
def plainToken (v : Str) : Prop := isToken v ∧ ∀ c ∈ v, c ≠ sq ∧ c ≠ dq

/-- A value token wrapped in one pair of quote characters, with no quote character inside. -/
def quotedToken (v : Str) : Prop :=
  ∃ q body, (q = sq ∨ q = dq) ∧ v = q :: (body ++ [q]) ∧
    ∀ c ∈ body, tokenChar c = true ∧ c ≠ sq ∧ c ≠ dq

/-- A simple value token: plain, or wrapped in quotes. -/
def isValueToken (v : Str) : Prop := plainToken v ∨ quotedToken v

/-- The letters `N`, `U`, `L` with their code points. -/
def nulLetter (x : Char) (n : Nat) : Prop :=
  (x = 'N' ∧ n = 78) ∨ (x = 'U' ∧ n = 85) ∨ (x = 'L' ∧ n = 76)

/-! ## Theorems -/

theorem Ext.refl (x : MState) : Ext x x := ⟨[], rfl, rfl⟩

theorem Ext.trans {x y z : MState} (h1 : Ext x y) (h2 : Ext y z) : Ext x z := by
  obtain ⟨c1, e1, p1⟩ := h1
  obtain ⟨c2, e2, p2⟩ := h2
  refine ⟨c1 ++ c2, ?_, ?_⟩
  · rw [e1, e2, List.append_assoc]
  · rw [p2, p1, List.reverse_append, List.append_assoc]

theorem Ext.length_le {x y : MState} (h : Ext x y) : y.rest.length ≤ x.rest.length := by
  obtain ⟨c, e, -⟩ := h
  rw [e, List.length_append]
  omega

theorem Ext.clear {gs : List Nat} {x y : MState} (h : Ext (Re.clearCaps gs x) y) : Ext x y := h

theorem repAux_ext (step : MState → List MState) (gs : List Nat) (greedy : Bool)
    (hstep : ∀ x y, y ∈ step x → Ext x y) :
    ∀ (fuel min : Nat) (max : Option Nat) (x y : MState),
      y ∈ Re.repAux step gs greedy fuel min max x → Ext x y := by
  intro fuel
  induction fuel with
  | zero =>
    intro min max x y hy
    simp only [Re.repAux, List.mem_singleton] at hy
    rw [hy]; exact Ext.refl x
  | succ fuel ih =>
    intro min max x y hy
    unfold Re.repAux at hy
    by_cases hmax : max = some 0
    · rw [if_pos hmax, List.mem_singleton] at hy
      rw [hy]; exact Ext.refl x
    · rw [if_neg hmax] at hy
      have hiter : ∀ y, y ∈ (step (Re.clearCaps gs x)).flatMap (fun y =>
          if min = 0 ∧ y.rest.length = x.rest.length then []
          else Re.repAux step gs greedy fuel (min - 1) (max.map (fun m => m - 1)) y) → Ext x y := by
        intro y hy
        rw [List.mem_flatMap] at hy
        obtain ⟨w, hw, hy⟩ := hy
        have hxw : Ext x w := Ext.clear (hstep _ _ hw)
        by_cases hc : min = 0 ∧ w.rest.length = x.rest.length
        · rw [if_pos hc] at hy; cases hy
        · rw [if_neg hc] at hy
          exact Ext.trans hxw (ih _ _ _ _ hy)
      simp only [] at hy
      by_cases hmin : min ≠ 0
      · rw [if_pos hmin] at hy
        exact hiter y hy
      · rw [if_neg hmin] at hy
        cases greedy with
        | true =>
          simp only [if_true, List.mem_append, List.mem_singleton] at hy
          rcases hy with hy | hy
          · exact hiter y hy
          · rw [hy]; exact Ext.refl x
        | false =>
          simp only [Bool.false_eq_true, if_false, List.mem_cons] at hy
          rcases hy with hy | hy
          · rw [hy]; exact Ext.refl x
          · exact hiter y hy

theorem run_ext : ∀ (r : Re) (x y : MState), y ∈ Re.run r x → Ext x y := by
  intro r
  induction r with
  | eps =>
    intro x y hy
    simp only [Re.run, List.mem_singleton] at hy
    rw [hy]; exact Ext.refl x
  | chr p =>
    intro x y hy
    unfold Re.run at hy
    split at hy
    · cases hy
    · rename_i c cs hrest
      by_cases hp : p c = true
      · rw [if_pos hp, List.mem_singleton] at hy
        rw [hy]
        exact ⟨[c], by simpa using hrest, by simp⟩
      · rw [if_neg hp] at hy; cases hy
  | seq a b iha ihb =>
    intro x y hy
    simp only [Re.run, List.mem_flatMap] at hy
    obtain ⟨w, hw, hy⟩ := hy
    exact Ext.trans (iha _ _ hw) (ihb _ _ hy)
  | alt a b iha ihb =>
    intro x y hy
    simp only [Re.run, List.mem_append] at hy
    rcases hy with hy | hy
    · exact iha _ _ hy
    · exact ihb _ _ hy
  | rep min max greedy r ih =>
    intro x y hy
    simp only [Re.run] at hy
    exact repAux_ext _ _ _ ih _ _ _ _ _ hy
  | grp i r ih =>
    intro x y hy
    simp only [Re.run, List.mem_map] at hy
    obtain ⟨w, hw, rfl⟩ := hy
    exact ih x w hw
  | bol =>
    intro x y hy
    unfold Re.run at hy
    split at hy
    · rw [List.mem_singleton] at hy; rw [hy]; exact Ext.refl x
    · cases hy
  | eol =>
    intro x y hy
    unfold Re.run at hy
    split at hy
    · rw [List.mem_singleton] at hy; rw [hy]; exact Ext.refl x
    · cases hy
  | wordB w =>
    intro x y hy
    unfold Re.run at hy
    split at hy
    · rw [List.mem_singleton] at hy; rw [hy]; exact Ext.refl x
    · cases hy

theorem repAux_succ (step : MState → List MState) (gs : List Nat) (greedy : Bool)
    (fuel min : Nat) (max : Option Nat) (x : MState) :
    Re.repAux step gs greedy (fuel + 1) min max x =
      if max = some 0 then [x]
      else if min ≠ 0 then
        (step (Re.clearCaps gs x)).flatMap (fun y =>
          if min = 0 ∧ y.rest.length = x.rest.length then []
          else Re.repAux step gs greedy fuel (min - 1) (max.map (fun m => m - 1)) y)
      else if greedy then
        (step (Re.clearCaps gs x)).flatMap (fun y =>
          if min = 0 ∧ y.rest.length = x.rest.length then []
          else Re.repAux step gs greedy fuel (min - 1) (max.map (fun m => m - 1)) y) ++ [x]
      else
        x :: (step (Re.clearCaps gs x)).flatMap (fun y =>
          if min = 0 ∧ y.rest.length = x.rest.length then []
          else Re.repAux step gs greedy fuel (min - 1) (max.map (fun m => m - 1)) y) := rfl

theorem repAux_zero_min (step : MState → List MState) (gs : List Nat) (greedy : Bool)
    (fuel : Nat) (x : MState) :
    Re.repAux step gs greedy (fuel + 1) 0 none x =
      (if greedy then
        (step (Re.clearCaps gs x)).flatMap (fun y =>
          if y.rest.length = x.rest.length then []
          else Re.repAux step gs greedy fuel 0 none y) ++ [x]
      else
        x :: (step (Re.clearCaps gs x)).flatMap (fun y =>
          if y.rest.length = x.rest.length then []
          else Re.repAux step gs greedy fuel 0 none y)) := by
  have hf : (fun y : MState =>
        if 0 = 0 ∧ y.rest.length = x.rest.length then []
        else Re.repAux step gs greedy fuel (0 - 1) (Option.map (fun m => m - 1) none) y) =
      (fun y : MState => if y.rest.length = x.rest.length then []
        else Re.repAux step gs greedy fuel 0 none y) := by
    funext y
    by_cases hc : y.rest.length = x.rest.length
    · rw [if_pos ⟨rfl, hc⟩, if_pos hc]
    · rw [if_neg (fun h => hc h.2), if_neg hc]; rfl
  rw [repAux_succ, if_neg (by simp), if_neg (by simp), hf]

theorem repAux_one_min (step : MState → List MState) (gs : List Nat) (greedy : Bool)
    (fuel : Nat) (x : MState) :
    Re.repAux step gs greedy (fuel + 1) 1 none x =
      (step (Re.clearCaps gs x)).flatMap (fun y => Re.repAux step gs greedy fuel 0 none y) := by
  have hf : (fun y : MState =>
        if 1 = 0 ∧ y.rest.length = x.rest.length then []
        else Re.repAux step gs greedy fuel (1 - 1) (Option.map (fun m => m - 1) none) y) =
      (fun y : MState => Re.repAux step gs greedy fuel 0 none y) := by
    funext y
    rw [if_neg (fun h => absurd h.1 (by decide))]; rfl
  rw [repAux_succ, if_neg (by simp), if_pos (by decide), hf]

theorem repAux_opt (step : MState → List MState) (gs : List Nat) (fuel : Nat) (x : MState) :
    Re.repAux step gs true (fuel + 1) 0 (some 1) x =
      (step (Re.clearCaps gs x)).flatMap (fun y =>
        if y.rest.length = x.rest.length then [] else [y]) ++ [x] := by
  have hf : (fun y : MState =>
        if 0 = 0 ∧ y.rest.length = x.rest.length then []
        else Re.repAux step gs true fuel (0 - 1) (Option.map (fun m => m - 1) (some 1)) y) =
      (fun y : MState => if y.rest.length = x.rest.length then [] else [y]) := by
    funext y
    by_cases hc : y.rest.length = x.rest.length
    · rw [if_pos ⟨rfl, hc⟩, if_pos hc]
    · rw [if_neg (fun h => hc h.2), if_neg hc]
      cases fuel with
      | zero => rfl
      | succ n => rfl
  rw [repAux_succ, if_neg (by simp), if_neg (by simp), if_pos rfl, hf]

theorem repAux_fuel (step : MState → List MState) (gs : List Nat) (greedy : Bool)
    (hstep : ∀ x y, y ∈ step x → y.rest.length ≤ x.rest.length) :
    ∀ (fuel1 fuel2 : Nat) (x : MState),
      x.rest.length < fuel1 → x.rest.length < fuel2 →
      Re.repAux step gs greedy fuel1 0 none x = Re.repAux step gs greedy fuel2 0 none x := by
  intro fuel1
  induction fuel1 with
  | zero => intro fuel2 x h1; omega
  | succ f1 ih =>
    intro fuel2 x h1 h2
    obtain ⟨f2, rfl⟩ : ∃ f2, fuel2 = f2 + 1 := ⟨fuel2 - 1, by omega⟩
    have hiter : (step (Re.clearCaps gs x)).flatMap (fun y =>
          if y.rest.length = x.rest.length then []
          else Re.repAux step gs greedy f1 0 none y) =
        (step (Re.clearCaps gs x)).flatMap (fun y =>
          if y.rest.length = x.rest.length then []
          else Re.repAux step gs greedy f2 0 none y) := by
      apply List.flatMap_congr
      intro y hy
      have hle : y.rest.length ≤ x.rest.length := hstep (Re.clearCaps gs x) y hy
      by_cases hc : y.rest.length = x.rest.length
      · rw [if_pos hc, if_pos hc]
      · rw [if_neg hc, if_neg hc]
        exact ih f2 y (by omega) (by omega)
    rw [repAux_zero_min, repAux_zero_min, hiter]

theorem run_length_le (r : Re) (x y : MState) (h : y ∈ Re.run r x) :
    y.rest.length ≤ x.rest.length := (run_ext r x y h).length_le

theorem run_rep_eq (min : Nat) (max : Option Nat) (greedy : Bool) (r : Re) (x : MState) :
    Re.run (Re.rep min max greedy r) x =
      Re.repAux (Re.run r) (Re.groups r) greedy (x.rest.length + min + 1) min max x := rfl

/-- Unfolding of `r*` and `r*?`. -/
theorem run_star_unfold (greedy : Bool) (r : Re) (x : MState) :
    Re.run (Re.rep 0 none greedy r) x =
      (if greedy then
        (Re.run r (Re.clearCaps (Re.groups r) x)).flatMap (fun y =>
          if y.rest.length = x.rest.length then [] else Re.run (Re.rep 0 none greedy r) y) ++ [x]
      else
        x :: (Re.run r (Re.clearCaps (Re.groups r) x)).flatMap (fun y =>
          if y.rest.length = x.rest.length then [] else Re.run (Re.rep 0 none greedy r) y)) := by
  have hfm : (Re.run r (Re.clearCaps (Re.groups r) x)).flatMap (fun y =>
        if y.rest.length = x.rest.length then []
        else Re.repAux (Re.run r) (Re.groups r) greedy x.rest.length 0 none y) =
      (Re.run r (Re.clearCaps (Re.groups r) x)).flatMap (fun y =>
        if y.rest.length = x.rest.length then [] else Re.run (Re.rep 0 none greedy r) y) := by
    apply List.flatMap_congr
    intro y hy
    have hle : y.rest.length ≤ x.rest.length := run_length_le r (Re.clearCaps (Re.groups r) x) y hy
    by_cases hc : y.rest.length = x.rest.length
    · rw [if_pos hc, if_pos hc]
    · rw [if_neg hc, if_neg hc, run_rep_eq]
      exact repAux_fuel _ _ _ (run_length_le r) _ _ _ (by omega) (by omega)
  rw [run_rep_eq, repAux_zero_min, hfm]

/-- Unfolding of `r+` and `r+?`. -/
theorem run_plus_unfold (greedy : Bool) (r : Re) (x : MState) :
    Re.run (Re.rep 1 none greedy r) x =
      (Re.run r (Re.clearCaps (Re.groups r) x)).flatMap
        (fun y => Re.run (Re.rep 0 none greedy r) y) := by
  rw [run_rep_eq, repAux_one_min]
  apply List.flatMap_congr
  intro y hy
  have hle : y.rest.length ≤ x.rest.length := run_length_le r (Re.clearCaps (Re.groups r) x) y hy
  rw [run_rep_eq]
  exact repAux_fuel _ _ _ (run_length_le r) _ _ _ (by omega) (by omega)

/-- Unfolding of `r?`. -/
theorem run_opt_unfold (r : Re) (x : MState) :
    Re.run (Re.rep 0 (some 1) true r) x =
      (Re.run r (Re.clearCaps (Re.groups r) x)).flatMap (fun y =>
          if y.rest.length = x.rest.length then [] else [y]) ++ [x] := by
  rw [run_rep_eq, repAux_opt]

theorem clearCaps_nil (x : MState) : Re.clearCaps [] x = x := by
  cases x
  simp [Re.clearCaps]

theorem repAux_caps (step : MState → List MState) (gs : List Nat) (greedy : Bool)
    (hstep : ∀ x y, y ∈ step x → ∀ j, j ∉ gs → y.caps j = x.caps j) :
    ∀ (fuel min : Nat) (max : Option Nat) (x y : MState),
      y ∈ Re.repAux step gs greedy fuel min max x → ∀ j, j ∉ gs → y.caps j = x.caps j := by
  intro fuel
  induction fuel with
  | zero =>
    intro min max x y hy j _
    simp only [Re.repAux, List.mem_singleton] at hy
    rw [hy]
  | succ fuel ih =>
    intro min max x y hy j hj
    rw [repAux_succ] at hy
    have hiter : ∀ y, y ∈ (step (Re.clearCaps gs x)).flatMap (fun y =>
          if min = 0 ∧ y.rest.length = x.rest.length then []
          else Re.repAux step gs greedy fuel (min - 1) (max.map (fun m => m - 1)) y) →
          y.caps j = x.caps j := by
      intro y hy
      rw [List.mem_flatMap] at hy
      obtain ⟨w, hw, hy⟩ := hy
      have hxw : w.caps j = x.caps j := by
        rw [hstep _ _ hw j hj]
        simp [Re.clearCaps, hj]
      by_cases hc : min = 0 ∧ w.rest.length = x.rest.length
      · rw [if_pos hc] at hy; cases hy
      · rw [if_neg hc] at hy
        rw [ih _ _ _ _ hy j hj, hxw]
    by_cases hmax : max = some 0
    · rw [if_pos hmax, List.mem_singleton] at hy
      rw [hy]
    · rw [if_neg hmax] at hy
      by_cases hmin : min ≠ 0
      · rw [if_pos hmin] at hy
        exact hiter y hy
      · rw [if_neg hmin] at hy
        cases greedy with
        | true =>
          simp only [if_true, List.mem_append, List.mem_singleton] at hy
          rcases hy with hy | hy
          · exact hiter y hy
          · rw [hy]
        | false =>
          simp only [Bool.false_eq_true, if_false, List.mem_cons] at hy
          rcases hy with hy | hy
          · rw [hy]
          · exact hiter y hy

theorem run_caps : ∀ (r : Re) (x y : MState), y ∈ Re.run r x →
    ∀ j, j ∉ Re.groups r → y.caps j = x.caps j := by
  intro r
  induction r with
  | eps =>
    intro x y hy j _
    simp only [Re.run, List.mem_singleton] at hy
    rw [hy]
  | chr p =>
    intro x y hy j _
    unfold Re.run at hy
    split at hy
    · cases hy
    · rename_i c cs hrest
      by_cases hp : p c = true
      · rw [if_pos hp, List.mem_singleton] at hy
        rw [hy]
      · rw [if_neg hp] at hy; cases hy
  | seq a b iha ihb =>
    intro x y hy j hj
    simp only [Re.run, List.mem_flatMap] at hy
    simp only [Re.groups, List.mem_append, not_or] at hj
    obtain ⟨w, hw, hy⟩ := hy
    rw [ihb _ _ hy j hj.2, iha _ _ hw j hj.1]
  | alt a b iha ihb =>
    intro x y hy j hj
    simp only [Re.run, List.mem_append] at hy
    simp only [Re.groups, List.mem_append, not_or] at hj
    rcases hy with hy | hy
    · exact iha _ _ hy j hj.1
    · exact ihb _ _ hy j hj.2
  | rep min max greedy r ih =>
    intro x y hy j hj
    simp only [Re.run] at hy
    exact repAux_caps _ _ _ ih _ _ _ _ _ hy j hj
  | grp i r ih =>
    intro x y hy j hj
    simp only [Re.run, List.mem_map] at hy
    simp only [Re.groups, List.mem_cons, not_or] at hj
    obtain ⟨w, hw, rfl⟩ := hy
    simp only [Re.setCap, if_neg hj.1]
    exact ih x w hw j hj.2
  | bol =>
    intro x y hy j _
    unfold Re.run at hy
    split at hy
    · rw [List.mem_singleton] at hy; rw [hy]
    · cases hy
  | eol =>
    intro x y hy j _
    unfold Re.run at hy
    split at hy
    · rw [List.mem_singleton] at hy; rw [hy]
    · cases hy
  | wordB w =>
    intro x y hy j _
    unfold Re.run at hy
    split at hy
    · rw [List.mem_singleton] at hy; rw [hy]
    · cases hy

theorem Hd.mono {l : List MState} {P Q : MState → Prop} (h : Hd l P) (hpq : ∀ y, P y → Q y) :
    Hd l Q := by
  obtain ⟨y, l2, e, hp⟩ := h
  exact ⟨y, l2, e, hpq y hp⟩

theorem Hd.hdAppend {l : List MState} {P : MState → Prop} (h : Hd l P) (l3 : List MState) :
    Hd (l ++ l3) P := by
  obtain ⟨y, l2, e, hp⟩ := h
  exact ⟨y, l2 ++ l3, by rw [e]; rfl, hp⟩

theorem Hd.flatMap {l : List MState} {P Q : MState → Prop} {f : MState → List MState}
    (h : Hd l P) (hf : ∀ y, P y → Hd (f y) Q) : Hd (l.flatMap f) Q := by
  obtain ⟨y, l2, e, hp⟩ := h
  rw [e, List.flatMap_cons]
  exact (hf y hp).hdAppend _

theorem Hd.seq {a b : Re} {x : MState} {P Q : MState → Prop}
    (h : Hd (Re.run a x) P) (hb : ∀ y, P y → Hd (Re.run b y) Q) :
    Hd (Re.run (Re.seq a b) x) Q := Hd.flatMap h hb

theorem Hd.hdSingle (y : MState) (P : MState → Prop) (h : P y) : Hd [y] P := ⟨y, [], rfl, h⟩

theorem run_chr_cons (p : Char → Bool) (x : MState) (c : Char) (s : Str) (hx : x.rest = c :: s) :
    Re.run (Re.chr p) x = if p c then [{ x with pre := c :: x.pre, rest := s }] else [] := by
  unfold Re.run
  split
  · rename_i h; rw [hx] at h; cases h
  · rename_i c2 cs h
    rw [hx] at h
    injection h with h1 h2
    subst h1; subst h2
    rfl

theorem run_chr_nil (p : Char → Bool) (x : MState) (hx : x.rest = []) :
    Re.run (Re.chr p) x = [] := by
  unfold Re.run
  split
  · rfl
  · rename_i c2 cs h; rw [hx] at h; cases h

theorem hd_chr (p : Char → Bool) (x : MState) (c : Char) (s : Str) (hx : x.rest = c :: s)
    (hp : p c = true) : Hd (Re.run (Re.chr p) x) (At s x.caps) := by
  rw [run_chr_cons p x c s hx, if_pos hp]
  exact Hd.hdSingle _ _ ⟨rfl, rfl⟩

/-- A run of pattern characters matches the text it spells. -/
theorem hd_cat_chr (mk : Char → Re) (hmk : ∀ c, ∃ p, mk c = Re.chr p ∧ p c = true) :
    ∀ (cs : Str) (x : MState) (s : Str), x.rest = cs ++ s →
      Hd (Re.run (Rx.cat (cs.map mk)) x) (At s x.caps) := by
  intro cs
  induction cs with
  | nil =>
    intro x s hx
    exact Hd.hdSingle _ _ ⟨hx, rfl⟩
  | cons c cs ih =>
    intro x s hx
    obtain ⟨p, hp1, hp2⟩ := hmk c
    cases cs with
    | nil =>
      show Hd (Re.run (mk c) x) _
      rw [hp1]
      exact hd_chr p x c s hx hp2
    | cons d ds =>
      show Hd (Re.run (Re.seq (mk c) (Rx.cat ((d :: ds).map mk))) x) _
      apply Hd.seq (P := At (d :: ds ++ s) x.caps)
      · rw [hp1]; exact hd_chr p x c _ hx hp2
      · intro y hy
        have := ih y s hy.1
        rw [hy.2] at this
        exact this

theorem hd_kw (w : String) (x : MState) (s : Str) (hx : x.rest = w.toList ++ s) :
    Hd (Re.run (Rx.kw w) x) (At s x.caps) :=
  hd_cat_chr Rx.ci (fun c => ⟨_, rfl, by simp⟩) w.toList x s hx

theorem Before.nil (R : Nat) : Before R [] := fun _ h => by cases h

theorem Before.beforeSingle {R : Nat} {w : MState} (h : R < w.rest.length) : Before R [w] := by
  intro v hv
  rw [List.mem_singleton] at hv
  rw [hv]; exact h

theorem Before.beforeAppend {R : Nat} {l l2 : List MState} (h1 : Before R l) (h2 : Before R l2) :
    Before R (l ++ l2) := by
  intro w hw
  rcases List.mem_append.1 hw with h | h
  · exact h1 w h
  · exact h2 w h

theorem Reach.append_right {R : Nat} {l : List MState} (h : Reach R l) (l3 : List MState) :
    Reach R (l ++ l3) := by
  obtain ⟨l1, y, l2, e, hb, hy⟩ := h
  exact ⟨l1, y, l2 ++ l3, by rw [e, List.append_assoc]; rfl, hb, hy⟩

theorem Before.append_reach {R : Nat} {l l3 : List MState} (h1 : Before R l) (h2 : Reach R l3) :
    Reach R (l ++ l3) := by
  obtain ⟨l1, y, l2, e, hb, hy⟩ := h2
  exact ⟨l ++ l1, y, l2, by rw [e, List.append_assoc], h1.beforeAppend hb, hy⟩

theorem Reach.reachSingle {R : Nat} {y : MState} (h : y.rest.length = R) : Reach R [y] :=
  ⟨[], y, [], rfl, Before.nil R, h⟩

theorem Before.flatMap_nil {R : Nat} {l : List MState} {f : MState → List MState}
    (h : Before R l) (hf : ∀ w, R < w.rest.length → f w = []) : l.flatMap f = [] := by
  rw [List.flatMap_eq_nil_iff]
  intro w hw
  exact hf w (h w hw)

theorem lazyList_eq :
    Rx.lazyList = Re.seq (Rx.star Rx.ws) (Re.seq (Rx.lazyPlus Rx.dot)
      (Re.seq (Rx.star Rx.ws) (Rx.star iterRe))) := rfl

theorem iterRe_eq :
    iterRe = Re.seq (Rx.lit ',') (Re.seq (Rx.star Rx.ws) (Re.seq (Rx.lazyPlus Rx.dot)
      (Rx.star Rx.ws))) := rfl

theorem clearCaps_chr (p : Char → Bool) (x : MState) :
    Re.clearCaps (Re.groups (Re.chr p)) x = x := clearCaps_nil x

theorem run_star_chr_stop (p : Char → Bool) (x : MState)
    (h : x.rest = [] ∨ ∃ c s, x.rest = c :: s ∧ p c = false) :
    Re.run (Rx.star (Re.chr p)) x = [x] := by
  unfold Rx.star
  rw [run_star_unfold]
  have : Re.run (Re.chr p) x = [] := by
    rcases h with h | ⟨c, s, h, hp⟩
    · exact run_chr_nil p _ h
    · rw [run_chr_cons p _ c s h, hp]; rfl
  rw [clearCaps_chr, this]
  rfl

theorem hd_star_chr (p : Char → Bool) :
    ∀ (u : Str) (x : MState) (s : Str), x.rest = u ++ s → (∀ c ∈ u, p c = true) →
      (s = [] ∨ ∃ c s2, s = c :: s2 ∧ p c = false) →
      Hd (Re.run (Rx.star (Re.chr p)) x) (At s x.caps) := by
  intro u
  induction u with
  | nil =>
    intro x s hx _ hs
    rw [run_star_chr_stop p x (by rw [hx]; exact hs)]
    exact Hd.hdSingle _ _ ⟨hx, rfl⟩
  | cons c u ih =>
    intro x s hx hu hs
    unfold Rx.star
    rw [run_star_unfold]
    have hc : p c = true := hu c (List.mem_cons_self _ _)
    have hrun : Re.run (Re.chr p) x = [{ x with pre := c :: x.pre, rest := u ++ s }] := by
      rw [run_chr_cons p x c (u ++ s) hx, if_pos hc]
    rw [clearCaps_chr, hrun]
    simp only [if_true, List.flatMap_cons, List.flatMap_nil, List.append_nil]
    have hlen : ¬ (u ++ s).length = x.rest.length := by
      rw [hx]; simp
    rw [if_neg hlen]
    apply Hd.hdAppend
    exact ih _ s rfl (fun d hd => hu d (List.mem_cons_of_mem _ hd)) hs

theorem hd_plus_chr (p : Char → Bool) (c : Char) (u : Str) (x : MState) (s : Str)
    (hx : x.rest = c :: u ++ s) (hu : ∀ d ∈ c :: u, p d = true)
    (hs : s = [] ∨ ∃ d s2, s = d :: s2 ∧ p d = false) :
    Hd (Re.run (Rx.plus (Re.chr p)) x) (At s x.caps) := by
  unfold Rx.plus
  rw [run_plus_unfold]
  have hc : p c = true := hu c (List.mem_cons_self _ _)
  have hrun : Re.run (Re.chr p) x = [{ x with pre := c :: x.pre, rest := u ++ s }] := by
    rw [run_chr_cons p x c (u ++ s) hx, if_pos hc]
  rw [clearCaps_chr, hrun, List.flatMap_cons, List.flatMap_nil, List.append_nil]
  exact hd_star_chr p u _ s rfl (fun d hd => hu d (List.mem_cons_of_mem _ hd)) hs

theorem run_seq (a b : Re) (x : MState) :
    Re.run (Re.seq a b) x = (Re.run a x).flatMap (Re.run b) := rfl

theorem lineTerminator_of_not_white (c : Char) (h : isWhiteSpace c = false) :
    isLineTerminator c = false := by
  simp only [isWhiteSpace, Bool.or_eq_false_iff, beq_eq_false_iff_ne, ne_eq] at h
  simp only [isLineTerminator, Bool.or_eq_false_iff, beq_eq_false_iff_ne, ne_eq]
  tauto

theorem tokenChar_facts (c : Char) (h : tokenChar c = true) :
    isWhiteSpace c = false ∧ c ≠ ',' ∧ c ≠ '(' ∧ c ≠ ')' ∧ isLineTerminator c = false := by
  simp only [tokenChar, Bool.and_eq_true, Bool.not_eq_true', bne_iff_ne, ne_eq] at h
  exact ⟨h.1.1.1, h.1.1.2, h.1.2, h.2, lineTerminator_of_not_white c h.1.1.1⟩

theorem run_star_greedy (r : Re) (x : MState) :
    Re.run (Rx.star r) x =
      (Re.run r (Re.clearCaps (Re.groups r) x)).flatMap (fun y =>
        if y.rest.length = x.rest.length then [] else Re.run (Rx.star r) y) ++ [x] :=
  run_star_unfold true r x

theorem run_star_stop (r : Re) (x : MState) (h : Re.run r (Re.clearCaps (Re.groups r) x) = []) :
    Re.run (Rx.star r) x = [x] := by
  unfold Rx.star
  rw [run_star_unfold, h]
  rfl

theorem run_lit_ne (c : Char) (x : MState)
    (h : x.rest = [] ∨ ∃ d s, x.rest = d :: s ∧ d ≠ c) : Re.run (Rx.lit c) x = [] := by
  unfold Rx.lit
  rcases h with h | ⟨d, s, h, hd⟩
  · exact run_chr_nil _ _ h
  · rw [run_chr_cons _ _ d s h, if_neg]
    simpa using hd

theorem run_iter_stop (x : MState) (h : x.rest = [] ∨ ∃ d s, x.rest = d :: s ∧ d ≠ ',') :
    Re.run (Rx.star iterRe) x = [x] := by
  apply run_star_stop
  rw [show Re.clearCaps (Re.groups iterRe) x = x from clearCaps_nil x, iterRe_eq, run_seq,
    run_lit_ne ',' x h]
  rfl

theorem run_ws_stop (x : MState)
    (h : x.rest = [] ∨ ∃ d s, x.rest = d :: s ∧ isWhiteSpace d = false) :
    Re.run (Rx.star Rx.ws) x = [x] :=
  run_star_chr_stop isWhiteSpace x h

theorem run_lazyStarDot (z : MState) :
    Re.run lazyStarDot z =
      z :: (Re.run Rx.dot z).flatMap (fun y =>
        if y.rest.length = z.rest.length then [] else Re.run lazyStarDot y) := by
  unfold lazyStarDot
  rw [run_star_unfold]
  rw [show Re.clearCaps (Re.groups Rx.dot) z = z from clearCaps_nil z]
  rfl

theorem run_dot_cons (z : MState) (c : Char) (s : Str) (hz : z.rest = c :: s)
    (hc : isLineTerminator c = false) :
    Re.run Rx.dot z = [{ z with pre := c :: z.pre, rest := s }] := by
  unfold Rx.dot
  rw [run_chr_cons _ z c s hz, if_pos (by simp [hc])]

/-- Lazy scan over a token with continuation `k`: when `k` stays before the barrier inside the
token and reaches it from the token's end, the scan reaches it. -/
theorem reach_lazyStar (R : Nat) (k : MState → List MState) (S : Str) :
    ∀ (u : Str) (z : MState), z.rest = u ++ S → (∀ c ∈ u, isLineTerminator c = false) →
      (∀ z2 c u2, z2.rest = c :: u2 ++ S → (c :: u2) <:+ u → Before R (k z2)) →
      (∀ z2, z2.rest = S → Reach R (k z2)) →
      Reach R ((Re.run lazyStarDot z).flatMap k) := by
  intro u
  induction u with
  | nil =>
    intro z hz _ _ hend
    rw [run_lazyStarDot, List.flatMap_cons]
    exact (hend z hz).append_right _
  | cons c u ih =>
    intro z hz hdot hin hend
    rw [run_lazyStarDot, List.flatMap_cons,
      run_dot_cons z c (u ++ S) hz (hdot c (List.mem_cons_self _ _)),
      List.flatMap_cons, List.flatMap_nil, List.append_nil]
    have hlen : ¬ (u ++ S).length = z.rest.length := by rw [hz]; simp
    simp only [if_neg hlen]
    apply Before.append_reach
    · exact hin z c u hz (List.suffix_refl _)
    · apply ih _ rfl (fun d hd => hdot d (List.mem_cons_of_mem _ hd))
      · intro z2 c2 u2 hz2 hsuf
        exact hin z2 c2 u2 hz2 (hsuf.trans (List.suffix_cons _ _))
      · exact hend

theorem reach_lazyPlus (R : Nat) (k : MState → List MState) (S : Str) (c : Char) (u : Str)
    (z : MState) (hz : z.rest = c :: u ++ S) (hdot : ∀ d ∈ c :: u, isLineTerminator d = false)
    (hin : ∀ z2 c2 u2, z2.rest = c2 :: u2 ++ S → (c2 :: u2) <:+ u → Before R (k z2))
    (hend : ∀ z2, z2.rest = S → Reach R (k z2)) :
    Reach R ((Re.run (Rx.lazyPlus Rx.dot) z).flatMap k) := by
  unfold Rx.lazyPlus
  rw [run_plus_unfold, show Re.clearCaps (Re.groups Rx.dot) z = z from clearCaps_nil z,
    run_dot_cons z c (u ++ S) hz (hdot c (List.mem_cons_self _ _)),
    List.flatMap_cons, List.flatMap_nil, List.append_nil]
  exact reach_lazyStar R k S u _ rfl (fun d hd => hdot d (List.mem_cons_of_mem _ hd)) hin hend

theorem sepItems_cons (m : Nat) (tok : Str) (more : List (Nat × Str)) :
    sepItems ((m, tok) :: more) = ',' :: (List.replicate m ' ' ++ tok) ++ sepItems more := rfl

theorem sepItems_head (more : List (Nat × Str)) (b : Char) (tail : Str)
    (hb1 : isWhiteSpace b = false) :
    ∃ d s, sepItems more ++ b :: tail = d :: s ∧ isWhiteSpace d = false ∧
      (d = ',' ∨ d = b) := by
  cases more with
  | nil => exact ⟨b, tail, rfl, hb1, Or.inr rfl⟩
  | cons p more =>
    obtain ⟨m, tok⟩ := p
    exact ⟨',', (List.replicate m ' ' ++ tok) ++ sepItems more ++ b :: tail,
      by rw [sepItems_cons]; simp, by decide, Or.inl rfl⟩

theorem length_sepItems_barrier (more : List (Nat × Str)) (b : Char) (tail : Str) :
    tail.length + 1 ≤ (sepItems more ++ b :: tail).length := by
  rw [List.length_append, List.length_cons]
  omega

theorem loopCont_inside (n : Nat) (z : MState) (c : Char) (u2 S : Str) (R : Nat)
    (hz : z.rest = c :: u2 ++ S) (hc : tokenChar c = true) (hR : R ≤ S.length) :
    Before R (loopCont n z) := by
  obtain ⟨h1, h2, -, -, -⟩ := tokenChar_facts c hc
  unfold loopCont
  rw [run_ws_stop z (Or.inr ⟨c, _, hz, h1⟩), List.flatMap_cons, List.flatMap_nil, List.append_nil]
  by_cases hn : z.rest.length = n
  · rw [if_pos hn]; exact Before.nil R
  · rw [if_neg hn, run_iter_stop z (Or.inr ⟨c, _, hz, h2⟩)]
    apply Before.beforeSingle
    rw [hz]
    simp only [List.cons_append, List.length_cons, List.length_append]
    omega

theorem hd_star_spaces (m : Nat) (x : MState) (s : Str) (hx : x.rest = List.replicate m ' ' ++ s)
    (hs : s = [] ∨ ∃ d s2, s = d :: s2 ∧ isWhiteSpace d = false) :
    Hd (Re.run (Rx.star Rx.ws) x) (At s x.caps) :=
  hd_star_chr isWhiteSpace (List.replicate m ' ') x s hx
    (fun c hc => by rw [List.eq_of_mem_replicate hc]; decide) hs

/-- The loop `(?:,\s*.+?\s*)*` on the further items of a list reaches the barrier character that
follows the list. -/
theorem reach_loop (b : Char) (tail : Str) (hb1 : isWhiteSpace b = false) (hb2 : b ≠ ',') :
    ∀ (more : List (Nat × Str)), (∀ p ∈ more, isToken p.2) →
      ∀ x : MState, x.rest = sepItems more ++ b :: tail →
        Reach (tail.length + 1) (Re.run (Rx.star iterRe) x) := by
  intro more
  induction more with
  | nil =>
    intro _ x hx
    rw [run_iter_stop x (Or.inr ⟨b, tail, hx, hb2⟩)]
    apply Reach.reachSingle
    rw [hx]; rfl
  | cons p more ih =>
    obtain ⟨m, tok⟩ := p
    intro htok x hx
    have hmore : ∀ p ∈ more, isToken p.2 := fun p hp => htok p (List.mem_cons_of_mem _ hp)
    obtain ⟨hne, hchars⟩ := htok (m, tok) (List.mem_cons_self _ _)
    obtain ⟨c, u, rfl⟩ := List.exists_cons_of_ne_nil hne
    have hx2 : x.rest = ',' :: (List.replicate m ' ' ++ ((c :: u) ++ (sepItems more ++ b :: tail))) := by
      rw [hx, sepItems_cons]
      simp only [List.cons_append, List.append_assoc]
    rw [run_star_greedy]
    apply Reach.append_right
    rw [show Re.clearCaps (Re.groups iterRe) x = x from clearCaps_nil x, iterRe_eq, run_seq]
    have hlit : Re.run (Rx.lit ',') x =
        [{ x with pre := ',' :: x.pre,
                  rest := List.replicate m ' ' ++ ((c :: u) ++ (sepItems more ++ b :: tail)) }] := by
      unfold Rx.lit
      rw [run_chr_cons _ x ',' _ hx2, if_pos (by simp)]
    rw [hlit, List.flatMap_cons, List.flatMap_nil, List.append_nil, run_seq, List.flatMap_assoc]
    obtain ⟨b1, l1, hl1, hb1rest, -⟩ := hd_star_spaces m
      { x with pre := ',' :: x.pre,
               rest := List.replicate m ' ' ++ ((c :: u) ++ (sepItems more ++ b :: tail)) }
      ((c :: u) ++ (sepItems more ++ b :: tail)) rfl
      (Or.inr ⟨c, _, rfl, (tokenChar_facts c (hchars c (List.mem_cons_self _ _))).1⟩)
    rw [hl1, List.flatMap_cons]
    apply Reach.append_right
    rw [run_seq, List.flatMap_assoc]
    show Reach _ ((Re.run (Rx.lazyPlus Rx.dot) b1).flatMap (loopCont x.rest.length))
    apply reach_lazyPlus (tail.length + 1) (loopCont x.rest.length) (sepItems more ++ b :: tail)
      c u b1 hb1rest
    · intro d hd
      exact (tokenChar_facts d (hchars d hd)).2.2.2.2
    · intro z2 c2 u2 hz2 hsuf
      apply loopCont_inside _ z2 c2 u2 _ _ hz2
      · exact hchars c2 (List.mem_cons_of_mem _ (hsuf.subset (List.mem_cons_self _ _)))
      · exact length_sepItems_barrier more b tail
    · intro z2 hz2
      obtain ⟨d, s, hds, hdw, -⟩ := sepItems_head more b tail hb1
      unfold loopCont
      rw [run_ws_stop z2 (Or.inr ⟨d, s, by rw [hz2, hds], hdw⟩), List.flatMap_cons,
        List.flatMap_nil, List.append_nil]
      have hlen : ¬ z2.rest.length = x.rest.length := by
        rw [hz2, hx2]
        simp only [List.length_cons, List.length_append, List.length_replicate]
        omega
      rw [if_neg hlen]
      exact ih hmore z2 hz2

theorem reach_lazyList (b : Char) (tail : Str) (hb1 : isWhiteSpace b = false) (hb2 : b ≠ ',')
    (first : Str) (more : List (Nat × Str)) (hfirst : isToken first)
    (hmore : ∀ p ∈ more, isToken p.2) (x : MState)
    (hx : x.rest = first ++ (sepItems more ++ b :: tail)) :
    Reach (tail.length + 1) (Re.run Rx.lazyList x) := by
  obtain ⟨hne, hchars⟩ := hfirst
  obtain ⟨c, u, rfl⟩ := List.exists_cons_of_ne_nil hne
  have hc := tokenChar_facts c (hchars c (List.mem_cons_self _ _))
  rw [lazyList_eq, run_seq, run_ws_stop x (Or.inr ⟨c, _, hx, hc.1⟩), List.flatMap_cons,
    List.flatMap_nil, List.append_nil, run_seq]
  apply reach_lazyPlus (tail.length + 1) _ (sepItems more ++ b :: tail) c u x hx
  · intro d hd
    exact (tokenChar_facts d (hchars d hd)).2.2.2.2
  · intro z2 c2 u2 hz2 hsuf
    have hc2 := tokenChar_facts c2
      (hchars c2 (List.mem_cons_of_mem _ (hsuf.subset (List.mem_cons_self _ _))))
    rw [run_seq, run_ws_stop z2 (Or.inr ⟨c2, _, hz2, hc2.1⟩), List.flatMap_cons,
      List.flatMap_nil, List.append_nil, run_iter_stop z2 (Or.inr ⟨c2, _, hz2, hc2.2.1⟩)]
    apply Before.beforeSingle
    rw [hz2]
    have := length_sepItems_barrier more b tail
    simp only [List.cons_append, List.length_cons, List.length_append] at this ⊢
    omega
  · intro z2 hz2
    obtain ⟨d, s, hds, hdw, -⟩ := sepItems_head more b tail hb1
    rw [run_seq, run_ws_stop z2 (Or.inr ⟨d, s, by rw [hz2, hds], hdw⟩), List.flatMap_cons,
      List.flatMap_nil, List.append_nil]
    exact reach_loop b tail hb1 hb2 more hmore z2 hz2

theorem mem_sepItems (more : List (Nat × Str)) (hmore : ∀ p ∈ more, isToken p.2) (d : Char)
    (hd : d ∈ sepItems more) : d = ',' ∨ d = ' ' ∨ tokenChar d = true := by
  unfold sepItems at hd
  rw [List.mem_flatMap] at hd
  obtain ⟨p, hp, hd⟩ := hd
  rcases List.mem_cons.1 hd with h | h
  · exact Or.inl h
  · rcases List.mem_append.1 h with h | h
    · exact Or.inr (Or.inl (List.eq_of_mem_replicate h))
    · exact Or.inr (Or.inr ((hmore p hp).2 d h))

theorem mem_listText (first : Str) (more : List (Nat × Str)) (hfirst : isToken first)
    (hmore : ∀ p ∈ more, isToken p.2) (d : Char) (hd : d ∈ first ++ sepItems more) :
    d ≠ '(' ∧ d ≠ ')' := by
  have key : d = ',' ∨ d = ' ' ∨ tokenChar d = true := by
    rcases List.mem_append.1 hd with h | h
    · exact Or.inr (Or.inr (hfirst.2 d h))
    · exact mem_sepItems more hmore d h
  rcases key with rfl | rfl | h
  · decide
  · decide
  · exact ⟨(tokenChar_facts d h).2.2.1, (tokenChar_facts d h).2.2.2.1⟩

theorem suffix_inside {α : Type} (consumed w C B : List α) (h : consumed ++ w = C ++ B)
    (hlen : B.length < w.length) : ∃ d s, w = d :: s ∧ d ∈ C := by
  rcases List.append_eq_append_iff.1 h with ⟨a, hC, hw⟩ | ⟨c, hcons, hB⟩
  · cases a with
    | nil =>
      rw [hw] at hlen
      simp at hlen
    | cons d s =>
      exact ⟨d, s ++ B, by rw [hw]; rfl, by rw [hC]; simp⟩
  · have := congrArg List.length hB
    rw [List.length_append] at this
    omega

theorem suffix_at {α : Type} (consumed w C B : List α) (h : consumed ++ w = C ++ B)
    (hlen : w.length = B.length) : consumed = C ∧ w = B :=
  List.append_inj' h hlen

/-- A parenthesised list `(first, item, ...)` read by `\((\s*.+?\s*(?:,\s*.+?\s*)*)\)`: the
first match ends after the closing parenthesis and captures the text between the
parentheses. -/
theorem hd_group_list (i : Nat) (first : Str) (more : List (Nat × Str)) (tail : Str)
    (hfirst : isToken first) (hmore : ∀ p ∈ more, isToken p.2) (x : MState)
    (hx : x.rest = '(' :: ((first ++ sepItems more) ++ ')' :: tail)) :
    Hd (Re.run (Re.seq (Rx.lit '(') (Re.seq (Re.grp i Rx.lazyList) (Rx.lit ')'))) x)
      (At tail (fun j => if j = i then some (first ++ sepItems more) else x.caps j)) := by
  obtain ⟨x1, hx1⟩ : ∃ x1 : MState,
      x1 = ⟨'(' :: x.pre, (first ++ sepItems more) ++ ')' :: tail, x.caps⟩ := ⟨_, rfl⟩
  have hlit : Re.run (Rx.lit '(') x = [x1] := by
    unfold Rx.lit
    rw [run_chr_cons _ x '(' _ hx, if_pos (by simp), hx1]
  rw [run_seq, hlit, List.flatMap_cons, List.flatMap_nil, List.append_nil, run_seq]
  have hx1rest : x1.rest = (first ++ sepItems more) ++ ')' :: tail := by rw [hx1]
  have hx1caps : x1.caps = x.caps := by rw [hx1]
  obtain ⟨l1, y, l2, hl, hbefore, hy⟩ :=
    reach_lazyList ')' tail (by decide) (by decide) first more hfirst hmore x1
      (by rw [hx1rest, List.append_assoc])
  have hmemy : y ∈ Re.run Rx.lazyList x1 := by rw [hl]; simp
  show Hd ((List.map (Re.setCap i x1) (Re.run Rx.lazyList x1)).flatMap _) _
  rw [hl, List.map_append, List.map_cons, List.flatMap_append, List.flatMap_cons]
  have hfirstPart : (List.map (Re.setCap i x1) l1).flatMap (Re.run (Rx.lit ')')) = [] := by
    rw [List.flatMap_eq_nil_iff]
    intro w2 hw2
    rw [List.mem_map] at hw2
    obtain ⟨w, hw, rfl⟩ := hw2
    have hwmem : w ∈ Re.run Rx.lazyList x1 := by rw [hl]; simp [hw]
    obtain ⟨consumed, hcons, -⟩ := run_ext _ _ _ hwmem
    have hlt := hbefore w hw
    obtain ⟨d, s, hds, hdC⟩ := suffix_inside consumed w.rest (first ++ sepItems more)
      (')' :: tail) (by rw [← hcons, hx1rest]) (by simpa using hlt)
    exact run_lit_ne ')' _ (Or.inr ⟨d, s, hds,
      (mem_listText first more hfirst hmore d hdC).2⟩)
  rw [hfirstPart, List.nil_append]
  apply Hd.hdAppend
  obtain ⟨consumed, hcons, -⟩ := run_ext _ _ _ hmemy
  obtain ⟨hc1, hc2⟩ := suffix_at consumed y.rest (first ++ sepItems more) (')' :: tail)
    (by rw [← hcons, hx1rest]) (by simpa using hy)
  have hycaps : y.caps = x.caps := by
    funext j
    rw [run_caps _ _ _ hmemy j (by simp [Rx.lazyList, Rx.cat, Re.groups, Rx.star, Rx.lazyPlus,
      Rx.ws, Rx.dot, Rx.lit]), hx1caps]
  unfold Rx.lit
  rw [run_chr_cons _ (Re.setCap i x1 y) ')' tail hc2, if_pos (by simp)]
  refine Hd.hdSingle _ _ ⟨rfl, ?_⟩
  funext j
  by_cases hj : j = i
  · simp only [Re.setCap, if_pos hj]
    rw [hx1rest, hc2]
    have hlen : ((first ++ sepItems more) ++ ')' :: tail).length - (')' :: tail).length
        = (first ++ sepItems more).length := by
      rw [List.length_append]; omega
    rw [hlen, List.take_left']
    rfl
  · simp only [Re.setCap, if_neg hj]
    rw [hycaps]

theorem hd_opt (r : Re) (x : MState) (P : MState → Prop)
    (h : Hd (Re.run r (Re.clearCaps (Re.groups r) x)) P)
    (hlen : ∀ y, P y → y.rest.length ≠ x.rest.length) : Hd (Re.run (Rx.opt r) x) P := by
  unfold Rx.opt
  rw [run_opt_unfold]
  apply Hd.hdAppend
  apply Hd.flatMap h
  intro y hy
  rw [if_neg (hlen y hy)]
  exact Hd.hdSingle y P hy

theorem wordU_facts (c : Char) (h : Rx.wordU c = true) :
    isWhiteSpace c = false ∧ c ≠ ' ' ∧ c ≠ '(' := by
  have hw : isWordAscii (Rx.canonU c) = true := h
  unfold Rx.canonU at hw
  by_cases h1 : c.toNat = 383
  · simp [isWhiteSpace, h1]
    refine ⟨?_, ?_⟩ <;> (intro hc; rw [hc] at h1; revert h1; decide)
  by_cases h2 : c.toNat = 8490
  · simp [isWhiteSpace, h2]
    refine ⟨?_, ?_⟩ <;> (intro hc; rw [hc] at h2; revert h2; decide)
  rw [if_neg h1, if_neg h2] at hw
  by_cases h3 : isUpperAscii c = true
  · simp only [isUpperAscii, Bool.and_eq_true, decide_eq_true_eq] at h3
    refine ⟨?_, ?_, ?_⟩
    · simp [isWhiteSpace]; omega
    · intro hc; rw [hc] at h3; revert h3; decide
    · intro hc; rw [hc] at h3; revert h3; decide
  · rw [if_neg h3] at hw
    simp only [isWordAscii, isDigit, isUpperAscii, isLowerAscii, Bool.or_eq_true,
      Bool.and_eq_true, decide_eq_true_eq, beq_iff_eq] at hw
    refine ⟨?_, ?_, ?_⟩
    · simp [isWhiteSpace]; omega
    · intro hc; rw [hc] at hw; revert hw; decide
    · intro hc; rw [hc] at hw; revert hw; decide

theorem insertRegex_eq :
    Rx.insertRegex =
      Re.seq (Rx.kw "INSERT") (Re.seq (Rx.plus Rx.ws) (Re.seq (Rx.kw "INTO")
        (Re.seq (Rx.plus Rx.ws) (Re.seq (Rx.plus Rx.wd) (Re.seq (Rx.star Rx.ws)
          (Re.seq (Rx.opt (Re.seq (Rx.lit '(') (Re.seq (Re.grp 1 Rx.lazyList) (Rx.lit ')'))))
            (Re.seq (Rx.star Rx.ws)
              (Re.seq (Rx.opt (Re.seq (Rx.kw "VALUES") (Re.seq (Rx.star Rx.ws)
                (Re.seq (Rx.lit '(') (Re.seq (Re.grp 2 Rx.lazyList) (Rx.lit ')'))))))
                (Rx.star Rx.ws))))))))) := rfl

theorem hd_ws_one (x : MState) (s : Str) (hx : x.rest = ' ' :: s)
    (hs : s = [] ∨ ∃ d s2, s = d :: s2 ∧ isWhiteSpace d = false) :
    Hd (Re.run (Rx.plus Rx.ws) x) (At s x.caps) :=
  hd_plus_chr isWhiteSpace ' ' [] x s hx (fun d hd => by
    rw [List.mem_singleton] at hd; rw [hd]; decide) hs

theorem listText_head (c : Str) (cs : List (Nat × Str)) (hc : isToken c) (s : Str) :
    ∃ d s2, listText c cs ++ s = d :: s2 ∧ tokenChar d = true := by
  obtain ⟨hne, hchars⟩ := hc
  obtain ⟨d, u, rfl⟩ := List.exists_cons_of_ne_nil hne
  exact ⟨d, u ++ sepItems cs ++ s, by simp [listText], hchars d (List.mem_cons_self _ _)⟩

/-- The dispatcher's INSERT pattern on `INSERT INTO t (columns) VALUES (values)`: the first
match at the start of the text captures the two lists. -/
theorem hd_insertRegex (t c v : Str) (cs vs : List (Nat × Str))
    (ht : t ≠ []) (htw : ∀ d ∈ t, Rx.wordU d = true)
    (hc : isToken c) (hcs : ∀ p ∈ cs, isToken p.2)
    (hv : isToken v) (hvs : ∀ p ∈ vs, isToken p.2)
    (x : MState) (hx : x.rest = insertText t c cs v vs) (hcaps : x.caps = fun _ => none) :
    Hd (Re.run Rx.insertRegex x)
      (fun y => y.rest = [] ∧ y.caps 1 = some (listText c cs) ∧ y.caps 2 = some (listText v vs)) := by
  obtain ⟨t0, tu, rfl⟩ := List.exists_cons_of_ne_nil ht
  have ht0 := wordU_facts t0 (htw t0 (List.mem_cons_self _ _))
  rw [insertRegex_eq]
  refine Hd.seq (hd_kw "INSERT" x _ (by rw [hx]; rfl)) ?_
  intro x1 h1
  refine Hd.seq (hd_ws_one x1 _ h1.1 (Or.inr ⟨'I', _, rfl, by decide⟩)) ?_
  intro x2 h2
  refine Hd.seq (hd_kw "INTO" x2 _ h2.1) ?_
  intro x3 h3
  refine Hd.seq (hd_ws_one x3 _ h3.1 (Or.inr ⟨t0, _, rfl, ht0.1⟩)) ?_
  intro x4 h4
  refine Hd.seq (hd_plus_chr Rx.wordU t0 tu x4 _ h4.1 htw (Or.inr ⟨' ', _, rfl, by decide⟩)) ?_
  intro x5 h5
  refine Hd.seq (hd_star_spaces 1 x5 _ h5.1 (Or.inr ⟨'(', _, rfl, by decide⟩)) ?_
  intro x6 h6
  refine Hd.seq (P := At (" VALUES ".toList ++ ('(' :: (listText v vs ++ [')'])))
      (fun j => if j = 1 then some (listText c cs) else none)) ?_ ?_
  · apply hd_opt
    · have := hd_group_list 1 c cs (" VALUES ".toList ++ ('(' :: (listText v vs ++ [')'])))
        hc hcs (Re.clearCaps [1] x6) (by
          show x6.rest = _
          rw [h6.1]; rfl)
      refine this.mono ?_
      intro y hy
      refine ⟨hy.1, ?_⟩
      rw [hy.2]
      funext j
      by_cases hj : j = 1
      · rw [if_pos hj, if_pos hj]; rfl
      · rw [if_neg hj, if_neg hj]
        simp only [Re.clearCaps, List.mem_singleton, if_neg hj]
        rw [h6.2, h5.2, h4.2, h3.2, h2.2, h1.2, hcaps]
    · intro y hy
      rw [hy.1, h6.1]
      simp only [List.length_cons, List.length_append]
      omega
  intro x7 h7
  refine Hd.seq (hd_star_spaces 1 x7 _ h7.1 (Or.inr ⟨'V', _, rfl, by decide⟩)) ?_
  intro x8 h8
  refine Hd.seq (P := At []
      (fun j => if j = 2 then some (listText v vs)
        else if j = 1 then some (listText c cs) else none)) ?_ ?_
  · apply hd_opt
    · refine Hd.seq (hd_kw "VALUES" (Re.clearCaps _ x8) _ (by
        show x8.rest = _
        rw [h8.1]; rfl)) ?_
      intro x9 h9
      refine Hd.seq (hd_star_spaces 1 x9 _ h9.1 (Or.inr ⟨'(', _, rfl, by decide⟩)) ?_
      intro x10 h10
      have := hd_group_list 2 v vs [] hv hvs x10 (by rw [h10.1]; rfl)
      refine this.mono ?_
      intro y hy
      refine ⟨hy.1, ?_⟩
      rw [hy.2]
      funext j
      by_cases hj : j = 2
      · rw [if_pos hj, if_pos hj]; rfl
      · rw [if_neg hj, if_neg hj, h10.2, h9.2]
        have hj2 : j ∉ Re.groups (Re.seq (Rx.kw "VALUES") (Re.seq (Rx.star Rx.ws)
            (Re.seq (Rx.lit '(') (Re.seq (Re.grp 2 Rx.lazyList) (Rx.lit ')'))))) := by
          have : Re.groups (Re.seq (Rx.kw "VALUES") (Re.seq (Rx.star Rx.ws)
            (Re.seq (Rx.lit '(') (Re.seq (Re.grp 2 Rx.lazyList) (Rx.lit ')'))))) = [2] := by
            decide
          rw [this]
          simpa using hj
        simp only [Re.clearCaps, if_neg hj2]
        rw [h8.2, h7.2]
    · intro y hy
      rw [hy.1, h8.1]
      simp
  intro x11 h11
  rw [run_ws_stop x11 (Or.inl h11.1)]
  refine Hd.hdSingle _ _ ⟨h11.1, ?_, ?_⟩
  · rw [h11.2]; rfl
  · rw [h11.2]; rfl

theorem reExec_of_hd (r : Re) (c : Char) (s : Str) (P : MState → Prop)
    (h : Hd (Re.run r ⟨[], c :: s, fun _ => none⟩) P) :
    ∃ m y, reExec r (c :: s) = some m ∧ P y ∧ m.caps = y.caps ∧ m.after = y.rest := by
  obtain ⟨y, l2, hl, hp⟩ := h
  refine ⟨⟨0, (c :: s).take ((c :: s).length - y.rest.length), y.rest, y.caps⟩, y, ?_, hp, rfl, rfl⟩
  unfold reExec searchFrom matchAt
  rw [hl]
  rfl

theorem At.rest {s : Str} {k : Nat → Option Str} {y : MState} (h : At s k y) : Rest s y := h.1

theorem hd_kw_rest (w : String) (x : MState) (s : Str) (hx : x.rest = w.toList ++ s) :
    Hd (Re.run (Rx.kw w) x) (Rest s) := (hd_kw w x s hx).mono (fun _ h => h.1)

theorem hd_grp_rest (i : Nat) (r : Re) (x : MState) (s : Str) (h : Hd (Re.run r x) (Rest s)) :
    Hd (Re.run (Re.grp i r) x) (Rest s) := by
  obtain ⟨y, l2, hl, hp⟩ := h
  exact ⟨Re.setCap i x y, l2.map (Re.setCap i x), by
    show List.map _ (Re.run r x) = _
    rw [hl]; rfl, hp⟩

theorem hd_lit_rest (c : Char) (x : MState) (s : Str) (hx : x.rest = c :: s) :
    Hd (Re.run (Rx.lit c) x) (Rest s) :=
  (hd_chr _ x c s hx (by simp)).mono (fun _ h => h.1)

theorem listText_ne_nil (c : Str) (cs : List (Nat × Str)) (hc : isToken c) :
    listText c cs ≠ [] := by
  obtain ⟨d, s2, h, -⟩ := listText_head c cs hc []
  rw [List.append_nil] at h
  rw [h]
  exact List.cons_ne_nil _ _

/-- A parenthesised list read by the validator's `\(([^()]+)\)`. -/
theorem hd_group_check (i : Nat) (c : Str) (cs : List (Nat × Str)) (tail : Str)
    (hc : isToken c) (hcs : ∀ p ∈ cs, isToken p.2) (x : MState)
    (hx : x.rest = '(' :: (listText c cs ++ ')' :: tail)) :
    Hd (Re.run (Re.seq (Rx.lit '(') (Re.seq (Re.grp i (Rx.plus Rx.notParen)) (Rx.lit ')'))) x)
      (Rest tail) := by
  refine Hd.seq (hd_lit_rest '(' x _ hx) ?_
  intro x1 h1
  obtain ⟨d, u, hdu⟩ := List.exists_cons_of_ne_nil (listText_ne_nil c cs hc)
  refine Hd.seq (P := Rest (')' :: tail)) ?_ ?_
  · apply hd_grp_rest
    refine (hd_plus_chr _ d u x1 (')' :: tail) (by rw [h1, hdu]) ?_
      (Or.inr ⟨')', tail, rfl, by decide⟩)).mono (fun _ h => h.1)
    intro e he
    rw [← hdu] at he
    have := mem_listText c cs hc hcs e he
    simp [this.1, this.2]
  · intro x2 h2
    exact hd_lit_rest ')' x2 tail h2

theorem insertCheck_eq :
    Rx.insertCheck =
      Re.seq (Rx.kw "INSERT") (Re.seq (Rx.plus Rx.ws) (Re.seq (Rx.kw "INTO")
        (Re.seq (Rx.plus Rx.ws) (Re.seq (Rx.plus Rx.wd) (Re.seq (Rx.star Rx.ws)
          (Re.seq (Rx.opt (Re.seq (Rx.lit '(') (Re.seq (Re.grp 1 (Rx.plus Rx.notParen))
            (Rx.lit ')'))))
            (Re.seq (Rx.star Rx.ws)
              (Re.seq (Rx.opt (Re.seq (Rx.kw "VALUES") (Re.seq (Rx.star Rx.ws)
                (Re.seq (Rx.lit '(') (Re.seq (Re.grp 2 (Rx.plus Rx.notParen)) (Rx.lit ')'))))))
                (Rx.star Rx.ws))))))))) := rfl

/-- The validator's INSERT pattern matches `INSERT INTO t (columns) VALUES (values)`. -/
theorem reTest_insertCheck (t c v : Str) (cs vs : List (Nat × Str))
    (ht : t ≠ []) (htw : ∀ d ∈ t, Rx.wordU d = true)
    (hc : isToken c) (hcs : ∀ p ∈ cs, isToken p.2)
    (hv : isToken v) (hvs : ∀ p ∈ vs, isToken p.2) :
    reTest Rx.insertCheck (insertText t c cs v vs) = true := by
  obtain ⟨t0, tu, rfl⟩ := List.exists_cons_of_ne_nil ht
  have ht0 := wordU_facts t0 (htw t0 (List.mem_cons_self _ _))
  have key : Hd (Re.run Rx.insertCheck ⟨[], insertText (t0 :: tu) c cs v vs, fun _ => none⟩)
      (Rest []) := by
    rw [insertCheck_eq]
    refine Hd.seq (hd_kw_rest "INSERT" _ _ rfl) ?_
    intro x1 h1
    refine Hd.seq ((hd_ws_one x1 _ h1 (Or.inr ⟨'I', _, rfl, by decide⟩)).mono (fun _ h => h.1)) ?_
    intro x2 h2
    refine Hd.seq (hd_kw_rest "INTO" x2 _ h2) ?_
    intro x3 h3
    refine Hd.seq ((hd_ws_one x3 _ h3 (Or.inr ⟨t0, _, rfl, ht0.1⟩)).mono (fun _ h => h.1)) ?_
    intro x4 h4
    refine Hd.seq ((hd_plus_chr Rx.wordU t0 tu x4 _ h4 htw
      (Or.inr ⟨' ', _, rfl, by decide⟩)).mono (fun _ h => h.1)) ?_
    intro x5 h5
    refine Hd.seq ((hd_star_spaces 1 x5 _ h5 (Or.inr ⟨'(', _, rfl, by decide⟩)).mono
      (fun _ h => h.1)) ?_
    intro x6 h6
    refine Hd.seq (P := Rest (" VALUES ".toList ++ ('(' :: (listText v vs ++ [')'])))) ?_ ?_
    · apply hd_opt
      · exact hd_group_check 1 c cs _ hc hcs (Re.clearCaps _ x6) (by
          show x6.rest = _
          rw [h6])
      · intro y hy
        rw [hy, h6]
        simp only [List.length_cons, List.length_append]
        omega
    intro x7 h7
    refine Hd.seq ((hd_star_spaces 1 x7 _ h7 (Or.inr ⟨'V', _, rfl, by decide⟩)).mono
      (fun _ h => h.1)) ?_
    intro x8 h8
    refine Hd.seq (P := Rest []) ?_ ?_
    · apply hd_opt
      · refine Hd.seq (hd_kw_rest "VALUES" (Re.clearCaps _ x8) _ (by
          show x8.rest = _
          rw [h8]; rfl)) ?_
        intro x9 h9
        refine Hd.seq ((hd_star_spaces 1 x9 _ h9 (Or.inr ⟨'(', _, rfl, by decide⟩)).mono
          (fun _ h => h.1)) ?_
        intro x10 h10
        exact hd_group_check 2 v vs [] hv hvs x10 (by rw [h10])
      · intro y hy
        rw [hy, h8]
        simp
    intro x11 h11
    rw [run_ws_stop x11 (Or.inl h11)]
    exact Hd.hdSingle _ _ h11
  obtain ⟨m, y, hm, -⟩ := reExec_of_hd Rx.insertCheck 'I' _ _ key
  unfold reTest
  have : reExec Rx.insertCheck (insertText (t0 :: tu) c cs v vs) = some m := hm
  rw [this]
  rfl

theorem splitChar_ne_nil (sep : Char) (s : Str) : splitChar sep s ≠ [] := by
  induction s with
  | nil => simp [splitChar]
  | cons c cs ih =>
    unfold splitChar
    by_cases h : c = sep
    · rw [if_pos h]; exact List.cons_ne_nil _ _
    · rw [if_neg h]
      split
      · exact List.cons_ne_nil _ _
      · exact List.cons_ne_nil _ _

theorem splitChar_cons_ne (sep c : Char) (s : Str) (h : c ≠ sep) (p : Str) (ps : List Str)
    (hs : splitChar sep s = p :: ps) : splitChar sep (c :: s) = (c :: p) :: ps := by
  rw [splitChar, if_neg h, hs]

theorem splitChar_append_sep (sep : Char) (u s : Str) (h : sep ∉ u) :
    splitChar sep (u ++ sep :: s) = u :: splitChar sep s := by
  induction u with
  | nil =>
    show splitChar sep (sep :: s) = _
    rw [splitChar, if_pos rfl]
  | cons c u ih =>
    have hc : c ≠ sep := fun hc => h (hc ▸ List.mem_cons_self _ _)
    have hu : sep ∉ u := fun hm => h (List.mem_cons_of_mem _ hm)
    exact splitChar_cons_ne sep c _ hc _ _ (ih hu)

theorem splitChar_no_sep (sep : Char) (u : Str) (h : sep ∉ u) : splitChar sep u = [u] := by
  induction u with
  | nil => rfl
  | cons c u ih =>
    have hc : c ≠ sep := fun hc => h (hc ▸ List.mem_cons_self _ _)
    have hu : sep ∉ u := fun hm => h (List.mem_cons_of_mem _ hm)
    exact splitChar_cons_ne sep c _ hc _ _ (ih hu)

theorem insertText_parts (t c v : Str) (cs vs : List (Nat × Str))
    (htw : ∀ d ∈ t, Rx.wordU d = true) :
    ∃ rest, splitChar ' ' (insertText t c cs v vs) =
      "INSERT".toList :: "INTO".toList :: t :: rest := by
  have ht : ' ' ∉ t := fun hm => (wordU_facts ' ' (htw ' ' hm)).2.1 rfl
  have e : insertText t c cs v vs = "INSERT".toList ++ ' ' :: ("INTO".toList ++ ' ' ::
      (t ++ ' ' :: ('(' :: (listText c cs ++
        (')' :: (" VALUES ".toList ++ ('(' :: (listText v vs ++ [')'])))))))) := by
    simp [insertText]
  rw [e, splitChar_append_sep ' ' _ _ (by decide), splitChar_append_sep ' ' _ _ (by decide),
    splitChar_append_sep ' ' _ _ ht]
  exact ⟨_, rfl⟩

theorem token_no_comma (tok : Str) (h : isToken tok) : ',' ∉ tok :=
  fun hm => (tokenChar_facts ',' (h.2 ',' hm)).2.1 rfl

theorem spaces_token_no_comma (m : Nat) (tok : Str) (h : isToken tok) :
    ',' ∉ List.replicate m ' ' ++ tok := by
  intro hm
  rcases List.mem_append.1 hm with h1 | h1
  · exact absurd (List.eq_of_mem_replicate h1) (by decide)
  · exact token_no_comma tok h h1

theorem splitChar_items (cs : List (Nat × Str)) (hcs : ∀ p ∈ cs, isToken p.2) :
    ∀ (piece : Str), ',' ∉ piece →
      splitChar ',' (piece ++ sepItems cs) =
        piece :: cs.map (fun p => List.replicate p.1 ' ' ++ p.2) := by
  induction cs with
  | nil =>
    intro piece hp
    show splitChar ',' (piece ++ []) = _
    rw [List.append_nil, splitChar_no_sep ',' piece hp]
    rfl
  | cons p cs ih =>
    obtain ⟨m, tok⟩ := p
    intro piece hp
    have e : piece ++ sepItems ((m, tok) :: cs) =
        piece ++ ',' :: ((List.replicate m ' ' ++ tok) ++ sepItems cs) := by
      rw [sepItems_cons]; simp
    rw [e, splitChar_append_sep ',' piece _ hp,
      ih (fun q hq => hcs q (List.mem_cons_of_mem _ hq)) _
        (spaces_token_no_comma m tok (hcs (m, tok) (List.mem_cons_self _ _)))]
    rfl

theorem dropWhile_spaces (m : Nat) (s : Str) :
    (List.replicate m ' ' ++ s).dropWhile isWhiteSpace = s.dropWhile isWhiteSpace := by
  induction m with
  | zero => rfl
  | succ m ih =>
    rw [List.replicate_succ, List.cons_append, List.dropWhile_cons_of_pos (by decide), ih]

theorem trim_spaces_token (m : Nat) (tok : Str) (h : isToken tok) :
    trim (List.replicate m ' ' ++ tok) = tok := by
  obtain ⟨hne, hchars⟩ := h
  unfold trim trimStart trimEnd
  rw [dropWhile_spaces]
  obtain ⟨d, u, rfl⟩ := List.exists_cons_of_ne_nil hne
  have hd := (tokenChar_facts d (hchars d (List.mem_cons_self _ _))).1
  rw [List.dropWhile_cons_of_neg (by simp [hd])]
  obtain ⟨e, w, hw⟩ := List.exists_cons_of_ne_nil
    (show (d :: u).reverse ≠ [] by simp)
  have he : e ∈ d :: u := by
    rw [← List.mem_reverse, hw]; exact List.mem_cons_self _ _
  have he2 := (tokenChar_facts e (hchars e he)).1
  rw [hw, List.dropWhile_cons_of_neg (by simp [he2]), ← hw, List.reverse_reverse]

theorem clean_columns (c : Str) (cs : List (Nat × Str)) (hc : isToken c)
    (hcs : ∀ p ∈ cs, isToken p.2) :
    (splitChar ',' (listText c cs)).map (fun v => clean (trim v)) =
      (c :: cs.map (fun p => p.2)).map clean := by
  unfold listText
  rw [splitChar_items cs hcs c (token_no_comma c hc), List.map_cons, List.map_cons,
    List.map_map, List.map_map]
  congr 1
  · have := trim_spaces_token 0 c hc
    rw [show List.replicate 0 ' ' ++ c = c from rfl] at this
    rw [this]
  · apply List.map_congr_left
    intro p hp
    show clean (trim (List.replicate p.1 ' ' ++ p.2)) = clean p.2
    rw [trim_spaces_token p.1 p.2 (hcs p hp)]

theorem isValueToken.isToken {v : Str} (h : isValueToken v) : isToken v := by
  rcases h with h | ⟨q, body, hq, rfl, hbody⟩
  · exact h.1
  · refine ⟨List.cons_ne_nil _ _, ?_⟩
    have hqt : tokenChar q = true := by rcases hq with rfl | rfl <;> decide
    intro c hc
    rcases List.mem_cons.1 hc with rfl | hc
    · exact hqt
    · rcases List.mem_append.1 hc with hc | hc
      · exact (hbody c hc).1
      · rw [List.mem_singleton] at hc; rw [hc]; exact hqt

theorem valueToken_eq :
    Rx.valueToken =
      Re.alt (Re.alt (Re.seq (Rx.lit sq) (Re.seq (Re.grp 1 (Rx.plus Rx.notSq)) (Rx.lit sq)))
        (Re.seq (Rx.lit dq) (Re.seq (Re.grp 2 (Rx.plus Rx.notDq)) (Rx.lit dq))))
        (Re.grp 3 (Rx.plus (Re.chr (fun c => c != ',')))) := rfl

theorem run_alt (a b : Re) (x : MState) : Re.run (Re.alt a b) x = Re.run a x ++ Re.run b x := rfl

theorem run_grp (i : Nat) (r : Re) (x : MState) :
    Re.run (Re.grp i r) x = (Re.run r x).map (Re.setCap i x) := rfl

theorem quoteAlt_nil (q : Char) (r : Re) (x : MState)
    (h : x.rest = [] ∨ ∃ d s, x.rest = d :: s ∧ d ≠ q) :
    Re.run (Re.seq (Rx.lit q) r) x = [] := by
  rw [run_seq, run_lit_ne q x h]
  rfl

theorem quoteAlt_empty (q : Char) (i : Nat) (p : Char → Bool) (x : MState) (S : Str)
    (hx : x.rest = q :: q :: S) (hp : p q = false) :
    Re.run (Re.seq (Rx.lit q) (Re.seq (Re.grp i (Rx.plus (Re.chr p))) (Rx.lit q))) x = [] := by
  have hlit : Re.run (Rx.lit q) x = [⟨q :: x.pre, q :: S, x.caps⟩] := by
    unfold Rx.lit
    rw [run_chr_cons _ x q _ hx, if_pos (by simp)]
  rw [run_seq, hlit, List.flatMap_cons, List.flatMap_nil, List.append_nil, run_seq, run_grp]
  unfold Rx.plus
  rw [run_plus_unfold, clearCaps_chr, run_chr_cons p _ q S rfl, hp]
  rfl

theorem quoteAlt_hd (q : Char) (i : Nat) (p : Char → Bool) (x : MState) (b : Char)
    (body S : Str) (hx : x.rest = q :: ((b :: body) ++ q :: S))
    (hbody : ∀ c ∈ b :: body, p c = true) (hp : p q = false) :
    Hd (Re.run (Re.seq (Rx.lit q) (Re.seq (Re.grp i (Rx.plus (Re.chr p))) (Rx.lit q))) x)
      (Rest S) := by
  refine Hd.seq (hd_lit_rest q x _ hx) ?_
  intro x1 h1
  refine Hd.seq (P := Rest (q :: S)) ?_ ?_
  · apply hd_grp_rest
    exact (hd_plus_chr p b body x1 (q :: S) h1 hbody (Or.inr ⟨q, S, rfl, hp⟩)).mono
      (fun _ h => h.1)
  · intro x2 h2
    exact hd_lit_rest q x2 S h2

theorem hd_append_of_nil {l1 l2 : List MState} {P : MState → Prop} (h1 : l1 = [])
    (h2 : Hd l2 P) : Hd (l1 ++ l2) P := by
  rw [h1]; exact h2

/-- The pattern of `cleanValues` at the start of an item: the first match is the item with
the spaces before it. -/
theorem hd_valueToken (m : Nat) (v S : Str) (x : MState)
    (hx : x.rest = (List.replicate m ' ' ++ v) ++ S) (hv : isValueToken v)
    (hS : S = [] ∨ ∃ s2, S = ',' :: s2) :
    Hd (Re.run Rx.valueToken x) (Rest S) := by
  have htok := hv.isToken
  have hS2 : S = [] ∨ ∃ d s2, S = d :: s2 ∧ (fun c : Char => c != ',') d = false := by
    rcases hS with h | ⟨s2, h⟩
    · exact Or.inl h
    · exact Or.inr ⟨',', s2, h, by decide⟩
  obtain ⟨d, u, hdu⟩ := List.exists_cons_of_ne_nil
    (show List.replicate m ' ' ++ v ≠ [] by
      intro h
      exact htok.1 (List.append_eq_nil.1 h).2)
  have hall : ∀ c ∈ d :: u, (fun c : Char => c != ',') c = true := by
    intro c hc
    rw [← hdu] at hc
    have : c ≠ ',' := fun hcc => spaces_token_no_comma m v htok (hcc ▸ hc)
    simpa using this
  have hg3 : Hd (Re.run (Re.grp 3 (Rx.plus (Re.chr (fun c => c != ',')))) x) (Rest S) := by
    apply hd_grp_rest
    exact (hd_plus_chr _ d u x S (by rw [hx, hdu]) hall hS2).mono (fun _ h => h.1)
  have hxd : x.rest = d :: (u ++ S) := by rw [hx, hdu]; rfl
  rw [valueToken_eq, run_alt, run_alt]
  by_cases hq : d = sq ∨ d = dq
  · -- the item starts with a quote: it is a quoted token and there is no space before it
    have hm : m = 0 := by
      cases m with
      | zero => rfl
      | succ m =>
        exfalso
        rw [List.replicate_succ, List.cons_append] at hdu
        injection hdu with h1 _
        rcases hq with h | h <;> (rw [← h1] at h; revert h; decide)
    subst hm
    have hvd : v = d :: u := hdu
    rcases hv with hplain | ⟨q, body, hqq, hvq, hbody⟩
    · exfalso
      have := hplain.2 d (by rw [hvd]; exact List.mem_cons_self _ _)
      rcases hq with h | h
      · exact this.1 h
      · exact this.2 h
    · rw [hvd] at hvq
      injection hvq with h1 h2
      subst h1
      have hxq : x.rest = d :: (body ++ d :: S) := by rw [hxd, h2]; simp
      have hsqdq : sq ≠ dq := by decide
      cases body with
      | nil =>
        have hxq2 : x.rest = d :: d :: S := hxq
        rcases hqq with rfl | rfl
        · have e1 : Re.run (Re.seq (Rx.lit sq) (Re.seq (Re.grp 1 (Rx.plus Rx.notSq))
              (Rx.lit sq))) x = [] :=
            quoteAlt_empty sq 1 (fun c => c != sq) x S hxq2 (by decide)
          apply hd_append_of_nil _ hg3
          rw [e1, quoteAlt_nil dq _ x (Or.inr ⟨sq, _, hxq, hsqdq⟩)]
          rfl
        · have e1 : Re.run (Re.seq (Rx.lit dq) (Re.seq (Re.grp 2 (Rx.plus Rx.notDq))
              (Rx.lit dq))) x = [] :=
            quoteAlt_empty dq 2 (fun c => c != dq) x S hxq2 (by decide)
          apply hd_append_of_nil _ hg3
          rw [quoteAlt_nil sq _ x (Or.inr ⟨dq, _, hxq, hsqdq.symm⟩), e1]
          rfl
      | cons b body =>
        rcases hqq with rfl | rfl
        · apply Hd.hdAppend
          apply Hd.hdAppend
          exact quoteAlt_hd sq 1 (fun c => c != sq) x b body S hxq
            (fun c hc => by simpa using (hbody c hc).2.1) (by decide)
        · apply Hd.hdAppend
          rw [quoteAlt_nil sq _ x (Or.inr ⟨dq, _, hxq, hsqdq.symm⟩), List.nil_append]
          exact quoteAlt_hd dq 2 (fun c => c != dq) x b body S hxq
            (fun c hc => by simpa using (hbody c hc).2.2) (by decide)
  · have h1 : d ≠ sq := fun h => hq (Or.inl h)
    have h2 : d ≠ dq := fun h => hq (Or.inr h)
    apply hd_append_of_nil _ hg3
    rw [quoteAlt_nil sq _ x (Or.inr ⟨d, _, hxd, h1⟩),
      quoteAlt_nil dq _ x (Or.inr ⟨d, _, hxd, h2⟩)]
    rfl

theorem run_valueToken_stop (x : MState) (h : x.rest = [] ∨ ∃ s, x.rest = ',' :: s) :
    Re.run Rx.valueToken x = [] := by
  have h1 : x.rest = [] ∨ ∃ d s, x.rest = d :: s ∧ d ≠ sq := by
    rcases h with h | ⟨s, h⟩
    · exact Or.inl h
    · exact Or.inr ⟨',', s, h, by decide⟩
  have h2 : x.rest = [] ∨ ∃ d s, x.rest = d :: s ∧ d ≠ dq := by
    rcases h with h | ⟨s, h⟩
    · exact Or.inl h
    · exact Or.inr ⟨',', s, h, by decide⟩
  rw [valueToken_eq, run_alt, run_alt, quoteAlt_nil sq _ x h1, quoteAlt_nil dq _ x h2, run_grp]
  unfold Rx.plus
  rw [run_plus_unfold, clearCaps_chr]
  rcases h with h | ⟨s, h⟩
  · rw [run_chr_nil _ _ h]; rfl
  · rw [run_chr_cons _ _ ',' s h]; rfl

theorem matchAt_of_hd (r : Re) (pre rest S : Str)
    (h : Hd (Re.run r ⟨pre, rest, fun _ => none⟩) (Rest S)) :
    ∃ k, matchAt r pre rest = some ⟨pre.length, rest.take (rest.length - S.length), S, k⟩ := by
  obtain ⟨y, l2, hl, hp⟩ := h
  refine ⟨y.caps, ?_⟩
  unfold matchAt
  rw [hl]
  show some _ = some _
  have hp2 : y.rest = S := hp
  rw [hp2]

theorem matchAt_none (r : Re) (pre rest : Str)
    (h : Re.run r ⟨pre, rest, fun _ => none⟩ = []) : matchAt r pre rest = none := by
  unfold matchAt
  rw [h]

theorem searchFrom_cons (r : Re) (pre : Str) (c : Char) (cs : Str) :
    searchFrom r pre (c :: cs) =
      match matchAt r pre (c :: cs) with
      | some m => some m
      | none => searchFrom r (c :: pre) cs := rfl

theorem matchAllFrom_succ (r : Re) (fuel : Nat) (pre rest : Str) :
    matchAllFrom r (fuel + 1) pre rest =
      match searchFrom r pre rest with
      | none => []
      | some m =>
        if m.text.isEmpty then
          match m.after with
          | [] => [m]
          | c :: cs =>
            m :: matchAllFrom r fuel (c :: (rest.take (m.index - pre.length)).reverse ++ pre) cs
        else
          m :: matchAllFrom r fuel
            ((rest.take (m.index - pre.length + m.text.length)).reverse ++ pre) m.after := rfl

/-- One item at the head of the text: `matchAll` reports it and goes on after it. -/
theorem matchAll_item (fuel : Nat) (pre : Str) (m : Nat) (v S : Str) (hv : isValueToken v)
    (hS : S = [] ∨ ∃ s2, S = ',' :: s2) :
    ∃ pre2, (matchAllFrom Rx.valueToken (fuel + 1) pre ((List.replicate m ' ' ++ v) ++ S)).map
        (fun x => x.text) =
      (List.replicate m ' ' ++ v) ::
        (matchAllFrom Rx.valueToken fuel pre2 S).map (fun x => x.text) := by
  have hne : List.replicate m ' ' ++ v ≠ [] := by
    intro h
    exact hv.isToken.1 (List.append_eq_nil.1 h).2
  obtain ⟨d, u, hdu⟩ := List.exists_cons_of_ne_nil hne
  obtain ⟨k, hk⟩ := matchAt_of_hd Rx.valueToken pre ((List.replicate m ' ' ++ v) ++ S) S
    (hd_valueToken m v S _ rfl hv hS)
  have htext : ((List.replicate m ' ' ++ v) ++ S).take
      (((List.replicate m ' ' ++ v) ++ S).length - S.length) = List.replicate m ' ' ++ v := by
    have : ((List.replicate m ' ' ++ v) ++ S).length - S.length
        = (List.replicate m ' ' ++ v).length := by
      rw [List.length_append]; omega
    rw [this, List.take_left']
    rfl
  rw [htext] at hk
  have hsearch : searchFrom Rx.valueToken pre ((List.replicate m ' ' ++ v) ++ S) =
      some ⟨pre.length, List.replicate m ' ' ++ v, S, k⟩ := by
    have e : (List.replicate m ' ' ++ v) ++ S = d :: (u ++ S) := by rw [hdu]; rfl
    rw [e, searchFrom_cons, ← e, hk]
  rw [matchAllFrom_succ, hsearch]
  have hemp : (List.replicate m ' ' ++ v).isEmpty = false := by
    rw [hdu]; rfl
  simp only [hemp, Bool.false_eq_true, if_false, List.map_cons]
  exact ⟨_, rfl⟩

theorem matchAll_items (vs : List (Nat × Str)) (hvs : ∀ p ∈ vs, isValueToken p.2) :
    ∀ (fuel : Nat) (pre : Str), (sepItems vs).length < fuel →
      (matchAllFrom Rx.valueToken fuel pre (sepItems vs)).map (fun x => x.text) =
        vs.map (fun p => List.replicate p.1 ' ' ++ p.2) := by
  induction vs with
  | nil =>
    intro fuel pre hf
    obtain ⟨f, rfl⟩ : ∃ f, fuel = f + 1 := ⟨fuel - 1, by omega⟩
    rw [matchAllFrom_succ]
    have : searchFrom Rx.valueToken pre (sepItems []) = none := by
      show searchFrom Rx.valueToken pre [] = none
      unfold searchFrom
      exact matchAt_none _ _ _ (run_valueToken_stop _ (Or.inl rfl))
    rw [this]
    rfl
  | cons p vs ih =>
    obtain ⟨m, tok⟩ := p
    intro fuel pre hf
    obtain ⟨f, rfl⟩ : ∃ f, fuel = f + 1 := ⟨fuel - 1, by omega⟩
    have hrest : sepItems ((m, tok) :: vs) = ',' :: ((List.replicate m ' ' ++ tok) ++ sepItems vs) := by
      rw [sepItems_cons]; rfl
    have hS : sepItems vs = [] ∨ ∃ s2, sepItems vs = ',' :: s2 := by
      cases vs with
      | nil => exact Or.inl rfl
      | cons q vs => exact Or.inr ⟨_, by rw [sepItems_cons]; rfl⟩
    have htokv := hvs (m, tok) (List.mem_cons_self _ _)
    have hne : List.replicate m ' ' ++ tok ≠ [] := by
      intro h
      exact htokv.isToken.1 (List.append_eq_nil.1 h).2
    obtain ⟨d, u, hdu⟩ := List.exists_cons_of_ne_nil hne
    obtain ⟨k, hk⟩ := matchAt_of_hd Rx.valueToken (',' :: pre)
      ((List.replicate m ' ' ++ tok) ++ sepItems vs) (sepItems vs)
      (hd_valueToken m tok (sepItems vs) _ rfl htokv hS)
    have htext : ((List.replicate m ' ' ++ tok) ++ sepItems vs).take
        (((List.replicate m ' ' ++ tok) ++ sepItems vs).length - (sepItems vs).length)
          = List.replicate m ' ' ++ tok := by
      have : ((List.replicate m ' ' ++ tok) ++ sepItems vs).length - (sepItems vs).length
          = (List.replicate m ' ' ++ tok).length := by
        rw [List.length_append]; omega
      rw [this, List.take_left']
      rfl
    rw [htext] at hk
    have hsearch : searchFrom Rx.valueToken pre (sepItems ((m, tok) :: vs)) =
        some ⟨(',' :: pre).length, List.replicate m ' ' ++ tok, sepItems vs, k⟩ := by
      rw [hrest, searchFrom_cons,
        matchAt_none _ _ _ (run_valueToken_stop _ (Or.inr ⟨_, rfl⟩))]
      have e : (List.replicate m ' ' ++ tok) ++ sepItems vs = d :: (u ++ sepItems vs) := by
        rw [hdu]; rfl
      show searchFrom Rx.valueToken (',' :: pre) _ = _
      rw [e, searchFrom_cons, ← e, hk]
    rw [matchAllFrom_succ, hsearch]
    have hemp : (List.replicate m ' ' ++ tok).isEmpty = false := by
      rw [hdu]; rfl
    simp only [hemp, Bool.false_eq_true, if_false, List.map_cons]
    congr 1
    apply ih (fun q hq => hvs q (List.mem_cons_of_mem _ hq))
    have := congrArg List.length hrest
    simp only [List.length_cons, List.length_append] at this
    omega

/-- The values that `cleanValues` returns for a list of simple value tokens: one per item, in
order. -/
theorem cleanValues_items (v : Str) (vs : List (Nat × Str)) (hv : isValueToken v)
    (hvs : ∀ p ∈ vs, isValueToken p.2) :
    cleanValues (listText v vs) = (v :: vs.map (fun p => p.2)).map clean := by
  have hS : sepItems vs = [] ∨ ∃ s2, sepItems vs = ',' :: s2 := by
    cases vs with
    | nil => exact Or.inl rfl
    | cons q vs => exact Or.inr ⟨_, by rw [sepItems_cons]; rfl⟩
  obtain ⟨pre2, h1⟩ := matchAll_item (listText v vs).length [] 0 v (sepItems vs) hv hS
  have h2 := matchAll_items vs hvs (listText v vs).length pre2 (by
    unfold listText
    rw [List.length_append]
    have := List.length_pos.2 hv.isToken.1
    omega)
  have htexts : (reMatchAll Rx.valueToken (listText v vs)).map (fun x => x.text) =
      v :: vs.map (fun p => List.replicate p.1 ' ' ++ p.2) := by
    unfold reMatchAll
    have e : listText v vs = (List.replicate 0 ' ' ++ v) ++ sepItems vs := rfl
    rw [← h2]
    conv_lhs => rw [e]
    rw [← e]
    exact h1
  unfold cleanValues
  have hmap : (reMatchAll Rx.valueToken (listText v vs)).map (fun m => clean (trim m.text)) =
      ((reMatchAll Rx.valueToken (listText v vs)).map (fun x => x.text)).map
        (fun t => clean (trim t)) := by
    rw [List.map_map]; rfl
  rw [hmap, htexts, List.map_cons, List.map_cons, List.map_map, List.map_map]
  congr 1
  · have := trim_spaces_token 0 v hv.isToken
    rw [show List.replicate 0 ' ' ++ v = v from rfl] at this
    rw [this]
  · apply List.map_congr_left
    intro p hp
    show clean (trim (List.replicate p.1 ' ' ++ p.2)) = clean p.2
    rw [trim_spaces_token p.1 p.2 (hvs p hp).isToken]

theorem ceilDiv_step (n k : Nat) (hk : 0 < k) (hn : 0 < n) :
    (n + k - 1) / k = (n - k + k - 1) / k + 1 := by
  rcases Nat.lt_or_ge n k with h | h
  · have h1 : n - k = 0 := by omega
    rw [h1, Nat.zero_add]
    have h2 : (k - 1) / k = 0 := Nat.div_eq_of_lt (by omega)
    have h3 : (n + k - 1) / k = 1 := by
      apply Nat.div_eq_of_lt_le <;> omega
    omega
  · have h1 : n + k - 1 = (n - k + k - 1) + k := by omega
    rw [h1, Nat.add_div_right _ hk]

theorem sendLoop_spec (chunkSize : Nat) (response : Str) (hpos : 0 < chunkSize) :
    ∀ (n i : Nat), response.length - i ≤ n →
      ∃ chunks : List Str,
        (∀ fuel, n < fuel → sendLoop chunkSize response fuel i = some chunks) ∧
        chunks.length = (response.length - i + chunkSize - 1) / chunkSize ∧
        (∀ c ∈ chunks, c ≠ [] ∧ c.length ≤ chunkSize) ∧
        chunks.flatten = response.drop i := by
  intro n
  induction n with
  | zero =>
    intro i h
    refine ⟨[], ?_, ?_, ?_, ?_⟩
    · intro fuel hf
      obtain ⟨f, rfl⟩ : ∃ f, fuel = f + 1 := ⟨fuel - 1, by omega⟩
      have hi : ¬ i < response.length := by omega
      simp [sendLoop, hi]
    · have h0 : response.length - i = 0 := by omega
      rw [h0, Nat.zero_add]
      exact (Nat.div_eq_of_lt (by omega)).symm
    · intro c hc; cases hc
    · simp [List.drop_eq_nil_of_le (show response.length ≤ i by omega)]
  | succ n ih =>
    intro i h
    by_cases hi : i < response.length
    · obtain ⟨rest, h1, h2, h3, h4⟩ := ih (i + chunkSize) (by omega)
      refine ⟨(response.drop i).take chunkSize :: rest, ?_, ?_, ?_, ?_⟩
      · intro fuel hf
        obtain ⟨f, rfl⟩ : ∃ f, fuel = f + 1 := ⟨fuel - 1, by omega⟩
        simp [sendLoop, hi, h1 f (by omega)]
      · rw [List.length_cons, h2, ceilDiv_step (response.length - i) chunkSize hpos (by omega)]
        congr 2
        omega
      · intro c hc
        rcases List.mem_cons.1 hc with rfl | hc
        · constructor
          · intro h0
            have := congrArg List.length h0
            simp at this
            omega
          · simp [List.length_take]
        · exact h3 c hc
      · rw [List.flatten_cons, h4, ← List.drop_drop, List.take_append_drop]
    · refine ⟨[], ?_, ?_, ?_, ?_⟩
      · intro fuel hf
        obtain ⟨f, rfl⟩ : ∃ f, fuel = f + 1 := ⟨fuel - 1, by omega⟩
        simp [sendLoop, hi]
      · have h0 : response.length - i = 0 := by omega
        rw [h0, Nat.zero_add]
        exact (Nat.div_eq_of_lt (by omega)).symm
      · intro c hc; cases hc
      · simp [List.drop_eq_nil_of_le (Nat.le_of_not_lt hi)]

/-- With a number as chunk size (the default), when it is positive, `sendLargeResponse`
finishes (any fuel above the response length is enough) and writes `ceil (length / chunkSize)`
chunks followed by one `END_OF_RESPONSE`; each chunk is non-empty and at most `chunkSize`
long, and the chunks concatenate to the response. -/
theorem sendLargeResponse_chunks (chunkSize : Nat) (response : Str) (hpos : 0 < chunkSize) :
    ∃ chunks : List Str,
      (∀ fuel, response.length < fuel →
        sendLargeResponse chunkSize response fuel = some (chunks ++ [endOfResponse])) ∧
      chunks.length = (response.length + chunkSize - 1) / chunkSize ∧
      (∀ c ∈ chunks, c ≠ [] ∧ c.length ≤ chunkSize) ∧
      chunks.flatten = response := by
  obtain ⟨chunks, h1, h2, h3, h4⟩ :=
    sendLoop_spec chunkSize response hpos response.length 0 (by omega)
  refine ⟨chunks, ?_, by simpa using h2, h3, by simpa using h4⟩
  intro fuel hf
  simp [sendLargeResponse, h1 fuel hf]

theorem sendLargeResponse_chunks_witness :
    0 < 3 ∧ ∃ chunks : List Str,
      (∀ fuel, "abcdefgh".toList.length < fuel →
        sendLargeResponse 3 "abcdefgh".toList fuel = some (chunks ++ [endOfResponse])) ∧
      chunks.length = ("abcdefgh".toList.length + 3 - 1) / 3 ∧
      (∀ c ∈ chunks, c ≠ [] ∧ c.length ≤ 3) ∧
      chunks.flatten = "abcdefgh".toList :=
  ⟨by decide, sendLargeResponse_chunks 3 "abcdefgh".toList (by decide)⟩

theorem primaryKeyStep_unmarked (st : Str × List Str) (x : Str) (h : isMarked x = false) :
    primaryKeyStep st x = st := by
  simp only [isMarked, decide_eq_false_iff_not] at h
  unfold primaryKeyStep
  rw [if_neg h]

theorem foldl_primaryKeyStep_unmarked (xs : List Str) (st : Str × List Str)
    (h : ∀ x ∈ xs, isMarked x = false) : xs.foldl primaryKeyStep st = st := by
  induction xs generalizing st with
  | nil => rfl
  | cons x xs ih =>
    rw [List.foldl_cons, primaryKeyStep_unmarked st x (h x (List.mem_cons_self _ _))]
    exact ih st (fun y hy => h y (List.mem_cons_of_mem _ hy))

theorem firstIndex_append_cons {α : Type} [DecidableEq α] (pre : List α) (e : α) (post : List α)
    (h : e ∉ pre) : firstIndex e (pre ++ e :: post) = some pre.length := by
  induction pre with
  | nil => simp [firstIndex]
  | cons y ys ih =>
    have hy : y ≠ e := fun hye => h (hye ▸ List.mem_cons_self _ _)
    have hys : e ∉ ys := fun hm => h (List.mem_cons_of_mem _ hm)
    simp [firstIndex, hy, ih hys]

theorem primaryKeyStep_marked (pk : Str) (pre post : List Str) (e : Str)
    (he : isMarked e = true) (hpre : ∀ x ∈ pre, isMarked x = false) :
    primaryKeyStep (pk, pre ++ e :: post) e = (firstToken e, pre ++ post) := by
  have hmem : e ∉ pre := by
    intro hm
    have := hpre e hm
    rw [he] at this
    cases this
  simp only [isMarked, decide_eq_true_eq] at he
  unfold primaryKeyStep
  rw [if_pos he]
  simp only [firstToken, arrayIndexOf, firstIndex_append_cons pre e post hmem, splice1]
  have : ¬ ((pre.length : Int) < 0) := by omega
  rw [if_neg this, Int.toNat_ofNat, List.eraseIdx_append_of_length_le (Nat.le_refl _)]
  simp

theorem extractPrimaryKey_one (pre post : List Str) (e : Str) (he : isMarked e = true)
    (hpre : ∀ x ∈ pre, isMarked x = false) (hpost : ∀ x ∈ post, isMarked x = false) :
    extractPrimaryKey (pre ++ e :: post) = (firstToken e, pre ++ post) := by
  unfold extractPrimaryKey
  rw [List.foldl_append, foldl_primaryKeyStep_unmarked pre _ hpre, List.foldl_cons,
    primaryKeyStep_marked _ pre post e he hpre, foldl_primaryKeyStep_unmarked post _ hpost]

theorem extractPrimaryKey_none (entries : List Str) (h : ∀ x ∈ entries, isMarked x = false) :
    extractPrimaryKey entries = ("id".toList, entries) :=
  foldl_primaryKeyStep_unmarked entries _ h

theorem executeCommand_of_accepted (cleanColumns : Str → List Str) (hasSession : Bool)
    (command : Str) (h : accepted command = true) :
    executeCommand cleanColumns hasSession command = dispatch cleanColumns hasSession command := by
  unfold accepted at h
  unfold executeCommand
  cases hv : verifySyntax command with
  | error m => rw [hv] at h; cases h
  | ok u => rfl

theorem dispatch_create (cleanColumns : Str → List Str) (command : Str)
    (hact : actionOf command = "CREATE".toList) :
    dispatch cleanColumns true command =
      createEffect cleanColumns command ((splitChar ' ' command).get? 2) := by
  unfold actionOf at hact
  unfold dispatch
  simp only [hact]
  rw [if_neg (by decide)]
  rfl

/-- C6: on an accepted CREATE command, with the entries that `cleanColumns` returns for the
text between the first `(` and the last `)`: when exactly one entry is marked `PRIMARY_KEY`
(third token), `createTable` receives that entry's first token as primary key and the other
entries, in order, as columns; when no entry is marked it receives `id` and all entries. -/
theorem create_primary_key (cleanColumns : Str → List Str) (command : Str)
    (hok : accepted command = true) (hact : actionOf command = "CREATE".toList) :
    (∀ pre e post,
      cleanColumns (substring command (indexOfChar '(' command + 1) (lastIndexOfChar ')' command))
        = pre ++ e :: post →
      isMarked e = true → (∀ x ∈ pre ++ post, isMarked x = false) →
      executeCommand cleanColumns true command =
        Effect.call (Call.createTable ((splitChar ' ' command).get? 2) (firstToken e) (pre ++ post))) ∧
    ((∀ x ∈ cleanColumns
        (substring command (indexOfChar '(' command + 1) (lastIndexOfChar ')' command)),
        isMarked x = false) →
      executeCommand cleanColumns true command =
        Effect.call (Call.createTable ((splitChar ' ' command).get? 2) "id".toList
          (cleanColumns
            (substring command (indexOfChar '(' command + 1) (lastIndexOfChar ')' command))))) := by
  rw [executeCommand_of_accepted _ _ _ hok, dispatch_create _ _ hact]
  unfold createEffect
  constructor
  · intro pre e post hent he hrest
    simp only [hent]
    rw [extractPrimaryKey_one pre post e he
      (fun x hx => hrest x (List.mem_append_left _ hx))
      (fun x hx => hrest x (List.mem_append_right _ hx))]
  · intro hnone
    simp only []
    rw [extractPrimaryKey_none _ hnone]

theorem create_primary_key_witness :
    executeCommand (splitChar ',') true "CREATE TABLE users (id as PRIMARY_KEY, name, age)".toList =
        Effect.call (Call.createTable (some "users".toList) "id".toList
          ([] ++ [" name".toList, " age".toList])) ∧
    executeCommand (splitChar ',') true "CREATE TABLE users (code, name)".toList =
        Effect.call (Call.createTable (some "users".toList) "id".toList
          ["code".toList, " name".toList]) :=
  ⟨(create_primary_key (splitChar ',') "CREATE TABLE users (id as PRIMARY_KEY, name, age)".toList
      (by decide) (by decide)).1 [] "id as PRIMARY_KEY".toList [" name".toList, " age".toList]
      (by decide) (by decide) (by decide),
   (create_primary_key (splitChar ',') "CREATE TABLE users (code, name)".toList
      (by decide) (by decide)).2 (by decide)⟩

theorem describeEffect_table (command : Str) (parts : List Str)
    (h : (parts.get? 1).map toUpperCase = some "TABLE".toList) :
    describeEffect false command parts = Effect.error sessionErrorA := by
  unfold describeEffect
  cases hp : parts.get? 1 with
  | none => rw [hp] at h; cases h
  | some e =>
    rw [hp] at h
    have he : toUpperCase e = "TABLE".toList := by simpa using h
    simp only [he]
    rfl

theorem dropEffect_table (command : Str) (parts : List Str)
    (h : (parts.get? 1).map toUpperCase = some "TABLE".toList) :
    dropEffect false command parts = Effect.error sessionErrorA := by
  unfold dropEffect
  cases hp : parts.get? 1 with
  | none => rw [hp] at h; cases h
  | some e =>
    rw [hp] at h
    have he : toUpperCase e = "TABLE".toList := by simpa using h
    simp only [he]
    rfl

theorem describeEffect_database (hasSession : Bool) (command : Str) (parts : List Str)
    (h : (parts.get? 1).map toUpperCase = some "DATABASE".toList) (m : Str) :
    describeEffect hasSession command parts ≠ Effect.error m := by
  unfold describeEffect
  cases hp : parts.get? 1 with
  | none => rw [hp] at h; cases h
  | some e =>
    rw [hp] at h
    have he : toUpperCase e = "DATABASE".toList := by simpa using h
    simp only [he]
    rw [if_pos trivial]
    cases parts.get? 2 <;> simp

theorem dropEffect_database (hasSession : Bool) (command : Str) (parts : List Str)
    (h : (parts.get? 1).map toUpperCase = some "DATABASE".toList) (m : Str) :
    dropEffect hasSession command parts ≠ Effect.error m := by
  unfold dropEffect
  cases hp : parts.get? 1 with
  | none => rw [hp] at h; cases h
  | some e =>
    rw [hp] at h
    have he : toUpperCase e = "DATABASE".toList := by simpa using h
    simp only [he]
    rw [if_pos trivial]
    cases parts.get? 2 <;> simp

/-- C1: without a session, an accepted command whose action is CREATE, INSERT, FIND, DELETE,
UPDATE, DESCRIBE TABLE or DROP TABLE fails with the session error of its branch and makes no
collaborator call; an accepted INIT, DROP DATABASE or DESCRIBE DATABASE command never ends in a
thrown `Error`: it makes its call, or stops on a low-level failure when its name token is
missing. -/
theorem executeCommand_session_required (cleanColumns : Str → List Str) (command : Str)
    (hok : accepted command = true) :
    (needsSession command = true →
      executeCommand cleanColumns false command = Effect.error (sessionErrorOf (actionOf command)) ∧
      (executeCommand cleanColumns false command).calls = []) ∧
    (sessionFree command = true →
      ∀ m, executeCommand cleanColumns false command ≠ Effect.error m) := by
  rw [executeCommand_of_accepted _ _ _ hok]
  constructor
  · intro hn
    have key : dispatch cleanColumns false command = Effect.error (sessionErrorOf (actionOf command)) := by
      unfold needsSession at hn
      simp only [Bool.or_eq_true, Bool.and_eq_true, decide_eq_true_eq, List.mem_cons,
        List.mem_singleton, List.not_mem_nil, or_false] at hn
      unfold dispatch
      simp only []
      unfold actionOf elementOf at *
      rcases hn with (h | h | h | h | h) | ⟨h | h, he⟩
      all_goals rw [h]
      · rfl
      · rfl
      · rfl
      · rfl
      · rfl
      · exact describeEffect_table command _ he
      · exact dropEffect_table command _ he
    rw [key]
    exact ⟨rfl, rfl⟩
  · intro hf m
    unfold sessionFree at hf
    simp only [Bool.or_eq_true, Bool.and_eq_true, decide_eq_true_eq, List.mem_cons,
      List.mem_singleton, List.not_mem_nil, or_false] at hf
    unfold dispatch
    simp only []
    unfold actionOf elementOf at *
    rcases hf with h | ⟨h | h, he⟩
    · rw [h, if_pos rfl]
      cases (splitChar ' ' command).get? 1 <;> simp
    · rw [h]
      exact describeEffect_database false command _ he m
    · rw [h]
      exact dropEffect_database false command _ he m

theorem executeCommand_session_required_witness :
    (executeCommand (splitChar ',') false "DROP TABLE users".toList
        = Effect.error (sessionErrorOf (actionOf "DROP TABLE users".toList)) ∧
      (executeCommand (splitChar ',') false "DROP TABLE users".toList).calls = []) ∧
    (∀ m, executeCommand (splitChar ',') false "DROP DATABASE shop".toList ≠ Effect.error m) :=
  ⟨(executeCommand_session_required (splitChar ',') "DROP TABLE users".toList (by decide)).1
      (by decide),
   (executeCommand_session_required (splitChar ',') "DROP DATABASE shop".toList (by decide)).2
      (by decide)⟩

theorem toNat_ofNat_small (n : Nat) (h : n < 55296) : (Char.ofNat n).toNat = n := by
  have hv : n.isValidChar := Or.inl h
  simp [Char.ofNat, hv, Char.ofNatAux, Char.toNat, UInt32.toNat]

theorem char_eq_of_toNat (c : Char) (n : Nat) (h : c.toNat = n) : c = Char.ofNat n := by
  rw [← h, Char.ofNat_toNat]

/-- The shape of an upper-case form: the shifted letter, the character itself, or a text that
starts with `I`, `S` or `F`. -/
theorem upperChar_cases (c : Char) :
    (isLowerAscii c = true ∧ upperChar c = [Char.ofNat (c.toNat - 32)]) ∨
    (isLowerAscii c = false ∧ upperChar c = [c]) ∨
    (∃ y ys, upperChar c = y :: ys ∧ (y = 'I' ∨ y = 'S' ∨ y = 'F')) := by
  unfold upperChar
  by_cases h1 : isLowerAscii c = true
  · exact Or.inl ⟨h1, if_pos h1⟩
  rw [if_neg h1]
  by_cases h2 : c.toNat = 305
  · rw [if_pos h2]; exact Or.inr (Or.inr ⟨_, _, rfl, Or.inl rfl⟩)
  rw [if_neg h2]
  by_cases h3 : c.toNat = 383
  · rw [if_pos h3]; exact Or.inr (Or.inr ⟨_, _, rfl, Or.inr (Or.inl rfl)⟩)
  rw [if_neg h3]
  by_cases h4 : c.toNat = 223
  · rw [if_pos h4]; exact Or.inr (Or.inr ⟨_, _, rfl, Or.inr (Or.inl rfl)⟩)
  rw [if_neg h4]
  by_cases h5 : c.toNat = 64256
  · rw [if_pos h5]; exact Or.inr (Or.inr ⟨_, _, rfl, Or.inr (Or.inr rfl)⟩)
  rw [if_neg h5]
  by_cases h6 : c.toNat = 64257
  · rw [if_pos h6]; exact Or.inr (Or.inr ⟨_, _, rfl, Or.inr (Or.inr rfl)⟩)
  rw [if_neg h6]
  by_cases h7 : c.toNat = 64258
  · rw [if_pos h7]; exact Or.inr (Or.inr ⟨_, _, rfl, Or.inr (Or.inr rfl)⟩)
  rw [if_neg h7]
  by_cases h8 : c.toNat = 64259
  · rw [if_pos h8]; exact Or.inr (Or.inr ⟨_, _, rfl, Or.inr (Or.inr rfl)⟩)
  rw [if_neg h8]
  by_cases h9 : c.toNat = 64260
  · rw [if_pos h9]; exact Or.inr (Or.inr ⟨_, _, rfl, Or.inr (Or.inr rfl)⟩)
  rw [if_neg h9]
  by_cases h10 : c.toNat = 64261
  · rw [if_pos h10]; exact Or.inr (Or.inr ⟨_, _, rfl, Or.inr (Or.inl rfl)⟩)
  rw [if_neg h10]
  by_cases h11 : c.toNat = 64262
  · rw [if_pos h11]; exact Or.inr (Or.inr ⟨_, _, rfl, Or.inr (Or.inl rfl)⟩)
  rw [if_neg h11]
  exact Or.inr (Or.inl ⟨by simpa using h1, rfl⟩)

theorem upperChar_ne_nil (c : Char) : upperChar c ≠ [] := by
  rcases upperChar_cases c with ⟨_, h⟩ | ⟨_, h⟩ | ⟨y, ys, h, _⟩ <;> rw [h] <;> exact List.cons_ne_nil _ _

theorem nulLetter_facts (x : Char) (n : Nat) (hx : nulLetter x n) :
    x.toNat = n ∧ x = Char.ofNat n ∧ asciiLower x = Char.ofNat (n + 32) ∧
    upperChar x = [x] ∧ upperChar (Char.ofNat (n + 32)) = [x] ∧
    asciiLower (Char.ofNat (n + 32)) = Char.ofNat (n + 32) ∧ isLowerAscii x = false ∧
    x ≠ 'I' ∧ x ≠ 'S' ∧ x ≠ 'F' := by
  rcases hx with ⟨rfl, rfl⟩ | ⟨rfl, rfl⟩ | ⟨rfl, rfl⟩ <;> decide

theorem asciiLower_eq_iff (c x : Char) (n : Nat) (hx : nulLetter x n) :
    asciiLower c = asciiLower x ↔ (c = x ∨ c = Char.ofNat (n + 32)) := by
  obtain ⟨f1, f2, f3, f4, f5, f6, f7, f8⟩ := nulLetter_facts x n hx
  have hn : n ≤ 90 := by
    rcases hx with ⟨_, rfl⟩ | ⟨_, rfl⟩ | ⟨_, rfl⟩ <;> omega
  constructor
  · intro h
    rw [f3] at h
    unfold asciiLower at h
    by_cases hu : isUpperAscii c = true
    · rw [if_pos hu] at h
      simp only [isUpperAscii, Bool.and_eq_true, decide_eq_true_eq] at hu
      have h2 := congrArg Char.toNat h
      rw [toNat_ofNat_small _ (by omega), toNat_ofNat_small _ (by omega)] at h2
      left
      rw [f2]
      exact char_eq_of_toNat c n (by omega)
    · rw [if_neg hu] at h
      exact Or.inr h
  · rintro (rfl | rfl)
    · rfl
    · rw [f6, f3]

theorem upperChar_of_lower (c x : Char) (n : Nat) (hx : nulLetter x n)
    (h : asciiLower c = asciiLower x) : upperChar c = [x] := by
  obtain ⟨f1, f2, f3, f4, f5, f6, f7, f8⟩ := nulLetter_facts x n hx
  rcases (asciiLower_eq_iff c x n hx).1 h with rfl | rfl
  · exact f4
  · exact f5

theorem upperChar_cons_inv (c x : Char) (n : Nat) (rest tail : Str) (hx : nulLetter x n)
    (h : upperChar c ++ rest = x :: tail) : asciiLower c = asciiLower x ∧ rest = tail := by
  obtain ⟨f1, f2, f3, f4, f5, f6, f7, f8, f9, f10⟩ := nulLetter_facts x n hx
  have hn : n ≤ 90 := by
    rcases hx with ⟨_, rfl⟩ | ⟨_, rfl⟩ | ⟨_, rfl⟩ <;> omega
  rcases upperChar_cases c with ⟨hl, hc⟩ | ⟨hl, hc⟩ | ⟨y, ys, hc, hy⟩
  · rw [hc] at h
    injection h with h1 h2
    refine ⟨?_, h2⟩
    simp only [isLowerAscii, Bool.and_eq_true, decide_eq_true_eq] at hl
    have h3 := congrArg Char.toNat h1
    rw [toNat_ofNat_small _ (by omega), f1] at h3
    have h4 : c = Char.ofNat (n + 32) := char_eq_of_toNat c (n + 32) (by omega)
    rw [h4, f6, f3]
  · rw [hc] at h
    injection h with h1 h2
    exact ⟨by rw [h1], h2⟩
  · rw [hc] at h
    injection h with h1 h2
    subst h1
    rcases hy with rfl | rfl | rfl
    · exact absurd rfl f8
    · exact absurd rfl f9
    · exact absurd rfl f10

theorem toUpperCase_null_iff (s : Str) :
    toUpperCase s = "NULL".toList ↔ eqIgnoreCase s "NULL".toList = true := by
  have hN : nulLetter 'N' 78 := Or.inl ⟨rfl, rfl⟩
  have hU : nulLetter 'U' 85 := Or.inr (Or.inl ⟨rfl, rfl⟩)
  have hL : nulLetter 'L' 76 := Or.inr (Or.inr ⟨rfl, rfl⟩)
  have hlit : "NULL".toList = ['N', 'U', 'L', 'L'] := rfl
  unfold toUpperCase eqIgnoreCase
  rw [hlit]
  constructor
  · intro h
    match s, h with
    | [], h => cases h
    | [a], h =>
      rw [List.flatMap_cons, List.flatMap_nil] at h
      have h1 := upperChar_cons_inv a 'N' _ _ _ hN h
      cases h1.2
    | [a, b], h =>
      rw [List.flatMap_cons, List.flatMap_cons, List.flatMap_nil] at h
      have h1 := upperChar_cons_inv a 'N' _ _ _ hN h
      have h2 := upperChar_cons_inv b 'U' _ _ _ hU h1.2
      cases h2.2
    | [a, b, c], h =>
      rw [List.flatMap_cons, List.flatMap_cons, List.flatMap_cons, List.flatMap_nil] at h
      have h1 := upperChar_cons_inv a 'N' _ _ _ hN h
      have h2 := upperChar_cons_inv b 'U' _ _ _ hU h1.2
      have h3 := upperChar_cons_inv c 'L' _ _ _ hL h2.2
      cases h3.2
    | [a, b, c, d], h =>
      rw [List.flatMap_cons, List.flatMap_cons, List.flatMap_cons, List.flatMap_cons,
        List.flatMap_nil] at h
      have h1 := upperChar_cons_inv a 'N' _ _ _ hN h
      have h2 := upperChar_cons_inv b 'U' _ _ _ hU h1.2
      have h3 := upperChar_cons_inv c 'L' _ _ _ hL h2.2
      have h4 := upperChar_cons_inv d 'L' _ _ _ hL h3.2
      rw [List.map_cons, List.map_cons, List.map_cons, List.map_cons, List.map_nil,
        h1.1, h2.1, h3.1, h4.1]
      rfl
    | a :: b :: c :: d :: e :: t, h =>
      rw [List.flatMap_cons, List.flatMap_cons, List.flatMap_cons, List.flatMap_cons,
        List.flatMap_cons] at h
      have h1 := upperChar_cons_inv a 'N' _ _ _ hN h
      have h2 := upperChar_cons_inv b 'U' _ _ _ hU h1.2
      have h3 := upperChar_cons_inv c 'L' _ _ _ hL h2.2
      have h4 := upperChar_cons_inv d 'L' _ _ _ hL h3.2
      exact absurd (List.append_eq_nil.1 h4.2).1 (upperChar_ne_nil e)
  · intro h
    have h0 : s.map asciiLower = ['N', 'U', 'L', 'L'].map asciiLower := eq_of_beq h
    match s, h0 with
    | [a, b, c, d], h0 =>
      injection h0 with ha h0
      injection h0 with hb h0
      injection h0 with hc h0
      injection h0 with hd h0
      rw [List.flatMap_cons, List.flatMap_cons, List.flatMap_cons, List.flatMap_cons,
        List.flatMap_nil, upperChar_of_lower a 'N' _ hN ha,
        upperChar_of_lower b 'U' _ hU hb, upperChar_of_lower c 'L' _ hL hc,
        upperChar_of_lower d 'L' _ hL hd]
      rfl
    | [], h0 => cases h0
    | [_], h0 => injection h0 with _ h0; cases h0
    | [_, _], h0 => injection h0 with _ h0; injection h0 with _ h0; cases h0
    | [_, _, _], h0 =>
      injection h0 with _ h0; injection h0 with _ h0; injection h0 with _ h0; cases h0
    | _ :: _ :: _ :: _ :: _ :: _, h0 =>
      injection h0 with _ h0; injection h0 with _ h0; injection h0 with _ h0
      injection h0 with _ h0; cases h0

theorem numberStep_eq (s : Str) :
    (match parseFloat s with
      | some n => Typed.num n
      | none => Typed.str s) =
    (match scanFloat s with
      | some (n, _) => Typed.num n
      | none => Typed.str s) := by
  unfold parseFloat
  cases scanFloat s with
  | none => rfl
  | some p => rfl

theorem substring_inner (q : Char) (rest : Str) (h : rest ≠ []) :
    substring (q :: rest) 1 (((q :: rest).length : Int) - 1) = rest.dropLast := by
  have hl : 0 < rest.length := List.length_pos.2 h
  unfold substring
  simp only [List.length_cons]
  have e1 : min (max (1 : Int) 0).toNat (rest.length + 1) = 1 := by omega
  have e2 : min (max (((rest.length + 1 : Nat) : Int) - 1) 0).toNat (rest.length + 1)
      = rest.length := by omega
  rw [e1, e2]
  have e5 : min 1 rest.length = 1 := by omega
  have e6 : max 1 rest.length = rest.length := by omega
  rw [e5, e6, List.dropLast_eq_take]
  rfl

theorem unwrapQuotes_cons (q : Char) (rest : Str) :
    unwrapQuotes (q :: rest) =
      if (q = sq ∨ q = dq) ∧ rest.getLast? = some q then some rest.dropLast else none := rfl

theorem wrapped_cons_iff (q : Char) (rest : Str) (h : rest ≠ []) :
    ((startsWithChar sq (q :: rest) && endsWithChar sq (q :: rest)) ||
      (startsWithChar dq (q :: rest) && endsWithChar dq (q :: rest))) = true ↔
    ((q = sq ∨ q = dq) ∧ rest.getLast? = some q) := by
  obtain ⟨y, ys, rfl⟩ := List.exists_cons_of_ne_nil h
  have hne : sq ≠ dq := by decide
  simp only [startsWithChar, endsWithChar, List.head?_cons, List.getLast?_cons_cons,
    Bool.or_eq_true, Bool.and_eq_true, beq_iff_eq, Option.some.injEq]
  constructor
  · rintro (⟨h1, h2⟩ | ⟨h1, h2⟩)
    · exact ⟨Or.inl h1, by rw [h1]; exact h2⟩
    · exact ⟨Or.inr h1, by rw [h1]; exact h2⟩
  · rintro ⟨h1 | h1, h2⟩
    · exact Or.inl ⟨h1, by rw [← h1]; exact h2⟩
    · exact Or.inr ⟨h1, by rw [← h1]; exact h2⟩

/-- What `clean` computes: the specification's steps, with the number step reading the longest
numeric prefix of the token. -/
theorem clean_eq_cleanPrefix_aux (s : Str) : clean s = cleanPrefix s := by
  unfold clean cleanPrefix
  by_cases hnull : toUpperCase s = "NULL".toList
  · rw [if_pos hnull, if_pos ((toUpperCase_null_iff s).1 hnull)]
  · have hnull2 : ¬ eqIgnoreCase s "NULL".toList = true :=
      fun h => hnull ((toUpperCase_null_iff s).2 h)
    rw [if_neg hnull, if_neg hnull2]
    match s with
    | [] =>
      have : ((startsWithChar sq [] && endsWithChar sq []) ||
        (startsWithChar dq [] && endsWithChar dq [])) = false := by decide
      rw [this]
      exact numberStep_eq []
    | [q] =>
      by_cases hq : q = sq ∨ q = dq
      · have hc : ((startsWithChar sq [q] && endsWithChar sq [q]) ||
            (startsWithChar dq [q] && endsWithChar dq [q])) = true := by
          rcases hq with rfl | rfl <;> decide
        have hu : unwrapQuotes [q] = none := by
          rw [unwrapQuotes_cons, if_neg]
          rintro ⟨-, h⟩
          cases h
        rw [if_pos hc, hu]
        rcases hq with rfl | rfl <;> decide
      · have hc : ¬ ((startsWithChar sq [q] && endsWithChar sq [q]) ||
            (startsWithChar dq [q] && endsWithChar dq [q])) = true := by
          simp only [startsWithChar, endsWithChar, List.head?_cons, List.getLast?_singleton,
            Bool.or_eq_true, Bool.and_eq_true, beq_iff_eq, Option.some.injEq]
          rintro (⟨h, -⟩ | ⟨h, -⟩)
          · exact hq (Or.inl h)
          · exact hq (Or.inr h)
        have hu : unwrapQuotes [q] = none := by
          rw [unwrapQuotes_cons, if_neg]
          rintro ⟨-, h⟩
          cases h
        rw [if_neg hc, hu]
        exact numberStep_eq [q]
    | q :: y :: ys =>
      have hne : y :: ys ≠ [] := List.cons_ne_nil _ _
      by_cases hw : (q = sq ∨ q = dq) ∧ (y :: ys).getLast? = some q
      · rw [if_pos ((wrapped_cons_iff q (y :: ys) hne).2 hw)]
        have hu : unwrapQuotes (q :: y :: ys) = some (y :: ys).dropLast := by
          rw [unwrapQuotes_cons, if_pos hw]
        rw [hu, substring_inner q (y :: ys) hne]
      · rw [if_neg (fun h => hw ((wrapped_cons_iff q (y :: ys) hne).1 h))]
        have hu : unwrapQuotes (q :: y :: ys) = none := by
          rw [unwrapQuotes_cons, if_neg hw]
        rw [hu]
        exact numberStep_eq _

/-- C3 (counterexample): on the token `42abc` the code returns the number 42, the
specification's wording gives the string `42abc`. -/
theorem clean_numeric_prefix_counterexample :
    clean "42abc".toList = Typed.num (JSNumber.finite false 42 0) ∧
    cleanSpec "42abc".toList = Typed.str "42abc".toList ∧
    clean "42abc".toList ≠ cleanSpec "42abc".toList := by decide

/-- C3 (amended): `clean s` is null when `s` is NULL in any letter case; otherwise the text
between the quotes when `s` is wrapped in one matching pair of quote characters; otherwise the
number that the longest numeric prefix of `s` denotes, when there is one; otherwise `s` itself.
The examples of the specification are instances. -/
theorem clean_value_coercion :
    (∀ s : Str, clean s = cleanPrefix s) ∧
    clean "NULL".toList = Typed.null ∧
    clean (sq :: "abc".toList ++ [sq]) = Typed.str "abc".toList ∧
    clean (dq :: "abc".toList ++ [dq]) = Typed.str "abc".toList ∧
    clean "42".toList = Typed.num (JSNumber.finite false 42 0) ∧
    clean "abc".toList = Typed.str "abc".toList :=
  ⟨clean_eq_cleanPrefix_aux, by decide, by decide, by decide, by decide, by decide⟩

theorem dispatch_find (cleanColumns : Str → List Str) (command : Str)
    (hact : actionOf command = "FIND".toList) :
    dispatch cleanColumns true command = findEffect command := by
  unfold actionOf at hact
  unfold dispatch
  simp only [hact]
  rfl

theorem dispatch_insert (cleanColumns : Str → List Str) (command : Str)
    (hact : actionOf command = "INSERT".toList) :
    dispatch cleanColumns true command = insertEffect command ((splitChar ' ' command).get? 2) := by
  unfold actionOf at hact
  unfold dispatch
  simp only [hact]
  rfl

theorem dispatch_update (cleanColumns : Str → List Str) (command : Str)
    (hact : actionOf command = "UPDATE".toList) :
    dispatch cleanColumns true command = updateEffect command := by
  unfold actionOf at hact
  unfold dispatch
  simp only [hact]
  rfl

theorem dispatch_delete (cleanColumns : Str → List Str) (command : Str)
    (hact : actionOf command = "DELETE".toList) :
    dispatch cleanColumns true command = deleteEffect true command := by
  unfold actionOf at hact
  unfold dispatch
  simp only [hact]
  rfl

set_option maxRecDepth 100000 in
/-- C2: the command `FIND DISTINCT nowhere IN t WHERE f > 5 LIMIT 3` is accepted, and the
`find` call receives the condition field `IN t WHERE f` instead of `f`: the dispatcher's WHERE
pattern starts inside the column name.  With the column name `c` the call is the one the claim
describes, and `FIND * IN t` is a `showOneTable` call without columns, limit or offset. -/
theorem find_where_inside_name (cleanColumns : Str → List Str) :
    accepted "FIND DISTINCT nowhere IN t WHERE f > 5 LIMIT 3".toList = true ∧
    executeCommand cleanColumns true "FIND DISTINCT nowhere IN t WHERE f > 5 LIMIT 3".toList =
      Effect.call (Call.find "t".toList true (some ["nowhere".toList]) "IN t WHERE f".toList
        ">".toList (some (Typed.num (JSNumber.finite false 5 0))) none (some 3)) ∧
    executeCommand cleanColumns true "FIND DISTINCT c IN t WHERE f > 5 LIMIT 3".toList =
      Effect.call (Call.find "t".toList true (some ["c".toList]) "f".toList
        ">".toList (some (Typed.num (JSNumber.finite false 5 0))) none (some 3)) ∧
    executeCommand cleanColumns true "FIND * IN t".toList =
      Effect.call (Call.showOneTable "t".toList false none none none) := by
  refine ⟨by decide, ?_, ?_, ?_⟩
  · rw [executeCommand_of_accepted _ _ _ (by decide), dispatch_find _ _ (by decide)]
    decide
  · rw [executeCommand_of_accepted _ _ _ (by decide), dispatch_find _ _ (by decide)]
    decide
  · rw [executeCommand_of_accepted _ _ _ (by decide), dispatch_find _ _ (by decide)]
    decide

set_option maxRecDepth 100000 in
/-- C7 (counterexample): the accepted command `INSERT INTO t (a,b) VALUES (1)` forwards two
columns and one value. -/
theorem insert_unequal_lengths :
    accepted "INSERT INTO t (a,b) VALUES (1)".toList = true ∧
    executeCommand (splitChar ',') true "INSERT INTO t (a,b) VALUES (1)".toList =
      Effect.call (Call.insert (some "t".toList)
        (some [Typed.str "a".toList, Typed.str "b".toList])
        [Typed.num (JSNumber.finite false 1 0)]) := by
  decide

set_option maxRecDepth 100000 in
/-- C8: on the value list `1, 'a,b'` the function `cleanValues` returns three values: the
quoted run after the space is split at its comma; and the INSERT command carrying that list
forwards these three values. -/
theorem cleanValues_splits_quoted (cleanColumns : Str → List Str) :
    cleanValues ("1, ".toList ++ [sq] ++ "a,b".toList ++ [sq]) =
      [Typed.num (JSNumber.finite false 1 0), Typed.str (sq :: "a".toList),
        Typed.str ("b".toList ++ [sq])] ∧
    executeCommand cleanColumns true
        ("INSERT INTO t (x, y) VALUES (1, ".toList ++ [sq] ++ "a,b".toList ++ [sq] ++ ")".toList) =
      Effect.call (Call.insert (some "t".toList)
        (some [Typed.str "x".toList, Typed.str "y".toList])
        [Typed.num (JSNumber.finite false 1 0), Typed.str (sq :: "a".toList),
          Typed.str ("b".toList ++ [sq])]) := by
  refine ⟨by decide, ?_⟩
  rw [executeCommand_of_accepted _ _ _ (by decide), dispatch_insert _ _ (by decide)]
  decide

set_option maxRecDepth 100000 in
/-- C9: `UPDATE t SET a=1 WHERE f >= 5` is accepted and calls `update` with operator `>` and
the string `= 5` as condition value, while `DELETE FROM t WHERE f >= 5` forwards `>=` and the
number 5; and `UPDATE t SET a=1 WHERE f = '123'` forwards the number 123, while the coercion of
the quoted token, which DELETE forwards, is the string `123`. -/
theorem update_where_operator_cut (cleanColumns : Str → List Str) :
    accepted "UPDATE t SET a=1 WHERE f >= 5".toList = true ∧
    executeCommand cleanColumns true "UPDATE t SET a=1 WHERE f >= 5".toList =
      Effect.call (Call.update "t".toList ["a".toList] [Typed.num (JSNumber.finite false 1 0)]
        "f".toList ">".toList (some (Typed.str "= 5".toList))) ∧
    executeCommand cleanColumns true "DELETE FROM t WHERE f >= 5".toList =
      Effect.call (Call.delete "t".toList "f".toList ">=".toList
        (some (Typed.num (JSNumber.finite false 5 0)))) ∧
    executeCommand cleanColumns true ("UPDATE t SET a=1 WHERE f = ".toList ++ [sq] ++
        "123".toList ++ [sq]) =
      Effect.call (Call.update "t".toList ["a".toList] [Typed.num (JSNumber.finite false 1 0)]
        "f".toList "=".toList (some (Typed.num (JSNumber.finite false 123 0)))) ∧
    executeCommand cleanColumns true ("DELETE FROM t WHERE f = ".toList ++ [sq] ++
        "123".toList ++ [sq]) =
      Effect.call (Call.delete "t".toList "f".toList "=".toList
        (some (clean (sq :: "123".toList ++ [sq])))) ∧
    clean (sq :: "123".toList ++ [sq]) = Typed.str "123".toList := by
  refine ⟨by decide, ?_, ?_, ?_, ?_, by decide⟩
  · rw [executeCommand_of_accepted _ _ _ (by decide), dispatch_update _ _ (by decide)]
    decide
  · rw [executeCommand_of_accepted _ _ _ (by decide), dispatch_delete _ _ (by decide)]
    decide
  · rw [executeCommand_of_accepted _ _ _ (by decide), dispatch_update _ _ (by decide)]
    decide
  · rw [executeCommand_of_accepted _ _ _ (by decide), dispatch_delete _ _ (by decide)]
    decide

set_option maxRecDepth 100000 in
/-- C10: `UPDATE t SET a='x=y' WHERE id = 1` is accepted and calls `update` with the set
value `y'`, not `x=y`: the assignment is cut at its last `=`. -/
theorem update_set_value_cut (cleanColumns : Str → List Str) :
    accepted ("UPDATE t SET a=".toList ++ [sq] ++ "x=y".toList ++ [sq] ++ " WHERE id = 1".toList)
      = true ∧
    executeCommand cleanColumns true
        ("UPDATE t SET a=".toList ++ [sq] ++ "x=y".toList ++ [sq] ++ " WHERE id = 1".toList) =
      Effect.call (Call.update "t".toList ["a".toList] [Typed.str ("y".toList ++ [sq])]
        "id".toList "=".toList (some (Typed.num (JSNumber.finite false 1 0)))) := by
  refine ⟨by decide, ?_⟩
  rw [executeCommand_of_accepted _ _ _ (by decide), dispatch_update _ _ (by decide)]
  decide

theorem trim_of_ends (c : Char) (s : Str) (hc : isWhiteSpace c = false)
    (hlast : ∀ d, (c :: s).getLast? = some d → isWhiteSpace d = false) :
    trim (c :: s) = c :: s := by
  unfold trim trimStart trimEnd
  rw [List.dropWhile_cons_of_neg (by simp [hc])]
  obtain ⟨e, w, hw⟩ := List.exists_cons_of_ne_nil (show (c :: s).reverse ≠ [] by simp)
  have he : (c :: s).getLast? = some e := by
    rw [← List.head?_reverse, hw]; rfl
  rw [hw, List.dropWhile_cons_of_neg (by simp [hlast e he]), ← hw, List.reverse_reverse]

theorem removeMarker_xs (n : Nat) : removeMarker ajxMarker 0 (List.replicate n 'x') =
    List.replicate n 'x' := by
  induction n with
  | zero => rfl
  | succ n ih =>
    rw [List.replicate_succ]
    show (if ajxMarker.isPrefixOf ('x' :: List.replicate n 'x') = true then _ else _) = _
    rw [if_neg (by simp [ajxMarker, List.isPrefixOf]), ih]

theorem tcpCommand_init (n : Nat) (hn : 0 < n) :
    tcpCommand (ajxMarker ++ ("INIT ".toList ++ List.replicate n 'x')) =
      "INIT ".toList ++ List.replicate n 'x' := by
  unfold tcpCommand
  have htrim : trim (ajxMarker ++ ("INIT ".toList ++ List.replicate n 'x')) =
      ajxMarker ++ ("INIT ".toList ++ List.replicate n 'x') := by
    apply trim_of_ends 'A' _ (by decide)
    intro d hd
    obtain ⟨m, rfl⟩ : ∃ m, n = m + 1 := ⟨n - 1, by omega⟩
    have : (ajxMarker ++ ("INIT ".toList ++ List.replicate (m + 1) 'x')).getLast? = some 'x' := by
      rw [List.replicate_succ', ← List.append_assoc, ← List.append_assoc,
        List.getLast?_append]
      rfl
    have hdx : d = 'x' := by
      have h2 : ('A' :: _ : Str).getLast? = some 'x' := this
      rw [h2] at hd
      injection hd with hd
      exact hd.symm
    rw [hdx]; decide
  rw [htrim]
  have hstep : removeMarker ajxMarker 0 (ajxMarker ++ ("INIT ".toList ++ List.replicate n 'x')) =
      'I' :: 'N' :: 'I' :: 'T' :: ' ' :: removeMarker ajxMarker 0 (List.replicate n 'x') := rfl
  rw [hstep, removeMarker_xs]
  rfl

theorem splitChar_init (n : Nat) :
    splitChar ' ' ("INIT ".toList ++ List.replicate n 'x') =
      ["INIT".toList, List.replicate n 'x'] := by
  have hx : ' ' ∉ List.replicate n 'x' := by
    intro h
    exact absurd (List.eq_of_mem_replicate h) (by decide)
  have e : "INIT ".toList ++ List.replicate n 'x' = "INIT".toList ++ ' ' :: List.replicate n 'x' :=
    rfl
  rw [e, splitChar_append_sep ' ' _ _ (by decide), splitChar_no_sep ' ' _ hx]

theorem parseInt_xs (n : Nat) : parseInt (List.replicate n 'x') = none := by
  cases n with
  | zero => rfl
  | succ n =>
    rw [List.replicate_succ]
    cases n with
    | zero => rfl
    | succ n => rw [List.replicate_succ]; rfl

theorem executeCommand_init (cleanColumns : Str → List Str) (n : Nat) :
    executeCommand cleanColumns false ("INIT ".toList ++ List.replicate n 'x') =
      Effect.useDatabase (List.replicate n 'x') := by
  have hx : ';' ∉ List.replicate n 'x' := by
    intro h
    exact absurd (List.eq_of_mem_replicate h) (by decide)
  have hacc : accepted ("INIT ".toList ++ List.replicate n 'x') = true := by
    unfold accepted verifySyntax
    simp only [splitChar_init]
    have h1 : toUpperCase (["INIT".toList, List.replicate n 'x'].headD []) = "INIT".toList := by
      show toUpperCase "INIT".toList = "INIT".toList
      decide
    simp only [h1, if_true]
    have h3 : (["INIT".toList, List.replicate n 'x'].get? 1).getD "undefined".toList =
        List.replicate n 'x' := rfl
    rw [h3, parseInt_xs]
    rfl
  rw [executeCommand_of_accepted _ _ _ hacc]
  unfold dispatch
  simp only [splitChar_init]
  have h1 : toUpperCase (["INIT".toList, List.replicate n 'x'].headD []) = "INIT".toList := by
    show toUpperCase "INIT".toList = "INIT".toList
    decide
  simp only [h1, if_true]
  show Effect.useDatabase ((splitChar ';' (List.replicate n 'x')).headD []) = _
  rw [splitChar_no_sep ';' _ hx]
  rfl

theorem jsonString_length_xs (n : Nat) :
    (jsonString ("Using database: ".toList ++ List.replicate n 'x')).length = 16 + n + 2 := by
  have hx : (List.replicate n 'x').flatMap jsonEscape = List.replicate n 'x' := by
    induction n with
    | zero => rfl
    | succ n ih =>
      rw [List.replicate_succ, List.flatMap_cons, ih]
      rfl
  unfold jsonString
  rw [List.flatMap_append, hx]
  have h16 : ("Using database: ".toList.flatMap jsonEscape).length = 16 := by decide
  simp only [List.length_append, List.length_cons, List.length_nil, List.length_replicate, h16]
  omega

/-- C5: with chunk size `16 + n` (16384 for `n = 16368`) the command `INIT` with a database
name of `n` letters resolves to a text of `16 + n` characters, which is not longer than the
chunk size; its JSON text has `16 + n + 2` characters and is written in one write, longer than
the chunk size. -/
theorem handleTCP_oversized_write (engine : Call → Except Str Returned) (typeErrorMessage : Str)
    (cleanColumns : Str → List Str) (r : Returned) (fuel n : Nat) (hn : 0 < n)
    (hinit : engine (Call.init (List.replicate n 'x')) = Except.ok r) :
    handleTCP engine typeErrorMessage cleanColumns (16 + n) false
        (ajxMarker ++ ("INIT ".toList ++ List.replicate n 'x')) fuel =
      some [jsonString ("Using database: ".toList ++ List.replicate n 'x'), endOfResponse] ∧
    (jsonString ("Using database: ".toList ++ List.replicate n 'x')).length = 16 + n + 2 ∧
    16 + n < (jsonString ("Using database: ".toList ++ List.replicate n 'x')).length := by
  refine ⟨?_, jsonString_length_xs n, by rw [jsonString_length_xs]; omega⟩
  unfold handleTCP awaitCommand
  rw [tcpCommand_init n hn, executeCommand_init]
  simp only [hinit]
  unfold writeOutcome textResult
  have hlen : ("Using database: ".toList ++ List.replicate n 'x').length = 16 + n := by
    rw [List.length_append, List.length_replicate]; rfl
  simp only [hlen]
  rw [if_pos (by simp)]

theorem handleTCP_oversized_write_witness :
    handleTCP (fun _ => Except.ok Returned.nullish) [] (splitChar ',') (16 + 2) false
        (ajxMarker ++ ("INIT ".toList ++ List.replicate 2 'x')) 100 =
      some [jsonString ("Using database: ".toList ++ List.replicate 2 'x'), endOfResponse] ∧
    (jsonString ("Using database: ".toList ++ List.replicate 2 'x')).length = 16 + 2 + 2 ∧
    16 + 2 < (jsonString ("Using database: ".toList ++ List.replicate 2 'x')).length :=
  handleTCP_oversized_write (fun _ => Except.ok Returned.nullish) [] (splitChar ',')
    Returned.nullish 100 2 (by decide) rfl

theorem accepted_insert (command : Str) (hact : actionOf command = "INSERT".toList)
    (htest : reTest Rx.insertCheck command = true) : accepted command = true := by
  unfold actionOf at hact
  unfold accepted verifySyntax
  simp only [hact, htest]
  rfl

theorem insertText_cons (t c v : Str) (cs vs : List (Nat × Str)) :
    ∃ s, insertText t c cs v vs = 'I' :: s := ⟨_, rfl⟩

/-- C7 (amended): for a command `INSERT INTO t (c, c1, ...) VALUES (v, v1, ...)` whose items are
simple tokens (a column free of white space, commas and parentheses; a value the same and
either free of quote characters or wrapped in one pair of quotes), written after a comma and
any number of spaces: the command is accepted, and `insert` receives the coerced columns and
the coerced values, one per item in the order of the text; the two sequences have the same
length exactly when the command lists as many columns as values. -/
theorem insert_columns_values (cleanColumns : Str → List Str) (t c v : Str)
    (cs vs : List (Nat × Str))
    (ht : t ≠ []) (htw : ∀ d ∈ t, Rx.wordU d = true)
    (hc : isToken c) (hcs : ∀ p ∈ cs, isToken p.2)
    (hv : isValueToken v) (hvs : ∀ p ∈ vs, isValueToken p.2) :
    accepted (insertText t c cs v vs) = true ∧
    executeCommand cleanColumns true (insertText t c cs v vs) =
      Effect.call (Call.insert (some t) (some ((c :: cs.map (fun p => p.2)).map clean))
        ((v :: vs.map (fun p => p.2)).map clean)) ∧
    (((c :: cs.map (fun p => p.2)).map clean).length =
        ((v :: vs.map (fun p => p.2)).map clean).length ↔ cs.length = vs.length) := by
  have hvs2 : ∀ p ∈ vs, isToken p.2 := fun p hp => (hvs p hp).isToken
  obtain ⟨rest, hparts⟩ := insertText_parts t c v cs vs htw
  have hact : actionOf (insertText t c cs v vs) = "INSERT".toList := by
    unfold actionOf
    rw [hparts]
    show toUpperCase "INSERT".toList = "INSERT".toList
    decide
  have hacc : accepted (insertText t c cs v vs) = true :=
    accepted_insert _ hact (reTest_insertCheck t c v cs vs ht htw hc hcs hv.isToken hvs2)
  refine ⟨hacc, ?_, ?_⟩
  · rw [executeCommand_of_accepted _ _ _ hacc, dispatch_insert _ _ hact, hparts]
    obtain ⟨s, hs⟩ := insertText_cons t c v cs vs
    have hhd := hd_insertRegex t c v cs vs ht htw hc hcs hv.isToken hvs2
      ⟨[], insertText t c cs v vs, fun _ => none⟩ rfl rfl
    rw [hs] at hhd
    obtain ⟨m, y, hm, ⟨-, hy1, hy2⟩, hmc, -⟩ := reExec_of_hd Rx.insertRegex 'I' s _ hhd
    rw [← hs] at hm
    unfold insertEffect
    rw [hm]
    simp only [hmc, hy1, hy2]
    rw [clean_columns c cs hc hcs, cleanValues_items v vs hv hvs]
    rfl
  · simp only [List.length_map, List.length_cons]
    omega

theorem insert_columns_values_witness :
    accepted (insertText "users".toList "name".toList [(1, "age".toList)]
        (sq :: "Ana".toList ++ [sq]) [(1, "30".toList)]) = true ∧
    executeCommand (splitChar ',') true (insertText "users".toList "name".toList
        [(1, "age".toList)] (sq :: "Ana".toList ++ [sq]) [(1, "30".toList)]) =
      Effect.call (Call.insert (some "users".toList)
        (some (("name".toList :: [(1, "age".toList)].map (fun p => p.2)).map clean))
        (((sq :: "Ana".toList ++ [sq]) :: [(1, "30".toList)].map (fun p => p.2)).map clean)) ∧
    ((("name".toList :: [(1, "age".toList)].map (fun p => p.2)).map clean).length =
        (((sq :: "Ana".toList ++ [sq]) :: [(1, "30".toList)].map (fun p => p.2)).map clean).length
      ↔ [(1, "age".toList)].length = [(1, "30".toList)].length) :=
  insert_columns_values (splitChar ',') "users".toList "name".toList
    (sq :: "Ana".toList ++ [sq]) [(1, "age".toList)] [(1, "30".toList)]
    (by decide) (by decide) ⟨by decide, by decide⟩
    (fun p hp => by
      rw [List.mem_singleton] at hp
      subst hp
      exact ⟨by decide, by decide⟩)
    (Or.inr ⟨sq, "Ana".toList, Or.inl rfl, rfl, by decide⟩)
    (fun p hp => by
      rw [List.mem_singleton] at hp
      subst hp
      exact Or.inl ⟨⟨by decide, by decide⟩, by decide⟩)

theorem executeCommand_of_rejected (cleanColumns : Str → List Str) (hasSession : Bool)
    (command message : Str) (h : verifySyntax command = Except.error message) :
    executeCommand cleanColumns hasSession command = Effect.error message := by
  unfold executeCommand
  rw [h]

theorem dispatch_congr (c1 c2 : Str → List Str) (hasSession : Bool) (command : Str)
    (h : actionOf command ≠ "CREATE".toList) :
    dispatch c1 hasSession command = dispatch c2 hasSession command := by
  unfold actionOf at h
  unfold dispatch
  simp only [if_neg h]

theorem executeCommand_congr (c1 c2 : Str → List Str) (hasSession : Bool) (command : Str)
    (h : actionOf command ≠ "CREATE".toList) :
    executeCommand c1 hasSession command = executeCommand c2 hasSession command := by
  unfold executeCommand
  cases verifySyntax command with
  | error m => rfl
  | ok u => exact dispatch_congr c1 c2 hasSession command h

set_option maxRecDepth 100000 in
/-- C11: the command `INIT` without an argument is accepted by `verifySyntax` (the absent name
reads as `undefined`, which does not parse as a number, and one part is not more than two), and
`executeCommand` then fails with a low-level error when it reads the name.  With one name the
command is accepted; with two arguments or a numeric name it is rejected. -/
theorem init_without_argument_accepted (cleanColumns : Str → List Str) (hasSession : Bool) :
    accepted "INIT".toList = true ∧
    executeCommand cleanColumns hasSession "INIT".toList = Effect.typeError ∧
    accepted "INIT shop".toList = true ∧
    verifySyntax "INIT a b".toList =
      Except.error (execError "1 argument expected (database name) but got: 2".toList) ∧
    verifySyntax "INIT 12".toList =
      Except.error (execError "Invalid database name -> 12".toList) := by
  refine ⟨by decide, ?_, by decide, by rfl, by rfl⟩
  rw [executeCommand_congr cleanColumns (splitChar ',') hasSession _ (by decide)]
  cases hasSession <;> decide

set_option maxRecDepth 100000 in
/-- C12: `DROP TABLE`, `DROP DATABASE`, `DESCRIBE TABLE` and `DESCRIBE DATABASE`, which carry
the sub-element and no name, are accepted by `verifySyntax` (the rule rejects fewer than two
parts, and these have two), and `executeCommand` then fails with a low-level error when it
reads the name.  With a name the commands are accepted; without a sub-element, with another
sub-element or with a fourth part they are rejected. -/
theorem element_without_name_accepted (cleanColumns : Str → List Str) (hasSession : Bool) :
    accepted "DROP TABLE".toList = true ∧
    accepted "DROP DATABASE".toList = true ∧
    accepted "DESCRIBE TABLE".toList = true ∧
    accepted "DESCRIBE DATABASE".toList = true ∧
    executeCommand cleanColumns true "DROP TABLE".toList = Effect.typeError ∧
    executeCommand cleanColumns hasSession "DROP DATABASE".toList = Effect.typeError ∧
    executeCommand cleanColumns true "DESCRIBE TABLE".toList = Effect.typeError ∧
    executeCommand cleanColumns hasSession "DESCRIBE DATABASE".toList = Effect.typeError ∧
    accepted "DROP TABLE users".toList = true ∧
    accepted "DESCRIBE DATABASE shop".toList = true ∧
    accepted "DROP".toList = false ∧
    accepted "DESCRIBE".toList = false ∧
    accepted "DROP INDEX a".toList = false ∧
    accepted "DROP TABLE a b".toList = false := by
  refine ⟨by decide, by decide, by decide, by decide, ?_, ?_, ?_, ?_, by decide, by decide,
    by decide, by decide, by decide, by decide⟩
  · rw [executeCommand_congr cleanColumns (splitChar ',') true _ (by decide)]
    decide
  · rw [executeCommand_congr cleanColumns (splitChar ',') hasSession _ (by decide)]
    cases hasSession <;> decide
  · rw [executeCommand_congr cleanColumns (splitChar ',') true _ (by decide)]
    decide
  · rw [executeCommand_congr cleanColumns (splitChar ',') hasSession _ (by decide)]
    cases hasSession <;> decide

set_option maxRecDepth 100000 in
/-- C13 (counterexample): the example `CREATE TABLE users (id PRIMARY_KEY, name, age)` is
rejected by `verifySyntax`: the CREATE rule only knows the marker in the form
`as PRIMARY_KEY`. -/
theorem create_example_rejected :
    accepted "CREATE TABLE users (id PRIMARY_KEY, name, age)".toList = false := by
  decide

set_option maxRecDepth 100000 in
/-- C13 (amended): `verifySyntax` accepts the seven examples `INIT shop`,
`INSERT INTO users (name, age) VALUES ('Ana', 30)`, `FIND * IN users WHERE age > 18 LIMIT 10`,
`UPDATE users SET age=31 WHERE id=1`, `DELETE FROM users WHERE id=1`, `DESCRIBE TABLE users`
and `DROP TABLE users`, and it accepts the CREATE example when the key is marked as
`id as PRIMARY_KEY`. -/
theorem grammar_examples_accepted :
    accepted "INIT shop".toList = true ∧
    accepted "CREATE TABLE users (id as PRIMARY_KEY, name, age)".toList = true ∧
    accepted ("INSERT INTO users (name, age) VALUES (".toList ++ [sq] ++ "Ana".toList ++ [sq] ++
      ", 30)".toList) = true ∧
    accepted "FIND * IN users WHERE age > 18 LIMIT 10".toList = true ∧
    accepted "UPDATE users SET age=31 WHERE id=1".toList = true ∧
    accepted "DELETE FROM users WHERE id=1".toList = true ∧
    accepted "DESCRIBE TABLE users".toList = true ∧
    accepted "DROP TABLE users".toList = true := by
  refine ⟨by decide, by decide, by decide, by decide, by decide, by decide, by decide,
    by decide⟩

set_option maxRecDepth 100000 in
/-- C14: for the buffer made of the marker, a space and the command `INIT x`, the text passed
to `executeCommand` is ` INIT x` with the space in front (the buffer is trimmed before the
marker is removed), and the command is rejected for its empty action; removing the marker
first and trimming afterwards gives `INIT x`.  A marker at the end of the buffer loses its
line breaks to the trim and is not removed at all. -/
theorem tcpCommand_trims_before_marker (cleanColumns : Str → List Str) (hasSession : Bool) :
    tcpCommand (ajxMarker ++ " INIT x".toList) = " INIT x".toList ∧
    trim (removeMarker ajxMarker 0 (ajxMarker ++ " INIT x".toList)) = "INIT x".toList ∧
    executeCommand cleanColumns hasSession (tcpCommand (ajxMarker ++ " INIT x".toList)) =
      Effect.error (execError ("Invalid command action: ".toList ++ [dq] ++ [dq])) ∧
    tcpCommand ("INIT x".toList ++ ajxMarker) = "INIT xAJX".toList ∧
    trim (removeMarker ajxMarker 0 ("INIT x".toList ++ ajxMarker)) = "INIT x".toList ∧
    tcpCommand (ajxMarker ++ "INIT x".toList) = "INIT x".toList := by
  refine ⟨by decide, by decide, ?_, by decide, by decide, by decide⟩
  exact executeCommand_of_rejected _ _ _ _ (by rfl)

set_option maxRecDepth 100000 in
/-- C18: the accepted command `FIND name, distinct IN t`, whose token after FIND is `name,`,
calls `showOneTable` with the distinct modifier set and with the columns `name` and the empty
text: the dispatcher looks for the word DISTINCT anywhere before IN and removes it.  With
DISTINCT right after FIND the modifier is set, and without the word it is not. -/
theorem find_distinct_column (cleanColumns : Str → List Str) :
    accepted "FIND name, distinct IN t".toList = true ∧
    executeCommand cleanColumns true "FIND name, distinct IN t".toList =
      Effect.call (Call.showOneTable "t".toList true (some ["name".toList, []]) none none) ∧
    executeCommand cleanColumns true "FIND DISTINCT name IN t".toList =
      Effect.call (Call.showOneTable "t".toList true (some ["name".toList]) none none) ∧
    executeCommand cleanColumns true "FIND name, age IN t".toList =
      Effect.call (Call.showOneTable "t".toList false (some ["name".toList, "age".toList])
        none none) := by
  refine ⟨by decide, ?_, ?_, ?_⟩
  · rw [executeCommand_of_accepted _ _ _ (by decide), dispatch_find _ _ (by decide)]
    decide
  · rw [executeCommand_of_accepted _ _ _ (by decide), dispatch_find _ _ (by decide)]
    decide
  · rw [executeCommand_of_accepted _ _ _ (by decide), dispatch_find _ _ (by decide)]
    decide

set_option maxRecDepth 100000 in
/-- C19: `DELETE FROM t  WHERE a = 1`, with two spaces before WHERE, is accepted by the DELETE
rule of `verifySyntax`, the dispatcher's DELETE pattern does not match it, and `executeCommand`
fails with a low-level error on the null match; `DELETE FROM tWHEREaINb` is accepted as a
deletion from `t` where `a IN b`, and the dispatcher reads the whole text as a table name and
answers with a full-table read.  `DELETE FROM t WHERE a = 1` is a `delete` call. -/
theorem delete_grammar_mismatch (cleanColumns : Str → List Str) :
    accepted "DELETE FROM t  WHERE a = 1".toList = true ∧
    (reExec Rx.deleteRegex "DELETE FROM t  WHERE a = 1".toList).isSome = false ∧
    executeCommand cleanColumns true "DELETE FROM t  WHERE a = 1".toList = Effect.typeError ∧
    accepted "DELETE FROM t WHERE a LIKE b".toList = true ∧
    executeCommand cleanColumns true "DELETE FROM t WHERE a LIKE b".toList = Effect.typeError ∧
    accepted "DELETE FROM tWHEREaINb".toList = true ∧
    executeCommand cleanColumns true "DELETE FROM tWHEREaINb".toList =
      Effect.call (Call.showOneTableByName "tWHEREaINb".toList) ∧
    executeCommand cleanColumns true "DELETE FROM t WHERE a = 1".toList =
      Effect.call (Call.delete "t".toList "a".toList "=".toList
        (some (Typed.num (JSNumber.finite false 1 0)))) := by
  refine ⟨by decide, by decide, ?_, by decide, ?_, by decide, ?_, ?_⟩
  · rw [executeCommand_of_accepted _ _ _ (by decide), dispatch_delete _ _ (by decide)]
    decide
  · rw [executeCommand_of_accepted _ _ _ (by decide), dispatch_delete _ _ (by decide)]
    decide
  · rw [executeCommand_of_accepted _ _ _ (by decide), dispatch_delete _ _ (by decide)]
    decide
  · rw [executeCommand_of_accepted _ _ _ (by decide), dispatch_delete _ _ (by decide)]
    decide

set_option maxRecDepth 100000 in
/-- C20: the accepted command `FIND * IN users WHERE name LIKE 'A%'` is answered with a
`showOneTable` call without any condition: the dispatcher's WHERE pattern knows no LIKE, and a
WHERE clause that it cannot read is skipped.  The same happens to `FIND * IN t WHERE a =`,
whose condition has no value.  `FIND * IN t WHERE a = 1` is a `find` call. -/
theorem find_where_dropped (cleanColumns : Str → List Str) :
    accepted ("FIND * IN users WHERE name LIKE ".toList ++ [sq] ++ "A%".toList ++ [sq]) = true ∧
    executeCommand cleanColumns true
        ("FIND * IN users WHERE name LIKE ".toList ++ [sq] ++ "A%".toList ++ [sq]) =
      Effect.call (Call.showOneTable "users".toList false none none none) ∧
    accepted "FIND * IN t WHERE a =".toList = true ∧
    executeCommand cleanColumns true "FIND * IN t WHERE a =".toList =
      Effect.call (Call.showOneTable "t".toList false none none none) ∧
    executeCommand cleanColumns true "FIND * IN t WHERE a = 1".toList =
      Effect.call (Call.find "t".toList false none "a".toList "=".toList
        (some (Typed.num (JSNumber.finite false 1 0))) none none) := by
  refine ⟨by decide, ?_, by decide, ?_, ?_⟩
  · rw [executeCommand_of_accepted _ _ _ (by decide), dispatch_find _ _ (by decide)]
    decide
  · rw [executeCommand_of_accepted _ _ _ (by decide), dispatch_find _ _ (by decide)]
    decide
  · rw [executeCommand_of_accepted _ _ _ (by decide), dispatch_find _ _ (by decide)]
    decide

theorem sendLoop_shape (chunkSize : Nat) (response : Str) :
    ∀ (fuel i : Nat) (chunks : List Str), sendLoop chunkSize response fuel i = some chunks →
      ∀ c ∈ chunks, c.length = chunkSize ∨ (c ≠ [] ∧ ∃ front, response = front ++ c) := by
  intro fuel
  induction fuel with
  | zero => intro i chunks h; simp [sendLoop] at h
  | succ f ih =>
    intro i chunks h c hc
    unfold sendLoop at h
    by_cases hi : i < response.length
    · rw [if_pos hi] at h
      cases hr : sendLoop chunkSize response f (i + chunkSize) with
      | none => rw [hr] at h; cases h
      | some rest =>
        rw [hr] at h
        simp only [Option.map_some', Option.some.injEq] at h
        subst h
        rcases List.mem_cons.1 hc with rfl | hc
        · by_cases hlen : chunkSize ≤ response.length - i
          · left
            rw [List.length_take, List.length_drop]
            omega
          · right
            have htake : (response.drop i).take chunkSize = response.drop i :=
              List.take_of_length_le (by rw [List.length_drop]; omega)
            rw [htake]
            refine ⟨?_, response.take i, (List.take_append_drop i response).symm⟩
            intro h0
            have := congrArg List.length h0
            rw [List.length_drop] at this
            simp at this
            omega
        · exact ih (i + chunkSize) rest hr c hc
    · rw [if_neg hi] at h
      simp only [Option.some.injEq] at h
      subst h
      cases hc

theorem getLast?_append_ne_nil (front c : Str) (h : c ≠ []) :
    (front ++ c).getLast? = c.getLast? := by
  obtain ⟨x, xs, rfl⟩ := List.exists_cons_of_ne_nil h
  rw [List.getLast?_append_cons]

theorem endOfResponse_not_chunk (chunkSize : Nat) (response : Str) (fuel i : Nat)
    (chunks : List Str) (h : sendLoop chunkSize response fuel i = some chunks)
    (hsize : chunkSize ≠ 15) (hlast : response.getLast? ≠ some 'E') :
    endOfResponse ∉ chunks := by
  intro hmem
  rcases sendLoop_shape chunkSize response fuel i chunks h _ hmem with hl | ⟨hne, front, hf⟩
  · exact hsize hl.symm
  · apply hlast
    rw [hf, getLast?_append_ne_nil front _ hne]
    rfl

theorem sendLargeResponse_terminated (chunkSize : Nat) (response : Str) (hpos : 0 < chunkSize) :
    ∃ payload : List Str,
      (∀ fuel, response.length < fuel →
        sendLargeResponse chunkSize response fuel = some (payload ++ [endOfResponse])) ∧
      payload.flatten = response ∧
      (chunkSize ≠ 15 → response.getLast? ≠ some 'E' → endOfResponse ∉ payload) := by
  obtain ⟨chunks, h1, -, -, h4⟩ :=
    sendLoop_spec chunkSize response hpos response.length 0 (by omega)
  refine ⟨chunks, ?_, by simpa using h4, ?_⟩
  · intro fuel hf
    simp [sendLargeResponse, h1 fuel hf]
  · intro hsize hlast
    exact endOfResponse_not_chunk chunkSize response (response.length + 1) 0 chunks
      (h1 _ (by omega)) hsize hlast

theorem jsonString_getLast (s : Str) : (jsonString s).getLast? = some dq := by
  unfold jsonString
  rw [List.getLast?_append_cons]
  rfl

theorem errorJson_getLast (m : Str) : (errorJson m).getLast? = some (Char.ofNat 125) := by
  unfold errorJson
  rw [List.getLast?_append_cons]
  rfl

theorem awaitCommand_json (engine : Call → Except Str Returned) (typeErrorMessage : Str)
    (cleanColumns : Str → List Str) (hasSession : Bool) (command : Str)
    (hjson : ∀ c length json, engine c = Except.ok (Returned.value length json) →
      json.getLast? ≠ some 'E')
    (length : Option Nat) (json : Str)
    (h : awaitCommand engine typeErrorMessage cleanColumns hasSession command =
      Except.ok (Returned.value length json)) : json.getLast? ≠ some 'E' := by
  unfold awaitCommand at h
  cases he : executeCommand cleanColumns hasSession command with
  | call c =>
    rw [he] at h
    exact hjson c length json h
  | useDatabase n =>
    rw [he] at h
    simp only at h
    cases hi : engine (Call.init n) with
    | error m => rw [hi] at h; cases h
    | ok r =>
      rw [hi] at h
      simp only [textResult, Except.ok.injEq, Returned.value.injEq] at h
      rw [← h.2, jsonString_getLast]
      decide
  | error m => rw [he] at h; cases h
  | typeError => rw [he] at h; cases h

/-- C15: for a positive chunk size, `handleTCP` finishes for every buffer and every outcome of
`executeCommand`, and its writes are the payload writes followed by one `END_OF_RESPONSE`,
which is the last write.  No payload write is the terminator text when the chunk size is not
15 (the length of the terminator) and the JSON text of a result does not end in the letter
`E`, as no JSON text does.  When `executeCommand` fails with message `m` (a syntax error, a
session error, a failure of the collaborator or a low-level failure), the payload writes
concatenate to the JSON text of the object whose only field is `error` with value `m`; when
it resolves to a value, they concatenate to the JSON text of that value. -/
theorem handleTCP_terminated (engine : Call → Except Str Returned) (typeErrorMessage : Str)
    (cleanColumns : Str → List Str) (chunkSize : Nat) (hasSession : Bool) (data : Str)
    (hpos : 0 < chunkSize)
    (hjson : ∀ c length json, engine c = Except.ok (Returned.value length json) →
      json.getLast? ≠ some 'E') :
    ∃ (payload : List Str) (n : Nat),
      (∀ fuel, n < fuel →
        handleTCP engine typeErrorMessage cleanColumns chunkSize hasSession data fuel =
          some (payload ++ [endOfResponse])) ∧
      (chunkSize ≠ 15 → endOfResponse ∉ payload) ∧
      (∀ m, awaitCommand engine typeErrorMessage cleanColumns hasSession (tcpCommand data) =
          Except.error m → payload.flatten = errorJson m) ∧
      (∀ length json,
        awaitCommand engine typeErrorMessage cleanColumns hasSession (tcpCommand data) =
          Except.ok (Returned.value length json) → payload.flatten = json) := by
  have herr : ∀ m : Str, (errorJson m).getLast? ≠ some 'E' := by
    intro m
    rw [errorJson_getLast]
    decide
  unfold handleTCP
  cases ha : awaitCommand engine typeErrorMessage cleanColumns hasSession (tcpCommand data) with
  | error m =>
    obtain ⟨payload, h1, h2, h3⟩ := sendLargeResponse_terminated chunkSize (errorJson m) hpos
    refine ⟨payload, (errorJson m).length, ?_, fun hs => h3 hs (herr m), ?_, ?_⟩
    · intro fuel hf
      exact h1 fuel hf
    · intro m2 hm
      cases hm
      exact h2
    · intro length json hm
      cases hm
  | ok r =>
    cases r with
    | nullish =>
      obtain ⟨payload, h1, h2, h3⟩ :=
        sendLargeResponse_terminated chunkSize (errorJson typeErrorMessage) hpos
      refine ⟨payload, (errorJson typeErrorMessage).length, ?_,
        fun hs => h3 hs (herr typeErrorMessage), ?_, ?_⟩
      · intro fuel hf
        exact h1 fuel hf
      · intro m2 hm
        cases hm
      · intro length json hm
        cases hm
    | value length json =>
      have hlast := awaitCommand_json engine typeErrorMessage cleanColumns hasSession
        (tcpCommand data) hjson length json ha
      have hvia : ∀ payload : List Str,
          (∀ fuel, json.length < fuel →
            sendLargeResponse chunkSize json fuel = some (payload ++ [endOfResponse])) →
          payload.flatten = json →
          (chunkSize ≠ 15 → json.getLast? ≠ some 'E' → endOfResponse ∉ payload) →
          (∀ fuel, writeOutcome typeErrorMessage chunkSize fuel
            (Except.ok (Returned.value length json)) = sendLargeResponse chunkSize json fuel) →
          ∃ (payload : List Str) (n : Nat),
            (∀ fuel, n < fuel →
              writeOutcome typeErrorMessage chunkSize fuel
                (Except.ok (Returned.value length json)) = some (payload ++ [endOfResponse])) ∧
            (chunkSize ≠ 15 → endOfResponse ∉ payload) ∧
            (∀ m, Except.ok (Returned.value length json) = (Except.error m : Except Str Returned) →
              payload.flatten = errorJson m) ∧
            (∀ l2 j2, (Except.ok (Returned.value length json) : Except Str Returned) =
              Except.ok (Returned.value l2 j2) → payload.flatten = j2) := by
        intro payload h1 h2 h3 hw
        refine ⟨payload, json.length, ?_, fun hs => h3 hs hlast, ?_, ?_⟩
        · intro fuel hf
          rw [hw fuel]
          exact h1 fuel hf
        · intro m2 hm
          cases hm
        · intro l2 j2 hm
          cases hm
          exact h2
      have hdirect : (∀ fuel, writeOutcome typeErrorMessage chunkSize fuel
            (Except.ok (Returned.value length json)) = some [json, endOfResponse]) →
          ∃ (payload : List Str) (n : Nat),
            (∀ fuel, n < fuel →
              writeOutcome typeErrorMessage chunkSize fuel
                (Except.ok (Returned.value length json)) = some (payload ++ [endOfResponse])) ∧
            (chunkSize ≠ 15 → endOfResponse ∉ payload) ∧
            (∀ m, Except.ok (Returned.value length json) = (Except.error m : Except Str Returned) →
              payload.flatten = errorJson m) ∧
            (∀ l2 j2, (Except.ok (Returned.value length json) : Except Str Returned) =
              Except.ok (Returned.value l2 j2) → payload.flatten = j2) := by
        intro hw
        refine ⟨[json], 0, ?_, ?_, ?_, ?_⟩
        · intro fuel _
          rw [hw fuel]
          rfl
        · intro _ hmem
          rw [List.mem_singleton] at hmem
          apply hlast
          rw [← hmem]
          rfl
        · intro m2 hm
          cases hm
        · intro l2 j2 hm
          cases hm
          simp
      obtain ⟨payload, h1, h2, h3⟩ := sendLargeResponse_terminated chunkSize json hpos
      cases length with
      | none => exact hvia payload h1 h2 h3 (fun _ => rfl)
      | some k =>
        by_cases hk : k ≤ chunkSize
        · apply hdirect
          intro fuel
          simp [writeOutcome, hk]
        · apply hvia payload h1 h2 h3
          intro fuel
          simp [writeOutcome, hk]

theorem handleTCP_terminated_witness :
    ∃ (payload : List Str) (n : Nat),
      (∀ fuel, n < fuel →
        handleTCP (fun _ => Except.ok (Returned.value (some 0) "[]".toList)) "t".toList
            (splitChar ',') 16384 true (ajxMarker ++ "FOO".toList) fuel =
          some (payload ++ [endOfResponse])) ∧
      (16384 ≠ 15 → endOfResponse ∉ payload) ∧
      (∀ m, awaitCommand (fun _ => Except.ok (Returned.value (some 0) "[]".toList)) "t".toList
            (splitChar ',') true (tcpCommand (ajxMarker ++ "FOO".toList)) =
          Except.error m → payload.flatten = errorJson m) ∧
      (∀ length json,
        awaitCommand (fun _ => Except.ok (Returned.value (some 0) "[]".toList)) "t".toList
            (splitChar ',') true (tcpCommand (ajxMarker ++ "FOO".toList)) =
          Except.ok (Returned.value length json) → payload.flatten = json) :=
  handleTCP_terminated (fun _ => Except.ok (Returned.value (some 0) "[]".toList)) "t".toList
    (splitChar ',') 16384 true (ajxMarker ++ "FOO".toList) (by decide)
    (fun _ _ json h => by
      simp only [Except.ok.injEq, Returned.value.injEq] at h
      rw [← h.2]
      decide)

/-- C16: when the body of the request is a command that `verifySyntax` rejects with message
`m`, `handleHTTP` writes nothing: it rejects with `m` before the write, so no response with
status code 200 and no JSON body with an error field is sent. -/
theorem handleHTTP_failure_unwritten (getHttpRequest : Str → Option Str)
    (createHttpResponse : Returned → Nat → Str) (engine : Call → Except Str Returned)
    (typeErrorMessage : Str) (cleanColumns : Str → List Str) (hasSession : Bool)
    (data body m : Str) (hbody : getHttpRequest data = some body)
    (hrejected : verifySyntax body = Except.error m) :
    handleHTTP getHttpRequest createHttpResponse engine typeErrorMessage cleanColumns
      hasSession data = Except.error m := by
  unfold handleHTTP awaitCommand
  simp only [hbody, executeCommand_of_rejected cleanColumns hasSession body m hrejected]

set_option maxRecDepth 100000 in
theorem handleHTTP_failure_unwritten_witness :
    handleHTTP (fun _ => some "FOO".toList) (fun _ _ => "response".toList)
      (fun _ => Except.ok Returned.nullish) [] (splitChar ',') true "POST / HTTP/1.1".toList =
    Except.error (execError ("Invalid command action: ".toList ++ [dq] ++ "FOO".toList ++ [dq])) :=
  handleHTTP_failure_unwritten (fun _ => some "FOO".toList) (fun _ _ => "response".toList)
    (fun _ => Except.ok Returned.nullish) [] (splitChar ',') true "POST / HTTP/1.1".toList
    "FOO".toList _ rfl (by rfl)

theorem toDigitsCore_append (f n : Nat) (acc : List Char) :
    Nat.toDigitsCore 10 f n acc = Nat.toDigitsCore 10 f n [] ++ acc := by
  induction f generalizing n acc with
  | zero => rfl
  | succ f ih =>
    simp only [Nat.toDigitsCore]
    by_cases h : n / 10 = 0
    · rw [if_pos h, if_pos h]
      rfl
    · rw [if_neg h, if_neg h, ih (n / 10) (_ :: acc), ih (n / 10) [_]]
      simp

theorem toDigitsCore_fuel (f g n : Nat) (hf : n < f) (hg : n < g) :
    Nat.toDigitsCore 10 f n [] = Nat.toDigitsCore 10 g n [] := by
  induction f generalizing g n with
  | zero => omega
  | succ f ih =>
    obtain ⟨g, rfl⟩ : ∃ k, g = k + 1 := ⟨g - 1, by omega⟩
    simp only [Nat.toDigitsCore]
    by_cases h : n / 10 = 0
    · rw [if_pos h, if_pos h]
    · rw [if_neg h, if_neg h, toDigitsCore_append f, toDigitsCore_append g,
        ih g (n / 10) (by omega) (by omega)]

theorem natToStr_eq (n : Nat) : natToStr n = Nat.toDigitsCore 10 (n + 1) n [] := rfl

theorem natToStr_small (n : Nat) (h : n < 10) : natToStr n = [Nat.digitChar n] := by
  rw [natToStr_eq]
  simp only [Nat.toDigitsCore]
  rw [if_pos (by omega), Nat.mod_eq_of_lt h]

theorem toDigitsCore_succ (f n : Nat) (acc : List Char) :
    Nat.toDigitsCore 10 (f + 1) n acc =
      if n / 10 = 0 then Nat.digitChar (n % 10) :: acc
      else Nat.toDigitsCore 10 f (n / 10) (Nat.digitChar (n % 10) :: acc) := by
  simp only [Nat.toDigitsCore]

theorem natToStr_step (n : Nat) (h : 10 ≤ n) :
    natToStr n = natToStr (n / 10) ++ [Nat.digitChar (n % 10)] := by
  rw [natToStr_eq n, toDigitsCore_succ, if_neg (by omega), toDigitsCore_append,
    toDigitsCore_fuel n (n / 10 + 1) (n / 10) (by omega) (by omega), ← natToStr_eq]

theorem digitChar_facts : ∀ d, d < 10 →
    isDigit (Nat.digitChar d) = true ∧ (Nat.digitChar d).toNat - 48 = d ∧
      (Nat.digitChar d = '0' → d = 0) := by
  decide

theorem digitsValue_append (s : Str) (c : Char) :
    digitsValue (s ++ [c]) = 10 * digitsValue s + (c.toNat - 48) := by
  unfold digitsValue
  rw [List.foldl_append]
  rfl

theorem natToStr_spec (n : Nat) :
    (∀ c ∈ natToStr n, isDigit c = true) ∧ digitsValue (natToStr n) = n ∧
      ∃ front, natToStr n = front ++ [Nat.digitChar (n % 10)] := by
  induction n using Nat.strong_induction_on with
  | _ n ih =>
    by_cases h : n < 10
    · obtain ⟨f1, f2, -⟩ := digitChar_facts n h
      rw [natToStr_small n h]
      refine ⟨?_, ?_, [], ?_⟩
      · intro c hc
        rw [List.mem_singleton] at hc
        rw [hc]
        exact f1
      · show 10 * 0 + ((Nat.digitChar n).toNat - 48) = n
        omega
      · rw [Nat.mod_eq_of_lt h]
        rfl
    · obtain ⟨g1, g2, -⟩ := ih (n / 10) (by omega)
      obtain ⟨f1, f2, -⟩ := digitChar_facts (n % 10) (by omega)
      rw [natToStr_step n (by omega)]
      refine ⟨?_, ?_, natToStr (n / 10), rfl⟩
      · intro c hc
        rcases List.mem_append.1 hc with hc | hc
        · exact g1 c hc
        · rw [List.mem_singleton] at hc
          rw [hc]
          exact f1
      · rw [digitsValue_append, g2, f2]
        omega

theorem natToStr_pow (m e : Nat) (hm : 0 < m) :
    natToStr (m * 10 ^ e) = natToStr m ++ List.replicate e '0' := by
  induction e with
  | zero => simp
  | succ e ih =>
    have hpos : 0 < m * 10 ^ e := Nat.mul_pos hm (pow_pos (by decide) e)
    have h1 : m * 10 ^ (e + 1) = (m * 10 ^ e) * 10 := by rw [pow_succ, Nat.mul_assoc]
    rw [natToStr_step _ (by omega), h1, Nat.mul_div_cancel _ (by decide), Nat.mul_mod_left, ih,
      List.replicate_succ', List.append_assoc]
    rfl

theorem digit_facts (c : Char) (h : isDigit c = true) :
    isWhiteSpace c = false ∧ c ≠ '-' ∧ c ≠ '+' ∧ c ≠ 'I' ∧ c ≠ sq ∧ c ≠ dq ∧
      asciiLower c ≠ 'n' := by
  simp only [isDigit, Bool.and_eq_true, decide_eq_true_eq] at h
  refine ⟨?_, ?_, ?_, ?_, ?_, ?_, ?_⟩
  · simp only [isWhiteSpace, Bool.or_eq_false_iff, Bool.and_eq_false_iff, beq_eq_false_iff_ne,
      decide_eq_false_iff_not]
    omega
  · rintro rfl; revert h; decide
  · rintro rfl; revert h; decide
  · rintro rfl; revert h; decide
  · rintro rfl; revert h; decide
  · rintro rfl; revert h; decide
  · have hu : isUpperAscii c = false := by
      simp only [isUpperAscii, Bool.and_eq_false_iff, decide_eq_false_iff_not]
      omega
    unfold asciiLower
    rw [hu]
    simp only [Bool.false_eq_true, if_false]
    rintro rfl; revert h; decide

theorem exponentPart_nil : exponentPart [] = (0, []) := rfl

theorem scanFloat_digits (neg : Bool) (ds : Str) (hne : ds ≠ [])
    (hd : ∀ c ∈ ds, isDigit c = true) :
    scanFloat ((if neg then ['-'] else []) ++ ds) = some (decimalNumber neg ds 0, []) := by
  obtain ⟨c, cs, rfl⟩ := List.exists_cons_of_ne_nil hne
  obtain ⟨f1, f2, f3, f4, -, -, -⟩ := digit_facts c (hd c (List.mem_cons_self _ _))
  have hsign : takeSign (trimStart ((if neg then ['-'] else []) ++ c :: cs)) = (neg, c :: cs) := by
    cases neg with
    | true =>
      show takeSign (trimStart ('-' :: c :: cs)) = (true, c :: cs)
      unfold trimStart
      rw [List.dropWhile_cons_of_neg (by decide)]
      rfl
    | false =>
      show takeSign (trimStart (c :: cs)) = (false, c :: cs)
      unfold trimStart
      rw [List.dropWhile_cons_of_neg (by simp [f1])]
      show (if c = '-' then (true, cs) else if c = '+' then (false, cs) else (false, c :: cs)) = _
      rw [if_neg f2, if_neg f3]
  have hinf : "Infinity".toList.isPrefixOf (c :: cs) = false := by
    show ('I' :: "nfinity".toList).isPrefixOf (c :: cs) = false
    rw [List.isPrefixOf_cons₂]
    have : ('I' == c) = false := by
      rw [beq_eq_false_iff_ne]
      exact fun h => f4 h.symm
    rw [this]
    rfl
  have htake : (c :: cs).takeWhile isDigit = c :: cs :=
    List.takeWhile_eq_self_iff.2 hd
  have hdrop : (c :: cs).dropWhile isDigit = [] :=
    List.dropWhile_eq_nil_iff.2 hd
  unfold scanFloat
  simp only [hsign, hinf, htake, hdrop, exponentPart_nil, List.isEmpty_cons, Bool.false_eq_true,
    if_false]

theorem dropWhile_replicate_append (p : Char → Bool) (a : Char) (e : Nat) (l : Str)
    (h : p a = true) : (List.replicate e a ++ l).dropWhile p = l.dropWhile p := by
  induction e with
  | zero => rfl
  | succ e ih =>
    rw [List.replicate_succ, List.cons_append, List.dropWhile_cons_of_pos h, ih]

theorem decimalNumber_integer (neg : Bool) (m e : Nat) (hm : m % 10 ≠ 0) :
    decimalNumber neg (natToStr (m * 10 ^ e)) 0 = JSNumber.finite neg m (e : Int) := by
  have hpos : 0 < m := by omega
  obtain ⟨-, hval, front, hfront⟩ := natToStr_spec m
  obtain ⟨-, -, hzero⟩ := digitChar_facts (m % 10) (by omega)
  have hsig : ((natToStr (m * 10 ^ e)).reverse.dropWhile (fun c => c == '0')).reverse =
      natToStr m := by
    rw [natToStr_pow m e hpos, List.reverse_append, List.reverse_replicate,
      dropWhile_replicate_append _ _ _ _ (by rfl)]
    rw [hfront, List.reverse_append, List.reverse_singleton, List.singleton_append,
      List.dropWhile_cons_of_neg]
    · rw [List.reverse_cons, List.reverse_reverse]
    · intro h
      rw [beq_iff_eq] at h
      exact hm (hzero h)
  unfold decimalNumber
  simp only [hsig, hval]
  rw [if_neg (by omega), natToStr_pow m e hpos, List.length_append, List.length_replicate]
  congr 1
  omega

theorem eqIgnoreCase_head (c : Char) (rest : Str) (h : asciiLower c ≠ 'n') :
    eqIgnoreCase (c :: rest) "NULL".toList = false := by
  unfold eqIgnoreCase
  rw [beq_eq_false_iff_ne]
  intro heq
  have h2 : (List.map asciiLower (c :: rest)).head? =
      (List.map asciiLower "NULL".toList).head? := by rw [heq]
  rw [List.map_cons, List.head?_cons] at h2
  exact h (Option.some.inj h2)

theorem cleanPrefix_integer (neg : Bool) (ds : Str) (hne : ds ≠ [])
    (hd : ∀ c ∈ ds, isDigit c = true) :
    cleanPrefix ((if neg then ['-'] else []) ++ ds) = Typed.num (decimalNumber neg ds 0) := by
  have hscan := scanFloat_digits neg ds hne hd
  obtain ⟨c, cs, rfl⟩ := List.exists_cons_of_ne_nil hne
  obtain ⟨-, -, -, -, f5, f6, f7⟩ := digit_facts c (hd c (List.mem_cons_self _ _))
  obtain ⟨y, ys, hy, hy1, hy2, hy3⟩ : ∃ y ys, (if neg then ['-'] else []) ++ c :: cs = y :: ys ∧
      asciiLower y ≠ 'n' ∧ y ≠ sq ∧ y ≠ dq := by
    cases neg with
    | true => exact ⟨'-', c :: cs, rfl, by decide, by decide, by decide⟩
    | false => exact ⟨c, cs, rfl, f7, f5, f6⟩
  unfold cleanPrefix
  rw [hscan, hy, eqIgnoreCase_head y ys hy1, unwrapQuotes_cons, if_neg Bool.false_ne_true,
    if_neg (fun h => h.1.elim hy2 hy3)]

theorem clean_jsonInteger (x : JSNumber) (hint : x.isInteger = true)
    (hzero : x ≠ JSNumber.finite true 0 0) : clean (jsonInteger x) = Typed.num x := by
  cases x with
  | infinity neg => cases hint
  | finite neg mant exp =>
    simp only [JSNumber.isInteger, Bool.or_eq_true, Bool.and_eq_true, decide_eq_true_eq] at hint
    rcases hint with ⟨rfl, rfl⟩ | ⟨hm, he⟩
    · cases neg with
      | true => exact absurd rfl hzero
      | false => decide
    · have hne : mant ≠ 0 := by
        intro h
        rw [h] at hm
        exact hm rfl
      obtain ⟨hd, -, front, hfront⟩ := natToStr_spec (mant * 10 ^ exp.toNat)
      have hlit : jsonInteger (JSNumber.finite neg mant exp) =
          (if neg then ['-'] else []) ++ natToStr (mant * 10 ^ exp.toNat) := by
        unfold jsonInteger
        simp [hne]
      rw [clean_eq_cleanPrefix_aux, hlit, cleanPrefix_integer neg _ (by rw [hfront]; simp) hd,
        decimalNumber_integer neg mant exp.toNat hm, Int.toNat_of_nonneg he]

theorem flatMap_jsonEscape_plain (s : Str) (h : ∀ c ∈ s, c ≠ dq ∧ c ≠ bsl ∧ 32 ≤ c.toNat) :
    s.flatMap jsonEscape = s := by
  induction s with
  | nil => rfl
  | cons c cs ih =>
    obtain ⟨h1, h2, h3⟩ := h c (List.mem_cons_self _ _)
    have hc : jsonEscape c = [c] := by
      unfold jsonEscape
      rw [if_neg h1, if_neg h2, if_neg (by omega), if_neg (by omega), if_neg (by omega),
        if_neg (by omega), if_neg (by omega), if_neg (by omega)]
    rw [List.flatMap_cons, hc, ih (fun d hd => h d (List.mem_cons_of_mem _ hd))]
    rfl

theorem clean_jsonString (s : Str) : clean (jsonString s) = Typed.str (s.flatMap jsonEscape) := by
  have hshape : jsonString s = dq :: (s.flatMap jsonEscape ++ [dq]) := by
    unfold jsonString
    simp
  rw [clean_eq_cleanPrefix_aux, hshape]
  unfold cleanPrefix
  rw [eqIgnoreCase_head dq _ (by decide), unwrapQuotes_cons, if_neg Bool.false_ne_true,
    if_pos ⟨Or.inr rfl, by rw [List.getLast?_append_cons]; rfl⟩, List.dropLast_concat]

set_option maxRecDepth 100000 in
/-- C17 (counterexample): `clean` produces the string `a"b` (from the token `'a"b'`); applied
to the JSON literal of that string it returns the text with the backslash of the escape in
it, which is another string.  And the JSON literal of `-0` is `0`, on which `clean` returns
`0`. -/
theorem clean_json_escape_counterexample :
    clean (sq :: 'a' :: dq :: 'b' :: [sq]) = Typed.str ['a', dq, 'b'] ∧
    clean (jsonString ['a', dq, 'b']) = Typed.str ['a', bsl, dq, 'b'] ∧
    clean (jsonString ['a', dq, 'b']) ≠ Typed.str ['a', dq, 'b'] ∧
    clean "-0".toList = Typed.num (JSNumber.finite true 0 0) ∧
    clean (jsonInteger (JSNumber.finite true 0 0)) = Typed.num (JSNumber.finite false 0 0) := by
  refine ⟨by decide, by decide, by decide, by decide, by decide⟩

/-- C17 (amended): `clean` applied to the JSON literal `null` is null; applied to the decimal
digits of an integer number other than `-0` it is that number; applied to the JSON literal of
a string it is the text between the quotes of the literal, escapes included, which is the
string itself when the string has no double quote, no backslash and no control character. -/
theorem clean_round_trip :
    clean "null".toList = Typed.null ∧
    (∀ x : JSNumber, x.isInteger = true → x ≠ JSNumber.finite true 0 0 →
      clean (jsonInteger x) = Typed.num x) ∧
    (∀ s : Str, clean (jsonString s) = Typed.str (s.flatMap jsonEscape)) ∧
    (∀ s : Str, (∀ c ∈ s, c ≠ dq ∧ c ≠ bsl ∧ 32 ≤ c.toNat) →
      clean (jsonString s) = Typed.str s) :=
  ⟨by decide, clean_jsonInteger, clean_jsonString,
    fun s h => by rw [clean_jsonString, flatMap_jsonEscape_plain s h]⟩

theorem clean_round_trip_witness :
    clean (jsonInteger (JSNumber.finite true 12 2)) = Typed.num (JSNumber.finite true 12 2) ∧
    clean (jsonString "abc".toList) = Typed.str "abc".toList :=
  ⟨clean_round_trip.2.1 _ (by decide) (by decide), clean_round_trip.2.2.2 _ (by decide)⟩

set_option maxRecDepth 100000 in
/-- C4: with `CHUNK_SIZE=3` in the environment the chunk size is the string `3`, and
`sendLargeResponse` writes the response `abcdefgh` as `abc`, `defgh` and `END_OF_RESPONSE`:
two chunks, the second of five characters, where three chunks of at most three characters
are claimed.  The index goes from the number 0 to the texts `03` and `033`, which read as 3
and 33.  With the number 3 as chunk size the writes are `abc`, `def`, `gh` and the
terminator; without a value in the environment the chunk size is the number 16384. -/
theorem sendLargeResponse_text_chunk_size :
    chunkSizeOf (some "3".toList) = ChunkSize.text "3".toList ∧
    (∀ fuel, sendLargeResponseWith (ChunkSize.text "3".toList) "abcdefgh".toList (fuel + 3) =
      some ["abc".toList, "defgh".toList, endOfResponse]) ∧
    (∀ fuel, sendLargeResponseWith (ChunkSize.number 3) "abcdefgh".toList (fuel + 4) =
      some ["abc".toList, "def".toList, "gh".toList, endOfResponse]) ∧
    chunkSizeOf none = ChunkSize.number 16384 := by
  refine ⟨by decide, ?_, ?_, by decide⟩
  · intro fuel
    rfl
  · intro fuel
    rfl

end NueDB
